import Mathlib

/-! Quota, pricing and mapping administration of the LLM gateway.

A shallow embedding of `service/quota.go`, `relay/helper/price.go`,
`controller/mapping.go`, `model/mapping.go`, the test proxy of
`controller/model_test_handler.go` and `DeleteUser` of `controller/user.go`, followed by
theorems about them.

Conventions of the embedding

* Go `int` is `Int`; the quotas, token counts and identifiers of the gateway
  stay far from the 64-bit range, so no wrap-around is modelled.
* Go `float64` prices are exact rationals (`ℚ`): `service.calcQuotaFromTokens` and
  `helper.calcQuotaFromTokens` are the quota formula over exact arithmetic and
  unbounded integers. `machine.calcQuotaFromTokens` is the same body with the
  arithmetic of the machine: the roundings of `float64` (`Float64.nearest`) and the
  conversion to the 64-bit `int` as compiled for amd64 (`Float64.toInt`).
* The SQL of `model/mapping.go` is evaluated as SQLite does: `LIKE` ignores the case
  of ASCII letters, strings are ordered by code points, NULL sorts below every number.
* Calls into packages whose code is outside the embedded files (`model`,
  `logger`, ...) are recorded, in program order, as a list of `Event`s; the
  value each call returns is supplied by an `Env` of call results.
* The tables `abilities` and `channels` are lists of rows in a `Store`; a statement
  either applies or reports the error the store holds. Go maps are lists of entries
  in insertion order; `json.Marshal` and `json.Unmarshal` are parameters.
* Of `net/http` the embedding holds the header map with `Add` and `Set` and the
  canonical form of a header name; a request that leaves the gateway is recorded in
  the outcome of the handler, and what the upstream answers is supplied by the
  environment of the handler.
-/

set_option autoImplicit false

/-! ## `math.Round` and the integer conversion -/

/-- Go `math.Round`: the nearest integer, halves rounded away from zero. -/
def mathRound (x : ℚ) : ℤ :=
  if 0 ≤ x then Int.floor (x + 1 / 2) else -Int.floor (-x + 1 / 2)

/-- Package-level settings read by the embedded code (`common.QuotaPerUnit`,
`common.PreConsumedQuota`, `common.QuotaRemindThreshold`, the quota setting
`EnableFreeModelPreConsume`); their declarations sit outside the embedded files, so
they are parameters of the embedding. -/
structure Settings where
  QuotaPerUnit : ℚ
  PreConsumedQuota : Int
  QuotaRemindThreshold : Int
  EnableFreeModelPreConsume : Bool
  deriving DecidableEq

namespace service

/-- Function `calcQuotaFromTokens` of `service/quota.go`, over exact rationals and unbounded
integers. -/
def calcQuotaFromTokens (cfg : Settings) (tokens : Int) (pricePer1M : ℚ) : Int :=
  if tokens ≤ 0 ∨ pricePer1M ≤ 0 then 0
  else mathRound (((tokens : ℚ) * pricePer1M / 1000000) * cfg.QuotaPerUnit)

end service

namespace helper

/-- Function `calcQuotaFromTokens` of `relay/helper/price.go`, over exact rationals and
unbounded integers. -/
def calcQuotaFromTokens (cfg : Settings) (tokens : Int) (pricePer1M : ℚ) : Int :=
  if tokens ≤ 0 ∨ pricePer1M ≤ 0 then 0
  else mathRound (((tokens : ℚ) * pricePer1M / 1000000) * cfg.QuotaPerUnit)

end helper


/-! ## Data carried through a request -/

/-- Type `types.GroupRatioInfo`, the two fields the embedded code assigns. -/
structure GroupRatioInfo where
  GroupRatio : ℚ
  GroupSpecialRatio : ℚ
  deriving DecidableEq

/-- Type `types.PriceData`, with the fields `ModelPriceHelper` fills in. -/
structure PriceData where
  FreeModel : Bool
  ModelPrice : ℚ
  ModelRatio : ℚ
  CompletionRatio : ℚ
  GroupRatioInfo : GroupRatioInfo
  UsePrice : Bool
  CacheRatio : ℚ
  ImageRatio : ℚ
  AudioRatio : ℚ
  AudioCompletionRatio : ℚ
  CacheCreationRatio : ℚ
  CacheCreation5mRatio : ℚ
  CacheCreation1hRatio : ℚ
  QuotaToPreConsume : Int
  deriving DecidableEq

/-- The user settings the embedded code reads (`dto.UserSetting`). -/
structure UserSetting where
  NotifyType : String
  QuotaWarningThreshold : ℚ
  AcceptUnsetRatioModel : Bool
  deriving DecidableEq

/-- Type `relaycommon.RelayInfo`, the fields the embedded code reads or writes.
`StartTime` is the Unix time of the request start. -/
structure RelayInfo where
  UserId : Int
  UserQuota : Int
  UserEmail : String
  UserSetting : UserSetting
  TokenId : Int
  TokenKey : String
  TokenUnlimited : Bool
  IsPlayground : Bool
  ChannelId : Int
  OriginModelName : String
  UsingGroup : String
  IsStream : Bool
  StartTime : Int
  FinalPreConsumedQuota : Int
  PriceData : PriceData
  deriving DecidableEq

/-- The text and audio token counts of one direction of a usage record. -/
structure TokenDetails where
  TextTokens : Int
  AudioTokens : Int
  deriving DecidableEq

/-- Type `dto.Usage`. -/
structure Usage where
  PromptTokens : Int
  CompletionTokens : Int
  TotalTokens : Int
  PromptTokensDetails : TokenDetails
  CompletionTokenDetails : TokenDetails
  deriving DecidableEq

/-- Type `dto.RealtimeUsage`. -/
structure RealtimeUsage where
  TotalTokens : Int
  InputTokens : Int
  OutputTokens : Int
  InputTokenDetails : TokenDetails
  OutputTokenDetails : TokenDetails
  deriving DecidableEq

/-- Type `types.TokenCountMeta`, the field read by `ModelPriceHelper`. -/
structure TokenCountMeta where
  MaxTokens : Int
  deriving DecidableEq

/-- The keys of the `gin.Context` the embedded code reads. -/
structure Context where
  token_name : String
  auto_group : Option String
  deriving DecidableEq

/-- Type `model.Token`, the fields read by the embedded code: the quota fields by the
pre-charge, `Key` and `Status` by the test proxy. -/
structure Token where
  RemainQuota : Int
  UnlimitedQuota : Bool
  Key : String := ""
  Status : Int := 0
  deriving DecidableEq

/-- Type `model.RecordConsumeLogParams`: one row of the consumption log. -/
structure RecordConsumeLogParams where
  ChannelId : Int
  PromptTokens : Int
  CompletionTokens : Int
  ModelName : String
  TokenName : String
  Quota : Int
  Content : String
  TokenId : Int
  UseTimeSeconds : Int
  IsStream : Bool
  Group : String
  Other : String
  deriving DecidableEq

/-! ## Calls that leave the embedded files -/

/-- One call into a package outside the embedded files, with its arguments and, for
the calls whose error is inspected, the error it returned (`none` is Go `nil`). -/
inductive Event where
  | DecreaseUserQuota (id quota : Int) (err : Option String)
  | IncreaseUserQuota (id quota : Int) (db : Bool) (err : Option String)
  | DecreaseTokenQuota (id : Int) (key : String) (quota : Int) (err : Option String)
  | IncreaseTokenQuota (id : Int) (key : String) (quota : Int) (err : Option String)
  | GetTokenByKey (key : String) (fromDB : Bool)
  | UpdateUserUsedQuotaAndRequestCount (id quota : Int)
  | UpdateChannelUsedQuota (id quota : Int)
  | RecordConsumeLog (userId : Int) (params : RecordConsumeLogParams)
  | NotifyUser (userId : Int) (email : String) (userSetting : UserSetting) (notifyType : String)
      (title : String) (content : String) (values : List String) (err : Option String)
  | LogError (msg : String)
  | LogInfo (msg : String)
  | LogDebug (msg : String)
  | SysError (msg : String)
  deriving DecidableEq

/-- What the calls outside the embedded files return: the ledger and lookup functions
of package `model`, `service.NotifyUser`, the formatting helpers, the `dto` constants
and the clock. It is a parameter of every embedded function that makes such calls. -/
structure Env where
  DecreaseUserQuota : Int → Int → Option String
  IncreaseUserQuota : Int → Int → Bool → Option String
  DecreaseTokenQuota : Int → String → Int → Option String
  IncreaseTokenQuota : Int → String → Int → Option String
  GetTokenByKey : String → Bool → Except String Token
  GetModelPricePer1M : String → ℚ × Bool
  NotifyUser : Int → String → UserSetting → String → String → String → List String → Option String
  FormatQuota : Int → String
  Sprintf6f : ℚ → String
  GenerateClaudeOtherInfo : RelayInfo → String
  GenerateAudioOtherInfo : RelayInfo → Usage → String
  GenerateWssOtherInfo : RelayInfo → RealtimeUsage → String
  NotifyTypeEmail : String
  NotifyTypeBark : String
  NotifyTypeGotify : String
  NotifyTypeQuotaExceed : String
  now : Int

/-- Go conversion `int(f)` of a float: truncation toward zero. -/
def intOfFloat (x : ℚ) : Int :=
  if 0 ≤ x then Int.floor x else -Int.floor (-x)

/-- Go `fmt.Sprintf("%d", n)`. -/
def sprintfD (n : Int) : String := toString n


/-! ## `service/quota.go` -/

namespace service

/-- Function `checkAndSendQuotaNotify`: the body handed to `gopool.Go`. The detached worker is
modelled by the events it produces, placed at the point where it is launched. -/
def checkAndSendQuotaNotify (cfg : Settings) (env : Env) (relayInfo : RelayInfo)
    (quota preConsumedQuota : Int) : List Event :=
  let userSetting := relayInfo.UserSetting
  let threshold :=
    if userSetting.QuotaWarningThreshold ≠ 0 then intOfFloat userSetting.QuotaWarningThreshold
    else cfg.QuotaRemindThreshold
  let consumeQuota := quota + preConsumedQuota
  let quotaTooLow := decide (relayInfo.UserQuota - consumeQuota < threshold)
  if quotaTooLow then
    let prompt := "您的额度即将用尽"
    let notifyType := if userSetting.NotifyType = "" then env.NotifyTypeEmail else userSetting.NotifyType
    let content :=
      if notifyType = env.NotifyTypeBark then "{{value}}，剩余额度：{{value}}，请联系管理员"
      else if notifyType = env.NotifyTypeGotify then "{{value}}，当前剩余额度为 {{value}}，请联系管理员。"
      else "{{value}}，当前剩余额度为 {{value}}，请联系管理员处理。"
    let values := [prompt, env.FormatQuota relayInfo.UserQuota]
    let err := env.NotifyUser relayInfo.UserId relayInfo.UserEmail relayInfo.UserSetting
      env.NotifyTypeQuotaExceed prompt content values
    let sent := Event.NotifyUser relayInfo.UserId relayInfo.UserEmail relayInfo.UserSetting
      env.NotifyTypeQuotaExceed prompt content values err
    match err with
    | some e =>
      [sent, Event.SysError ("failed to send quota notify to user " ++ sprintfD relayInfo.UserId
        ++ ": " ++ e)]
    | none => [sent]
  else []

/-- Function `PostConsumeQuota`: the events of the call and the error it returns. -/
def PostConsumeQuota (cfg : Settings) (env : Env) (relayInfo : RelayInfo) (quota : Int)
    (preConsumedQuota : Int) (sendEmail : Bool) : List Event × Option String :=
  -- 1) Consume from wallet quota
  let userStep : List Event × Option String :=
    if quota > 0 then
      let err := env.DecreaseUserQuota relayInfo.UserId quota
      ([Event.DecreaseUserQuota relayInfo.UserId quota err], err)
    else
      let err := env.IncreaseUserQuota relayInfo.UserId (-quota) false
      ([Event.IncreaseUserQuota relayInfo.UserId (-quota) false err], err)
  match userStep.2 with
  | some e => (userStep.1, some e)
  | none =>
    let tokenStep : List Event × Option String :=
      if !relayInfo.IsPlayground then
        if quota > 0 then
          let err := env.DecreaseTokenQuota relayInfo.TokenId relayInfo.TokenKey quota
          ([Event.DecreaseTokenQuota relayInfo.TokenId relayInfo.TokenKey quota err], err)
        else
          let err := env.IncreaseTokenQuota relayInfo.TokenId relayInfo.TokenKey (-quota)
          ([Event.IncreaseTokenQuota relayInfo.TokenId relayInfo.TokenKey (-quota) err], err)
      else ([], none)
    match tokenStep.2 with
    | some e => (userStep.1 ++ tokenStep.1, some e)
    | none =>
      let notify : List Event :=
        if sendEmail then
          if quota + preConsumedQuota ≠ 0 then
            checkAndSendQuotaNotify cfg env relayInfo quota preConsumedQuota
          else []
        else []
      (userStep.1 ++ tokenStep.1 ++ notify, none)

/-- Function `PreConsumeTokenQuota`: the events of the call and the error it returns. -/
def PreConsumeTokenQuota (env : Env) (relayInfo : RelayInfo) (quota : Int) :
    List Event × Option String :=
  if quota < 0 then ([], some "quota 不能为负数！")
  else if relayInfo.IsPlayground then ([], none)
  else
    let lookup := Event.GetTokenByKey relayInfo.TokenKey false
    match env.GetTokenByKey relayInfo.TokenKey false with
    | .error e => ([lookup], some e)
    | .ok token =>
      if !relayInfo.TokenUnlimited ∧ token.RemainQuota < quota then
        ([lookup], some ("token quota is not enough, token remain quota: "
          ++ env.FormatQuota token.RemainQuota ++ ", need quota: " ++ env.FormatQuota quota))
      else
        let err := env.DecreaseTokenQuota relayInfo.TokenId relayInfo.TokenKey quota
        ([lookup, Event.DecreaseTokenQuota relayInfo.TokenId relayInfo.TokenKey quota err], err)

/-- The log line written before the reconciliation: a supplementary charge when the
delta is positive, a refund when it is negative, nothing when it is zero. -/
def deltaLog (env : Env) (quotaDelta quota preConsumed : Int) : List Event :=
  if quotaDelta > 0 then
    [Event.LogInfo ("预扣费后补扣费：" ++ env.FormatQuota quotaDelta ++ "（实际消耗："
      ++ env.FormatQuota quota ++ "，预扣费：" ++ env.FormatQuota preConsumed ++ "）")]
  else if quotaDelta < 0 then
    [Event.LogInfo ("预扣费后返还扣费：" ++ env.FormatQuota (-quotaDelta) ++ "（实际消耗："
      ++ env.FormatQuota quota ++ "，预扣费：" ++ env.FormatQuota preConsumed ++ "）")]
  else []

/-- The reconciliation step shared by the post-charge routines: `PostConsumeQuota` is
called when the delta is not zero, and an error it returns is only logged. -/
def reconcile (cfg : Settings) (env : Env) (relayInfo : RelayInfo) (quotaDelta : Int) :
    List Event :=
  if quotaDelta ≠ 0 then
    let r := PostConsumeQuota cfg env relayInfo quotaDelta relayInfo.FinalPreConsumedQuota true
    match r.2 with
    | some e => r.1 ++ [Event.LogError ("error consuming token remain quota: " ++ e)]
    | none => r.1
  else []

/-- The error line logged when the total token count is zero. -/
def zeroTokensLog (relayInfo : RelayInfo) (modelName : String) : Event :=
  Event.LogError ("total tokens is 0, cannot consume quota, userId " ++ sprintfD relayInfo.UserId
    ++ ", channelId " ++ sprintfD relayInfo.ChannelId ++ ", tokenId " ++ sprintfD relayInfo.TokenId
    ++ ", model " ++ modelName ++ "， pre-consumed quota "
    ++ sprintfD relayInfo.FinalPreConsumedQuota)

/-- Function `PostWssConsumeQuota`: the events of the call. -/
def PostWssConsumeQuota (cfg : Settings) (env : Env) (ctx : Context) (relayInfo : RelayInfo)
    (modelName : String) (usage : RealtimeUsage) (extraContent : String) : List Event :=
  let useTimeSeconds := env.now - relayInfo.StartTime
  let textInputTokens := usage.InputTokenDetails.TextTokens
  let textOutTokens := usage.OutputTokenDetails.TextTokens
  let audioInputTokens := usage.InputTokenDetails.AudioTokens
  let audioOutTokens := usage.OutputTokenDetails.AudioTokens
  let tokenName := ctx.token_name
  let modelPrice := relayInfo.PriceData.ModelPrice
  let totalTokens :=
    if usage.TotalTokens = 0 then textInputTokens + textOutTokens + audioInputTokens + audioOutTokens
    else usage.TotalTokens
  let quota0 := calcQuotaFromTokens cfg totalTokens modelPrice
  let logContent0 := "单价 " ++ env.Sprintf6f modelPrice ++ " / 1M tokens"
  -- record all the consume log even if quota is 0
  let quota := if totalTokens = 0 then 0 else quota0
  let logContent1 := if totalTokens = 0 then logContent0 ++ "（可能是上游超时）" else logContent0
  let counters : List Event :=
    if totalTokens = 0 then [zeroTokensLog relayInfo modelName]
    else [Event.UpdateUserUsedQuotaAndRequestCount relayInfo.UserId quota,
          Event.UpdateChannelUsedQuota relayInfo.ChannelId quota]
  let logModel := modelName
  let logContent := if extraContent ≠ "" then logContent1 ++ ", " ++ extraContent else logContent1
  let other := env.GenerateWssOtherInfo relayInfo usage
  counters ++ [Event.RecordConsumeLog relayInfo.UserId
    { ChannelId := relayInfo.ChannelId
      PromptTokens := usage.InputTokens
      CompletionTokens := usage.OutputTokens
      ModelName := logModel
      TokenName := tokenName
      Quota := quota
      Content := logContent
      TokenId := relayInfo.TokenId
      UseTimeSeconds := useTimeSeconds
      IsStream := relayInfo.IsStream
      Group := relayInfo.UsingGroup
      Other := other }]

/-- Function `PostClaudeConsumeQuota`: the events of the call. -/
def PostClaudeConsumeQuota (cfg : Settings) (env : Env) (ctx : Context) (relayInfo : RelayInfo)
    (usage : Usage) : List Event :=
  let useTimeSeconds := env.now - relayInfo.StartTime
  let promptTokens := usage.PromptTokens
  let completionTokens := usage.CompletionTokens
  let modelName := relayInfo.OriginModelName
  let tokenName := ctx.token_name
  let modelPrice := relayInfo.PriceData.ModelPrice
  let totalTokens :=
    if usage.TotalTokens = 0 then promptTokens + completionTokens else usage.TotalTokens
  let quota0 := calcQuotaFromTokens cfg totalTokens modelPrice
  let logContent0 := "单价 " ++ env.Sprintf6f modelPrice ++ " / 1M tokens"
  -- record all the consume log even if quota is 0
  let quota := if totalTokens = 0 then 0 else quota0
  let logContent := if totalTokens = 0 then logContent0 ++ "（可能是上游出错）" else logContent0
  let counters : List Event :=
    if totalTokens = 0 then [zeroTokensLog relayInfo modelName]
    else [Event.UpdateUserUsedQuotaAndRequestCount relayInfo.UserId quota,
          Event.UpdateChannelUsedQuota relayInfo.ChannelId quota]
  let quotaDelta := quota - relayInfo.FinalPreConsumedQuota
  let other := env.GenerateClaudeOtherInfo relayInfo
  counters ++ deltaLog env quotaDelta quota relayInfo.FinalPreConsumedQuota
    ++ reconcile cfg env relayInfo quotaDelta
    ++ [Event.RecordConsumeLog relayInfo.UserId
    { ChannelId := relayInfo.ChannelId
      PromptTokens := promptTokens
      CompletionTokens := completionTokens
      ModelName := modelName
      TokenName := tokenName
      Quota := quota
      Content := logContent
      TokenId := relayInfo.TokenId
      UseTimeSeconds := useTimeSeconds
      IsStream := relayInfo.IsStream
      Group := relayInfo.UsingGroup
      Other := other }]

/-- Function `PostAudioConsumeQuota`: the events of the call. -/
def PostAudioConsumeQuota (cfg : Settings) (env : Env) (ctx : Context) (relayInfo : RelayInfo)
    (usage : Usage) (extraContent : String) : List Event :=
  let useTimeSeconds := env.now - relayInfo.StartTime
  let textInputTokens := usage.PromptTokensDetails.TextTokens
  let textOutTokens := usage.CompletionTokenDetails.TextTokens
  let audioInputTokens := usage.PromptTokensDetails.AudioTokens
  let audioOutTokens := usage.CompletionTokenDetails.AudioTokens
  let tokenName := ctx.token_name
  let modelPrice := relayInfo.PriceData.ModelPrice
  let totalTokens :=
    if usage.TotalTokens = 0 then textInputTokens + textOutTokens + audioInputTokens + audioOutTokens
    else usage.TotalTokens
  let quota0 := calcQuotaFromTokens cfg totalTokens modelPrice
  let logContent0 := "单价 " ++ env.Sprintf6f modelPrice ++ " / 1M tokens"
  -- record all the consume log even if quota is 0
  let quota := if totalTokens = 0 then 0 else quota0
  let logContent1 := if totalTokens = 0 then logContent0 ++ "（可能是上游超时）" else logContent0
  let counters : List Event :=
    if totalTokens = 0 then [zeroTokensLog relayInfo relayInfo.OriginModelName]
    else [Event.UpdateUserUsedQuotaAndRequestCount relayInfo.UserId quota,
          Event.UpdateChannelUsedQuota relayInfo.ChannelId quota]
  let quotaDelta := quota - relayInfo.FinalPreConsumedQuota
  let logModel := relayInfo.OriginModelName
  let logContent := if extraContent ≠ "" then logContent1 ++ ", " ++ extraContent else logContent1
  let other := env.GenerateAudioOtherInfo relayInfo usage
  counters ++ deltaLog env quotaDelta quota relayInfo.FinalPreConsumedQuota
    ++ reconcile cfg env relayInfo quotaDelta
    ++ [Event.RecordConsumeLog relayInfo.UserId
    { ChannelId := relayInfo.ChannelId
      PromptTokens := usage.PromptTokens
      CompletionTokens := usage.CompletionTokens
      ModelName := logModel
      TokenName := tokenName
      Quota := quota
      Content := logContent
      TokenId := relayInfo.TokenId
      UseTimeSeconds := useTimeSeconds
      IsStream := relayInfo.IsStream
      Group := relayInfo.UsingGroup
      Other := other }]

end service

/-! ## Reading a trace of events -/

/-- The consumption log row an event writes, if it writes one. -/
def Event.logRow? : Event → Option RecordConsumeLogParams
  | Event.RecordConsumeLog _ params => some params
  | _ => none

/-- The consumption log rows a trace writes, in order. -/
def logRows (trace : List Event) : List RecordConsumeLogParams :=
  trace.filterMap Event.logRow?

/-- The amount an event debits from the quota of user `id`: the amount of a
`DecreaseUserQuota` call, minus the amount of an `IncreaseUserQuota` call, when the
call returned no error (a call returns an error exactly when its mutation did not
apply); 0 for every other event. -/
def Event.userDebit (id : Int) : Event → Int
  | Event.DecreaseUserQuota i quota none => if i = id then quota else 0
  | Event.IncreaseUserQuota i quota _ none => if i = id then -quota else 0
  | _ => 0

/-- The net amount a trace debits from the quota of user `id`. -/
def userQuotaDebit (id : Int) (trace : List Event) : Int :=
  (trace.map (Event.userDebit id)).sum

/-- The amount an event debits from the remaining quota of token `id`: the amount of
a `DecreaseTokenQuota` call, minus the amount of an `IncreaseTokenQuota` call, when
the call returned no error; 0 for every other event. -/
def Event.tokenDebit (id : Int) : Event → Int
  | Event.DecreaseTokenQuota i _ quota none => if i = id then quota else 0
  | Event.IncreaseTokenQuota i _ quota none => if i = id then -quota else 0
  | _ => 0

/-- The net amount a trace debits from the remaining quota of token `id`. -/
def tokenQuotaDebit (id : Int) (trace : List Event) : Int :=
  (trace.map (Event.tokenDebit id)).sum

/-- Whether the event is a call that mutates a user quota. -/
def Event.isUserQuotaCall : Event → Bool
  | Event.DecreaseUserQuota _ _ _ => true
  | Event.IncreaseUserQuota _ _ _ _ => true
  | _ => false

/-- Whether the event is a call that mutates a token's remaining quota. -/
def Event.isTokenQuotaCall : Event → Bool
  | Event.DecreaseTokenQuota _ _ _ _ => true
  | Event.IncreaseTokenQuota _ _ _ _ => true
  | _ => false

/-- Whether the event is the lookup of a token. -/
def Event.isTokenLookup : Event → Bool
  | Event.GetTokenByKey _ _ => true
  | _ => false

/-- The calls of a trace that mutate a user quota. -/
def userQuotaCalls (trace : List Event) : List Event :=
  trace.filter Event.isUserQuotaCall

/-- The calls of a trace that mutate a token's remaining quota. -/
def tokenQuotaCalls (trace : List Event) : List Event :=
  trace.filter Event.isTokenQuotaCall

/-- The token lookups of a trace. -/
def tokenLookups (trace : List Event) : List Event :=
  trace.filter Event.isTokenLookup

/-- Every ledger call of the environment returns no error. -/
def Env.ledgerOk (env : Env) : Prop :=
  (∀ id quota, env.DecreaseUserQuota id quota = none) ∧
  (∀ id quota db, env.IncreaseUserQuota id quota db = none) ∧
  (∀ id key quota, env.DecreaseTokenQuota id key quota = none) ∧
  (∀ id key quota, env.IncreaseTokenQuota id key quota = none)

/-! ## `relay/helper/price.go` -/

namespace helper

/-- Function `HandleGroupRatio`: the ratio record, the relay info with the group in effect
and the debug line. -/
def HandleGroupRatio (ctx : Context) (relayInfo : RelayInfo) :
    GroupRatioInfo × RelayInfo × List Event :=
  let groupRatioInfo : GroupRatioInfo := { GroupRatio := 1, GroupSpecialRatio := -1 }
  match ctx.auto_group with
  | some autoGroup =>
    (groupRatioInfo, { relayInfo with UsingGroup := autoGroup },
      [Event.LogDebug ("final group: " ++ autoGroup)])
  | none => (groupRatioInfo, relayInfo, [])

/-- What `ModelPriceHelper` leaves behind: the returned price data or error, the
relay info after the call and the events of the call. -/
structure PriceResult where
  result : Except String PriceData
  info : RelayInfo
  events : List Event

/-- Function `ModelPriceHelper`. The debug print of the result, which changes nothing, is left
out. -/
def ModelPriceHelper (cfg : Settings) (env : Env) (c : Context) (info : RelayInfo)
    (promptTokens : Int) (meta : TokenCountMeta) : PriceResult :=
  let g := HandleGroupRatio c info
  let groupRatioInfo := g.1
  let info1 := g.2.1
  let lookup := env.GetModelPricePer1M info1.OriginModelName
  if !lookup.2 ∧ !info1.UserSetting.AcceptUnsetRatioModel then
    { result := .error ("模型 " ++ info1.OriginModelName ++ " 价格未配置，请联系管理员设置")
      info := info1
      events := g.2.2 }
  else
    let modelPricePer1M : ℚ := if !lookup.2 then 0 else lookup.1
    let preConsumedTokens0 := max promptTokens cfg.PreConsumedQuota
    let preConsumedTokens :=
      if meta.MaxTokens ≠ 0 then preConsumedTokens0 + meta.MaxTokens else preConsumedTokens0
    let preConsumedQuota0 := calcQuotaFromTokens cfg preConsumedTokens modelPricePer1M
    let freeModel0 := decide (modelPricePer1M = 0)
    -- check if free model pre-consume is disabled
    let zeroed := !cfg.EnableFreeModelPreConsume ∧ modelPricePer1M = 0
    let preConsumedQuota := if zeroed then 0 else preConsumedQuota0
    let freeModel := if zeroed then true else freeModel0
    let priceData : PriceData :=
      { FreeModel := freeModel
        ModelPrice := modelPricePer1M
        ModelRatio := 1
        CompletionRatio := 1
        GroupRatioInfo := groupRatioInfo
        UsePrice := true
        CacheRatio := 1
        ImageRatio := 1
        AudioRatio := 1
        AudioCompletionRatio := 1
        CacheCreationRatio := 1
        CacheCreation5mRatio := 1
        CacheCreation1hRatio := 1
        QuotaToPreConsume := preConsumedQuota }
    { result := .ok priceData
      info := { info1 with PriceData := priceData }
      events := g.2.2 }

end helper

/-! ## `controller/mapping.go` and `model/mapping.go`: the remap table -/

/-- Go `unicode.IsSpace`. -/
def isSpace (c : Char) : Bool :=
  c = '\t' || c = '\n' || c.toNat = 0x0B || c.toNat = 0x0C || c = '\r' || c = ' '
    || c.toNat = 0x85 || c.toNat = 0xA0 || c.toNat = 0x1680
    || (0x2000 ≤ c.toNat && c.toNat ≤ 0x200A)
    || c.toNat = 0x2028 || c.toNat = 0x2029 || c.toNat = 0x202F || c.toNat = 0x205F
    || c.toNat = 0x3000

/-- Go `strings.TrimSpace`: the string without its leading and trailing white space. -/
def TrimSpace (s : String) : String :=
  String.mk ((s.toList.dropWhile isSpace).reverse.dropWhile isSpace).reverse

namespace model

/-- A row of table `channels`: the columns the mapping surface reads or writes. -/
structure Channel where
  Id : Int
  Name : String
  Type_ : Int
  Status : Int
  BaseURL : Option String
  ModelMapping : Option String
  deriving DecidableEq

/-- A row of table `abilities`: the columns the mapping surface reads or writes. The
key of the table is (group, model, channel_id). -/
structure Ability where
  Group : String
  Model : String
  ChannelId : Int
  Enabled : Bool
  Priority : Option Int
  Weight : Nat
  Tag : Option String
  deriving DecidableEq

/-- The stored state behind `DB`, with the error the storage reports for the next
statement (`none`: the statement applies). -/
structure Store where
  abilities : List Ability
  channels : List Channel
  Error : Option String
  deriving DecidableEq

/-- Function `UpdateChannelModelMapping`: the `UPDATE channels SET model_mapping = ? WHERE id = ?`
statement. A statement that reports an error changes nothing. -/
def UpdateChannelModelMapping (db : Store) (channelId : Int) (mapping : Option String) :
    Store × Option String :=
  match db.Error with
  | some e => (db, some e)
  | none =>
    let updated := db.channels.map
      (fun ch => if ch.Id = channelId then { ch with ModelMapping := mapping } else ch)
    ({ db with channels := updated }, none)

end model

namespace controller

/-- Type `MappingPair`. -/
structure MappingPair where
  Model : String
  UpstreamModel : String
  deriving DecidableEq

/-- Type `UpdateChannelMappingRequest`. -/
structure UpdateChannelMappingRequest where
  ChannelId : Int
  Mappings : List MappingPair
  deriving DecidableEq

/-- The answer of an admin handler: `common.ApiError` with the error text, or the
`success: true` body. -/
inductive Response where
  | ApiError (message : String)
  | Success
  deriving DecidableEq

/-- The loop of `UpdateChannelMapping` over the pairs of the payload. The Go map is
the list of its entries in insertion order (its keys are distinct); the loop stops
with the error on a key that is already present. -/
def buildMapping : List MappingPair → List (String × String) →
    Except String (List (String × String))
  | [], mapping => .ok mapping
  | pair :: rest, mapping =>
    let modelName := TrimSpace pair.Model
    let upstreamName := TrimSpace pair.UpstreamModel
    if modelName = "" ∨ upstreamName = "" then buildMapping rest mapping
    else if (mapping.lookup modelName).isSome then .error "duplicate model mapping"
    else buildMapping rest (mapping ++ [(modelName, upstreamName)])

/-- What a call of `UpdateChannelMapping` leaves behind: the response, the store, and
the arguments of each `model.UpdateChannelModelMapping` call it made. -/
structure MappingUpdate where
  response : Response
  db : model.Store
  writes : List (Int × Option String)
  deriving DecidableEq

/-- Function `UpdateChannelMapping`. `body` is the outcome of decoding the request body and
`marshal` is `json.Marshal` on a string map. -/
def UpdateChannelMapping (marshal : List (String × String) → String) (db : model.Store)
    (body : Except String UpdateChannelMappingRequest) : MappingUpdate :=
  match body with
  | .error e => { response := .ApiError e, db := db, writes := [] }
  | .ok req =>
    if req.ChannelId = 0 then
      { response := .ApiError "invalid channel_id", db := db, writes := [] }
    else
      match buildMapping req.Mappings [] with
      | .error e => { response := .ApiError e, db := db, writes := [] }
      | .ok mapping =>
        let mappingPtr : Option String :=
          if mapping.length > 0 then some (marshal mapping) else none
        let r := model.UpdateChannelModelMapping db req.ChannelId mappingPtr
        match r.2 with
        | some e => { response := .ApiError e, db := r.1, writes := [(req.ChannelId, mappingPtr)] }
        | none => { response := .Success, db := r.1, writes := [(req.ChannelId, mappingPtr)] }

/-- The pairs of a payload that survive the dropping of empty names, as entries
(trimmed model, trimmed upstream model), in payload order. -/
def retainedEntries (pairs : List MappingPair) : List (String × String) :=
  (pairs.filter (fun pair => TrimSpace pair.Model ≠ "" ∧ TrimSpace pair.UpstreamModel ≠ "")).map
    (fun pair => (TrimSpace pair.Model, TrimSpace pair.UpstreamModel))

end controller


/-! ## `model/mapping.go`: the ability index -/

namespace model

/-- Type `MappingRow`: one row of the join of `abilities` with `channels`. -/
structure MappingRow where
  GroupName : String
  Model : String
  ChannelId : Int
  Enabled : Bool
  Priority : Option Int
  Weight : Nat
  Tag : Option String
  ChannelName : String
  ChannelType : Int
  ChannelStatus : Int
  BaseURL : Option String
  ModelMapping : Option String
  deriving DecidableEq

/-- The `LEFT JOIN channels ON abilities.channel_id = channels.id`: every ability with
each channel of that id, or with no channel when there is none. -/
def joinRows (db : Store) : List (Ability × Option Channel) :=
  db.abilities.flatMap (fun a =>
    match db.channels.filter (fun ch => ch.Id = a.ChannelId) with
    | [] => [(a, none)]
    | chs => chs.map (fun ch => (a, some ch)))

/-- The scan of a joined row into a `MappingRow`: the columns of a missing channel are
NULL, which leaves the zero value in a plain field and `nil` in a pointer field. -/
def MappingRow.ofJoin (r : Ability × Option Channel) : MappingRow :=
  { GroupName := r.1.Group
    Model := r.1.Model
    ChannelId := r.1.ChannelId
    Enabled := r.1.Enabled
    Priority := r.1.Priority
    Weight := r.1.Weight
    Tag := r.1.Tag
    ChannelName := match r.2 with | some ch => ch.Name | none => ""
    ChannelType := match r.2 with | some ch => ch.Type_ | none => 0
    ChannelStatus := match r.2 with | some ch => ch.Status | none => 0
    BaseURL := match r.2 with | some ch => ch.BaseURL | none => none
    ModelMapping := match r.2 with | some ch => ch.ModelMapping | none => none }

/-- Whether some suffix of the text satisfies `f`. -/
def anySuffix (f : List Char → Bool) : List Char → Bool
  | [] => f []
  | c :: cs => f (c :: cs) || anySuffix f cs

/-- The form in which `LIKE` compares a character: an upper-case ASCII letter as its
lower-case form, every other character as itself. This is the comparison of SQLite,
with which the default collations of MySQL agree on ASCII text. -/
def likeFold (c : Char) : Char :=
  if 65 ≤ c.toNat ∧ c.toNat ≤ 90 then Char.ofNat (c.toNat + 32) else c

/-- The SQL operator `text LIKE pattern` as SQLite evaluates it: `%` stands for any run
of characters, `_` for any one character, every other character for itself up to the
case of ASCII letters; there is no escape character. -/
def likeMatch : List Char → List Char → Bool
  | [], text => text.isEmpty
  | p :: pattern, text =>
    if p = '%' then anySuffix (likeMatch pattern) text
    else
      match text with
      | [] => false
      | c :: cs => (p = '_' || likeFold p = likeFold c) && likeMatch pattern cs

/-- The `WHERE` clause `GetMappingRows` builds. A comparison with the NULL status of a
missing channel is not true. -/
def whereClause (ChannelStatusEnabled : Int) (group : String) (enabledOnly : Bool)
    (keyword : String) (r : Ability × Option Channel) : Bool :=
  (if group ≠ "" then decide (r.1.Group = group) else true)
  && (if enabledOnly then
        r.1.Enabled
          && (match r.2 with
              | some ch => decide (ch.Status = ChannelStatusEnabled)
              | none => false)
      else true)
  && (if keyword ≠ "" then
        likeMatch ("%" ++ TrimSpace keyword ++ "%").toList r.1.Model.toList
      else true)

/-- The order of SQL values of a nullable integer column: NULL sorts below every
number. -/
def priorityBelow : Option Int → Option Int → Prop
  | none, some _ => True
  | some x, some y => x < y
  | _, none => False

instance priorityBelowDecidable : (x y : Option Int) → Decidable (priorityBelow x y)
  | none, some _ => isTrue trivial
  | some x, some y => inferInstanceAs (Decidable (x < y))
  | none, none => isFalse (fun h => h)
  | some _, none => isFalse (fun h => h)

/-- The clause `ORDER BY group asc, model asc, priority desc, weight desc`: `a` may stand
before `b`. Strings are compared as their lists of code points. -/
def orderedBefore (a b : MappingRow) : Prop :=
  a.GroupName.toList < b.GroupName.toList ∨ (a.GroupName = b.GroupName ∧
    (a.Model.toList < b.Model.toList ∨ (a.Model = b.Model ∧
      (priorityBelow b.Priority a.Priority ∨ (a.Priority = b.Priority ∧
        b.Weight ≤ a.Weight)))))

instance orderedBeforeDecidable : DecidableRel orderedBefore := fun a b =>
  inferInstanceAs (Decidable (a.GroupName.toList < b.GroupName.toList ∨
    (a.GroupName = b.GroupName ∧
      (a.Model.toList < b.Model.toList ∨ (a.Model = b.Model ∧
        (priorityBelow b.Priority a.Priority ∨ (a.Priority = b.Priority ∧
          b.Weight ≤ a.Weight)))))))

/-- Function `GetMappingRows`. `ChannelStatusEnabled` is the constant
`common.ChannelStatusEnabled`. Rows that the `ORDER BY` clause does not distinguish
keep the order of the join. -/
def GetMappingRows (ChannelStatusEnabled : Int) (db : Store) (group : String)
    (enabledOnly : Bool) (keyword : String) : Except String (List MappingRow) :=
  match db.Error with
  | some e => .error e
  | none =>
    .ok ((((joinRows db).filter
      (whereClause ChannelStatusEnabled group enabledOnly keyword)).map
        MappingRow.ofJoin).insertionSort orderedBefore)

/-- Function `UpdateAbility`: no statement when neither value is given, else the
`UPDATE abilities SET ... WHERE group = ? and model = ? and channel_id = ?` statement
with the given values. A statement that reports an error changes nothing. -/
def UpdateAbility (db : Store) (group : String) (model : String) (channelId : Int)
    (priority : Option Int) (weight : Option Nat) : Store × Option String :=
  if priority.isNone ∧ weight.isNone then (db, none)
  else
    match db.Error with
    | some e => (db, some e)
    | none =>
      let updated := db.abilities.map (fun a =>
        if a.Group = group ∧ a.Model = model ∧ a.ChannelId = channelId then
          { a with
            Priority := (match priority with | some p => some p | none => a.Priority)
            Weight := (match weight with | some w => w | none => a.Weight) }
        else a)
      ({ db with abilities := updated }, none)

/-- Function `UpdateAbilityEnabled`: the `UPDATE abilities SET enabled = ?` statement on the
rows of the key. A statement that reports an error changes nothing. -/
def UpdateAbilityEnabled (db : Store) (group : String) (model : String) (channelId : Int)
    (enabled : Bool) : Store × Option String :=
  match db.Error with
  | some e => (db, some e)
  | none =>
    let updated := db.abilities.map (fun a =>
      if a.Group = group ∧ a.Model = model ∧ a.ChannelId = channelId then
        { a with Enabled := enabled }
      else a)
    ({ db with abilities := updated }, none)

end model

/-! ## `controller/mapping.go`: the mapping surface -/

namespace controller

/-- Type `MappingChannelItem`. -/
structure MappingChannelItem where
  ChannelId : Int
  ChannelName : String
  ChannelType : Int
  ChannelStatus : Int
  AbilityEnabled : Bool
  Weight : Nat
  Priority : Int
  Tag : String
  BaseURL : String
  UpstreamModel : String
  MappingApplied : Bool
  deriving DecidableEq

/-- Type `MappingItem`. -/
structure MappingItem where
  Group : String
  Model : String
  Channels : List MappingChannelItem
  deriving DecidableEq

/-- Type `MappingResponse`. -/
structure MappingResponse where
  Groups : List String
  Items : List MappingItem
  deriving DecidableEq

/-- The remap table `GetMappings` reads from a stored `model_mapping`: empty for NULL,
`""` and `"{}"`, else what `json.Unmarshal` leaves in the map (`unmarshal`), whose
error is ignored. A Go map is the list of its entries, read with `List.lookup`. -/
def decodeMapping (unmarshal : String → List (String × String)) :
    Option String → List (String × String)
  | none => []
  | some text => if text ≠ "" ∧ text ≠ "{}" then unmarshal text else []

/-- The channel entry `GetMappings` appends for a row, given the remap table of the
row's channel. `ChannelBaseURLs` is the table `constant.ChannelBaseURLs`. -/
def channelEntry (ChannelBaseURLs : List String) (mapping : List (String × String))
    (row : model.MappingRow) : MappingChannelItem :=
  let mapped := mapping.lookup row.Model
  let applied : Bool :=
    match mapped with
    | some name => decide (name ≠ "")
    | none => false
  let upstreamModel :=
    match mapped with
    | some name => if name ≠ "" then name else row.Model
    | none => row.Model
  let baseURL0 := match row.BaseURL with | some url => url | none => ""
  let baseURL :=
    if baseURL0 = "" ∧ row.ChannelType ≥ 0 ∧ row.ChannelType < ChannelBaseURLs.length then
      ChannelBaseURLs.getD row.ChannelType.toNat ""
    else baseURL0
  let priority := match row.Priority with | some p => p | none => 0
  let tag := match row.Tag with | some t => t | none => ""
  { ChannelId := row.ChannelId
    ChannelName := row.ChannelName
    ChannelType := row.ChannelType
    ChannelStatus := row.ChannelStatus
    AbilityEnabled := row.Enabled
    Weight := row.Weight
    Priority := priority
    Tag := tag
    BaseURL := baseURL
    UpstreamModel := upstreamModel
    MappingApplied := applied }

/-- The three Go maps of the loop of `GetMappings`, each as the list of its entries in
insertion order. -/
structure MappingAcc where
  groupsSet : List String
  itemMap : List (String × MappingItem)
  channelMappingCache : List (Int × List (String × String))
  deriving DecidableEq

/-- The item of key `key` with one more channel entry; the other items are untouched. -/
def appendChannel (key : String) (entry : MappingChannelItem) :
    List (String × MappingItem) → List (String × MappingItem)
  | [] => []
  | (k, item) :: rest =>
    if k = key then (k, { item with Channels := item.Channels ++ [entry] }) :: rest
    else (k, item) :: appendChannel key entry rest

/-- One turn of the loop of `GetMappings` over the rows. -/
def mappingStep (unmarshal : String → List (String × String)) (ChannelBaseURLs : List String)
    (acc : MappingAcc) (row : model.MappingRow) : MappingAcc :=
  let groupName := row.GroupName
  let groupsSet := if groupName ∈ acc.groupsSet then acc.groupsSet else acc.groupsSet ++ [groupName]
  let key := groupName ++ "||" ++ row.Model
  let itemMap :=
    if (acc.itemMap.lookup key).isSome then acc.itemMap
    else acc.itemMap ++ [(key, { Group := groupName, Model := row.Model, Channels := [] })]
  let cached := acc.channelMappingCache.lookup row.ChannelId
  let mapping :=
    match cached with
    | some m => m
    | none => decodeMapping unmarshal row.ModelMapping
  let cache :=
    match cached with
    | some _ => acc.channelMappingCache
    | none => acc.channelMappingCache ++ [(row.ChannelId, mapping)]
  { groupsSet := groupsSet
    itemMap := appendChannel key (channelEntry ChannelBaseURLs mapping row) itemMap
    channelMappingCache := cache }

/-- The comparison of `sort.Slice` on the items: by group, then by model. Strings are
compared as their lists of code points, which is the order of their bytes. -/
def itemBefore (a b : MappingItem) : Prop :=
  a.Group.toList < b.Group.toList ∨ (a.Group = b.Group ∧ a.Model.toList ≤ b.Model.toList)

instance itemBeforeDecidable : DecidableRel itemBefore := fun a b =>
  inferInstanceAs (Decidable (a.Group.toList < b.Group.toList ∨
    (a.Group = b.Group ∧ a.Model.toList ≤ b.Model.toList)))

/-- The body of `GetMappings` after the rows are read: the loop over the rows, then
the sorted groups and the items sorted by (group, model). -/
def buildMappingResponse (unmarshal : String → List (String × String))
    (ChannelBaseURLs : List String) (rows : List model.MappingRow) : MappingResponse :=
  let acc := rows.foldl (mappingStep unmarshal ChannelBaseURLs)
    { groupsSet := [], itemMap := [], channelMappingCache := [] }
  { Groups := acc.groupsSet.insertionSort (fun a b => a.toList ≤ b.toList)
    Items := (acc.itemMap.map Prod.snd).insertionSort itemBefore }

/-- Function `GetMappings`, on the query parameters `group`, `q` and `enabled_only`. -/
def GetMappings (unmarshal : String → List (String × String)) (ChannelBaseURLs : List String)
    (ChannelStatusEnabled : Int) (db : model.Store) (groupQuery qQuery enabledOnlyQuery : String) :
    Except String MappingResponse :=
  let group := TrimSpace groupQuery
  let keyword := TrimSpace qQuery
  let enabledQuery := TrimSpace enabledOnlyQuery
  let enabledOnly : Bool :=
    if enabledQuery ≠ "" ∧ (enabledQuery = "false" ∨ enabledQuery = "0") then false else true
  match model.GetMappingRows ChannelStatusEnabled db group enabledOnly keyword with
  | .error e => .error e
  | .ok rows => .ok (buildMappingResponse unmarshal ChannelBaseURLs rows)

/-- Type `UpdateAbilityRequest`. -/
structure UpdateAbilityRequest where
  Group : String
  Model : String
  ChannelId : Int
  Weight : Option Nat
  Priority : Option Int
  deriving DecidableEq

/-- Function `UpdateMappingAbility`, on the outcome of decoding the request body. -/
def UpdateMappingAbility (db : model.Store) (body : Except String UpdateAbilityRequest) :
    Response × model.Store :=
  match body with
  | .error e => (.ApiError e, db)
  | .ok req =>
    if req.Group = "" ∨ req.Model = "" ∨ req.ChannelId = 0 then (.ApiError "invalid params", db)
    else if req.Weight.isNone ∧ req.Priority.isNone then (.ApiError "no updates", db)
    else
      let r := model.UpdateAbility db req.Group req.Model req.ChannelId req.Priority req.Weight
      match r.2 with
      | some e => (.ApiError e, r.1)
      | none => (.Success, r.1)

/-- Type `UpdateAbilityEnabledRequest`. -/
structure UpdateAbilityEnabledRequest where
  Group : String
  Model : String
  ChannelId : Int
  Enabled : Option Bool
  deriving DecidableEq

/-- Function `UpdateMappingAbilityEnabled`, on the outcome of decoding the request
body. -/
def UpdateMappingAbilityEnabled (db : model.Store)
    (body : Except String UpdateAbilityEnabledRequest) : Response × model.Store :=
  match body with
  | .error e => (.ApiError e, db)
  | .ok req =>
    match req.Enabled with
    | none => (.ApiError "invalid params", db)
    | some enabled =>
      if req.Group = "" ∨ req.Model = "" ∨ req.ChannelId = 0 then
        (.ApiError "invalid params", db)
      else
        let r := model.UpdateAbilityEnabled db req.Group req.Model req.ChannelId enabled
        match r.2 with
        | some e => (.ApiError e, r.1)
        | none => (.Success, r.1)

/-- The remap table `GetMappings` uses for the rows of channel `channelId`: the one
decoded from the first row of that channel. -/
def remapOf (unmarshal : String → List (String × String)) (rows : List model.MappingRow)
    (channelId : Int) : List (String × String) :=
  match rows.find? (fun row => row.ChannelId = channelId) with
  | some row => decodeMapping unmarshal row.ModelMapping
  | none => []

end controller

/-! ## Sample inputs -/

/-- Settings with the scale factor 500000 quota units per currency unit. -/
def sampleSettings : Settings :=
  { QuotaPerUnit := 500000, PreConsumedQuota := 500, QuotaRemindThreshold := 1000,
    EnableFreeModelPreConsume := false }

/-- An environment in which every ledger call succeeds, the token with key `"k"`
has 1000 units left and only `"gpt-x"` is priced, at 1 per million tokens. -/
def sampleEnv : Env :=
  { DecreaseUserQuota := fun _ _ => none
    IncreaseUserQuota := fun _ _ _ => none
    DecreaseTokenQuota := fun _ _ _ => none
    IncreaseTokenQuota := fun _ _ _ => none
    GetTokenByKey := fun key _ =>
      if key = "k" then .ok { RemainQuota := 1000, UnlimitedQuota := false }
      else .error "record not found"
    GetModelPricePer1M := fun name => if name = "gpt-x" then (1, true) else (0, false)
    NotifyUser := fun _ _ _ _ _ _ _ => none
    FormatQuota := fun n => toString n
    Sprintf6f := fun _ => "1.000000"
    GenerateClaudeOtherInfo := fun _ => ""
    GenerateAudioOtherInfo := fun _ _ => ""
    GenerateWssOtherInfo := fun _ _ => ""
    NotifyTypeEmail := "email"
    NotifyTypeBark := "bark"
    NotifyTypeGotify := "gotify"
    NotifyTypeQuotaExceed := "quota_exceed"
    now := 100 }

/-- The environment `sampleEnv` with a token ledger that refuses every mutation. -/
def failingTokenEnv : Env :=
  { sampleEnv with
    DecreaseTokenQuota := fun _ _ _ => some "database is locked"
    IncreaseTokenQuota := fun _ _ _ => some "database is locked" }

/-- Price data of a model priced at 1 per million tokens. -/
def samplePrice : PriceData :=
  { FreeModel := false, ModelPrice := 1, ModelRatio := 1, CompletionRatio := 1,
    GroupRatioInfo := { GroupRatio := 1, GroupSpecialRatio := -1 }, UsePrice := true,
    CacheRatio := 1, ImageRatio := 1, AudioRatio := 1, AudioCompletionRatio := 1,
    CacheCreationRatio := 1, CacheCreation5mRatio := 1, CacheCreation1hRatio := 1,
    QuotaToPreConsume := 250 }

/-- A request of user 7 through token 3 (key `"k"`) with 250 units pre-consumed. -/
def sampleInfo : RelayInfo :=
  { UserId := 7, UserQuota := 10000000, UserEmail := "", UserSetting := ⟨"", 0, false⟩,
    TokenId := 3, TokenKey := "k", TokenUnlimited := false, IsPlayground := false,
    ChannelId := 5, OriginModelName := "gpt-x", UsingGroup := "default", IsStream := false,
    StartTime := 90, FinalPreConsumedQuota := 250, PriceData := samplePrice }

/-- The request `sampleInfo` made from the playground. -/
def playgroundInfo : RelayInfo := { sampleInfo with IsPlayground := true }

/-- The request context of the samples. -/
def sampleCtx : Context := { token_name := "t", auto_group := none }

/-- A usage of 100 prompt and 50 completion tokens. -/
def sampleUsage : Usage :=
  { PromptTokens := 100, CompletionTokens := 50, TotalTokens := 150,
    PromptTokensDetails := ⟨100, 0⟩, CompletionTokenDetails := ⟨50, 0⟩ }

/-- A usage without any token: the upstream closed before reporting. -/
def zeroUsage : Usage :=
  { PromptTokens := 0, CompletionTokens := 0, TotalTokens := 0,
    PromptTokensDetails := ⟨0, 0⟩, CompletionTokenDetails := ⟨0, 0⟩ }

/-- A realtime usage without any token. -/
def zeroRealtimeUsage : RealtimeUsage :=
  { TotalTokens := 0, InputTokens := 0, OutputTokens := 0,
    InputTokenDetails := ⟨0, 0⟩, OutputTokenDetails := ⟨0, 0⟩ }

/-- A request whose model has no configured price, of a user who accepts such
models. -/
def unpricedInfo : RelayInfo :=
  { sampleInfo with OriginModelName := "unknown", UserSetting := ⟨"", 0, true⟩ }

/-- A rendering of a string map, standing for `json.Marshal` in the samples. -/
def sampleMarshal (mapping : List (String × String)) : String :=
  String.intercalate "," (mapping.map (fun entry => entry.1 ++ ":" ++ entry.2))

/-- A store with channel 1, whose remap table sends `old` to `old-real`. -/
def sampleStore : model.Store :=
  { abilities := [],
    channels := [{ Id := 1, Name := "c", Type_ := 1, Status := 1, BaseURL := none,
                   ModelMapping := some "old:old-real" }],
    Error := none }

/-- A payload for channel 1 with two pairs of source model `a`, the first with an
empty upstream name. -/
def droppedDuplicatePayload : controller.UpdateChannelMappingRequest :=
  { ChannelId := 1, Mappings := [⟨"a", ""⟩, ⟨"a", "b"⟩] }

/-- A payload for channel 1 with two complete pairs whose source models are equal
after trimming. -/
def duplicatePayload : controller.UpdateChannelMappingRequest :=
  { ChannelId := 1, Mappings := [⟨"a", "b"⟩, ⟨" a ", "c"⟩] }

/-! ## Notifications and log content -/

/-- Whether the event is the dispatch of a notification to a user. -/
def Event.isNotify : Event → Bool
  | Event.NotifyUser _ _ _ _ _ _ _ _ => true
  | _ => false

/-- The notifications a trace dispatches. -/
def notifications (trace : List Event) : List Event :=
  trace.filter Event.isNotify

/-- The threshold `checkAndSendQuotaNotify` compares with: the user's warning
threshold converted to an integer when it is not zero, the global
`QuotaRemindThreshold` otherwise. -/
def notifyThreshold (cfg : Settings) (relayInfo : RelayInfo) : Int :=
  if relayInfo.UserSetting.QuotaWarningThreshold ≠ 0
  then intOfFloat relayInfo.UserSetting.QuotaWarningThreshold
  else cfg.QuotaRemindThreshold

/-- The text `t` occurs in the text `s` as a contiguous part. -/
def containsText (s t : String) : Prop := t.toList <:+: s.toList

instance containsTextDecidable (s t : String) : Decidable (containsText s t) :=
  inferInstanceAs (Decidable (t.toList <:+: s.toList))

/-- The text `t` occurs in the text `s` as a contiguous part, up to the case of ASCII
letters. -/
def containsTextNoCase (s t : String) : Prop :=
  t.toList.map model.likeFold <:+: s.toList.map model.likeFold

instance containsTextNoCaseDecidable (s t : String) : Decidable (containsTextNoCase s t) :=
  inferInstanceAs (Decidable (t.toList.map model.likeFold <:+: s.toList.map model.likeFold))

/-- The annotation of the audio and realtime routines on a zero total: "possibly an
upstream timeout". -/
def timeoutNote : String := "（可能是上游超时）"

/-- The annotation of the Claude routine on a zero total: "possibly an upstream
error". -/
def errorNote : String := "（可能是上游出错）"

/-- The request `sampleInfo` of a user with 100 units left. -/
def lowQuotaInfo : RelayInfo := { sampleInfo with UserQuota := 100 }

/-- The request `sampleInfo` of a user with 290 units left whose warning threshold is
1/2. -/
def halfThresholdInfo : RelayInfo :=
  { sampleInfo with UserQuota := 290, UserSetting := ⟨"", 1 / 2, false⟩ }

/-- The request `sampleInfo` through a token flagged unlimited. -/
def unlimitedInfo : RelayInfo := { sampleInfo with TokenUnlimited := true }

/-- The environment `sampleEnv` in which the token with key `"k"` is unlimited and has
no remaining quota. -/
def unlimitedEnv : Env :=
  { sampleEnv with
    GetTokenByKey := fun key _ =>
      if key = "k" then .ok { RemainQuota := 0, UnlimitedQuota := true }
      else .error "record not found" }

/-- A realtime usage of 100 input and 50 output text tokens. -/
def sampleRealtimeUsage : RealtimeUsage :=
  { TotalTokens := 150, InputTokens := 100, OutputTokens := 50,
    InputTokenDetails := ⟨100, 0⟩, OutputTokenDetails := ⟨50, 0⟩ }

/-- The total token count `PostClaudeConsumeQuota` charges for. -/
def claudeTotalTokens (usage : Usage) : Int :=
  if usage.TotalTokens = 0 then usage.PromptTokens + usage.CompletionTokens
  else usage.TotalTokens

/-- The total token count `PostAudioConsumeQuota` charges for. -/
def audioTotalTokens (usage : Usage) : Int :=
  if usage.TotalTokens = 0 then
    usage.PromptTokensDetails.TextTokens + usage.CompletionTokenDetails.TextTokens
      + usage.PromptTokensDetails.AudioTokens + usage.CompletionTokenDetails.AudioTokens
  else usage.TotalTokens

/-- The total token count `PostWssConsumeQuota` charges for. -/
def wssTotalTokens (usage : RealtimeUsage) : Int :=
  if usage.TotalTokens = 0 then
    usage.InputTokenDetails.TextTokens + usage.OutputTokenDetails.TextTokens
      + usage.InputTokenDetails.AudioTokens + usage.OutputTokenDetails.AudioTokens
  else usage.TotalTokens

/-- The price line every post-charge routine starts its log content with. -/
def priceLine (env : Env) (relayInfo : RelayInfo) : String :=
  "单价 " ++ env.Sprintf6f relayInfo.PriceData.ModelPrice ++ " / 1M tokens"

/-- The caller's extra content as the routines append it: after a comma when it is not
empty. -/
def extraSuffix (extraContent : String) : String :=
  if extraContent ≠ "" then ", " ++ extraContent else ""

/-! ## Sample state of the ability index -/

/-- The ability with the given key is disabled: every row of the key has its `enabled`
bit cleared. -/
def model.abilityDisabled (db : model.Store) (group modelName : String) (channelId : Int) :
    Prop :=
  ∀ a ∈ db.abilities, a.Group = group → a.Model = modelName → a.ChannelId = channelId →
    a.Enabled = false

/-- The rows of a successful read, none for a failed one. -/
def model.rowsOf : Except String (List model.MappingRow) → List model.MappingRow
  | .ok rows => rows
  | .error _ => []

/-- A store in which group `default` reaches `gpt-x` through channels 1 (priority 10,
weight 3) and 2 (priority 5, weight 1), and group `vip` reaches `gpt-y` through channel
2; channel 1 remaps `gpt-x` to `gpt-x-real`. The status 1 stands for enabled. -/
def routingStore : model.Store :=
  { abilities :=
      [ { Group := "vip", Model := "gpt-y", ChannelId := 2, Enabled := true,
          Priority := some 0, Weight := 0, Tag := none },
        { Group := "default", Model := "gpt-x", ChannelId := 2, Enabled := true,
          Priority := some 5, Weight := 1, Tag := none },
        { Group := "default", Model := "gpt-x", ChannelId := 1, Enabled := true,
          Priority := some 10, Weight := 3, Tag := none } ],
    channels :=
      [ { Id := 1, Name := "one", Type_ := 1, Status := 1, BaseURL := none,
          ModelMapping := some "gpt-x:gpt-x-real" },
        { Id := 2, Name := "two", Type_ := 1, Status := 1, BaseURL := none,
          ModelMapping := none } ],
    Error := none }

/-- The pieces of a text between the occurrences of a separator. -/
def splitChars (sep : Char) : List Char → List (List Char)
  | [] => [[]]
  | c :: cs =>
    match splitChars sep cs with
    | [] => [[]]
    | piece :: pieces => if c = sep then [] :: piece :: pieces else (c :: piece) :: pieces

/-- The reading of the rendering `sampleMarshal`, standing for `json.Unmarshal` in the
samples. -/
def sampleUnmarshal (text : String) : List (String × String) :=
  (splitChars ',' text.toList).filterMap (fun entry =>
    match splitChars ':' entry with
    | [key, value] => some (String.mk key, String.mk value)
    | _ => none)

/-- What holds of the maps of the loop of `GetMappings` after the rows `done`: the
cache holds, for each channel seen, the remap table decoded from its first row; every
row has its channel entry in an item; and every channel entry of an item is the entry
of a row. -/
def controller.loopInvariant (unmarshal : String → List (String × String))
    (ChannelBaseURLs : List String) (done : List model.MappingRow)
    (acc : controller.MappingAcc) : Prop :=
  (∀ id : Int, acc.channelMappingCache.lookup id
      = (done.find? (fun row => decide (row.ChannelId = id))).map
          (fun row => controller.decodeMapping unmarshal row.ModelMapping)) ∧
  (∀ r ∈ done, ∃ kv ∈ acc.itemMap,
      controller.channelEntry ChannelBaseURLs
        (controller.remapOf unmarshal done r.ChannelId) r ∈ kv.2.Channels) ∧
  (∀ kv ∈ acc.itemMap, ∀ e ∈ kv.2.Channels, ∃ r ∈ done,
      e = controller.channelEntry ChannelBaseURLs
        (controller.remapOf unmarshal done r.ChannelId) r)

/-- A store whose channel 1 stores the remap `gpt-x` to the empty name. -/
def emptyRemapStore : model.Store :=
  { abilities :=
      [ { Group := "default", Model := "gpt-x", ChannelId := 1, Enabled := true,
          Priority := some 10, Weight := 3, Tag := none } ],
    channels :=
      [ { Id := 1, Name := "one", Type_ := 1, Status := 1, BaseURL := none,
          ModelMapping := some "gpt-x:" } ],
    Error := none }

/-- A payload that remaps `gpt-x` to `gpt-x-new` and `gpt-z` to `gpt-z-new` on channel
1, with blanks around the names. -/
def remapPayload : controller.UpdateChannelMappingRequest :=
  { ChannelId := 1, Mappings := [⟨" gpt-x ", "gpt-x-new"⟩, ⟨"gpt-z", " gpt-z-new"⟩] }

/-- A payload for channel 1 whose only pair has an empty upstream name. -/
def clearingPayload : controller.UpdateChannelMappingRequest :=
  { ChannelId := 1, Mappings := [⟨"gpt-x", " "⟩] }

/-! ## `controller/model_test_handler.go`: the test proxy -/

namespace http

/-- The upper-case letters of ASCII. -/
def upperLetters : List Char := "ABCDEFGHIJKLMNOPQRSTUVWXYZ".toList

/-- The lower-case letters of ASCII, in the order of `upperLetters`. -/
def lowerLetters : List Char := "abcdefghijklmnopqrstuvwxyz".toList

/-- The decimal digits. -/
def digits : List Char := "0123456789".toList

/-- The code points of the punctuation that `net/textproto` admits in the name of a
header field (exclamation mark, number sign, dollar, percent, ampersand, apostrophe,
asterisk, plus, hyphen, full stop, caret, underscore, grave accent, vertical bar,
tilde). -/
def fieldPunctuation : List Nat :=
  [33, 35, 36, 37, 38, 39, 42, 43, 45, 46, 94, 95, 96, 124, 126]

/-- Go `validHeaderFieldByte`: the characters of an HTTP token. A character outside
ASCII is encoded in bytes that are not of a token. -/
def validHeaderFieldByte (c : Char) : Bool :=
  upperLetters.contains c || lowerLetters.contains c || digits.contains c
    || fieldPunctuation.contains c.toNat

/-- The upper-case form of an ASCII letter; every other character is itself. -/
def toUpperASCII (c : Char) : Char := ((lowerLetters.zip upperLetters).lookup c).getD c

/-- The lower-case form of an ASCII letter; every other character is itself. -/
def toLowerASCII (c : Char) : Char := ((upperLetters.zip lowerLetters).lookup c).getD c

/-- The loop of Go `canonicalMIMEHeaderKey`: a letter is put in upper case at the start
and after a hyphen, in lower case elsewhere. -/
def canonicalLoop : Bool → List Char → List Char
  | _, [] => []
  | upper, c :: cs =>
    let c1 :=
      if upper ∧ lowerLetters.contains c then toUpperASCII c
      else if !upper ∧ upperLetters.contains c then toLowerASCII c
      else c
    c1 :: canonicalLoop (decide (c1 = '-')) cs

/-- Go `http.CanonicalHeaderKey`: the canonical form of a name made of token
characters; a name with any other character is returned unchanged. -/
def CanonicalHeaderKey (key : String) : String :=
  if key.toList.all validHeaderFieldByte then String.mk (canonicalLoop true key.toList)
  else key

/-- Type `http.Header`, the Go map from a name to its values, as the list of its entries. -/
abbrev Header := List (String × List String)

/-- The Go index `h[key]`: the values stored under exactly this key, none when the
key is absent. -/
def Header.index (h : Header) (key : String) : List String := (List.lookup key h).getD []

/-- Go `Header.Add`: one more value under the canonical form of the key. -/
def Header.Add (h : Header) (key value : String) : Header :=
  let k := CanonicalHeaderKey key
  match List.lookup k h with
  | some _ => h.map (fun entry => if entry.1 = k then (entry.1, entry.2 ++ [value]) else entry)
  | none => h ++ [(k, [value])]

/-- Go `Header.Set`: the single value under the canonical form of the key. -/
def Header.Set (h : Header) (key value : String) : Header :=
  let k := CanonicalHeaderKey key
  match List.lookup k h with
  | some _ => h.map (fun entry => if entry.1 = k then (entry.1, [value]) else entry)
  | none => h ++ [(k, [value])]

/-- Type `http.Request`, as `http.NewRequest` builds it and the handler fills it. -/
structure Request where
  Method : String
  URL : String
  Body : String
  Header : Header
  deriving DecidableEq

/-- Type `http.Response`: the status, the header and the pieces of the body that the
successive reads with a positive count return. -/
structure Response where
  StatusCode : Int
  Header : Header
  Body : List String
  deriving DecidableEq

end http

namespace controller

/-- Type `ModelTestProxyRequest`; the raw payload is its text. -/
structure ModelTestProxyRequest where
  TokenId : Int
  Payload : String
  deriving DecidableEq

/-- What the calls of the test proxy outside the embedded files return:
`model.GetTokenById`, the constant `common.TokenStatusEnabled`, the environment variable
`PORT` and the flag `common.Port`, the error of `http.NewRequest` on a method and a URL,
`http.DefaultClient.Do`, the header of the response writer at entry, and whether the
write number `i` to the client fails. -/
structure ProxyEnv where
  GetTokenById : Int → Except String Token
  TokenStatusEnabled : Int
  PORT : String
  Port : Int
  NewRequestError : String → String → Option String
  Do : http.Request → Except String http.Response
  clientHeader : http.Header
  writeFails : Nat → Bool

/-- Function `getLocalPort`. -/
def getLocalPort (env : ProxyEnv) : String :=
  if env.PORT ≠ "" then env.PORT else sprintfD env.Port

/-- Function `isHopByHopHeader`. -/
def isHopByHopHeader (key : String) : Bool :=
  match http.CanonicalHeaderKey key with
  | "Connection" => true
  | "Keep-Alive" => true
  | "Proxy-Authenticate" => true
  | "Proxy-Authorization" => true
  | "Te" => true
  | "Trailer" => true
  | "Transfer-Encoding" => true
  | "Upgrade" => true
  | "Content-Length" => true
  | _ => false

/-- Function `copyResponseHeaders`: the header of the response writer after the copy.
`upstream` lists the entries of `resp.Header` in the order in which the `range` visits
them, which Go leaves unspecified. -/
def copyResponseHeaders (client : http.Header) (upstream : http.Header) : http.Header :=
  upstream.foldl (fun h entry =>
    if isHopByHopHeader entry.1 then h
    else entry.2.foldl (fun h1 value => http.Header.Add h1 entry.1 value) h) client

/-- The header of the response writer when the proxy starts to stream: the copy of
the upstream header, then `Header().Set("X-Accel-Buffering", "no")`. -/
def streamHeader (client : http.Header) (upstream : http.Header) : http.Header :=
  http.Header.Set (copyResponseHeaders client upstream) "X-Accel-Buffering" "no"

/-- The streaming loop of `proxyModelTest`: the pieces written to the client, up to the
first write that fails. -/
def streamBody (writeFails : Nat → Bool) : Nat → List String → List String
  | _, [] => []
  | i, chunk :: rest =>
    if writeFails i then [] else chunk :: streamBody writeFails (i + 1) rest

/-- What the test proxy answers: `common.ApiError` with the error text, or the streamed
copy of the upstream response. -/
inductive ProxyReply where
  | ApiError (message : String)
  | Stream (status : Int) (header : http.Header) (body : List String)
  deriving DecidableEq

/-- What a call of `proxyModelTest` leaves behind: the answer, the requests built with
`http.NewRequest` (as the handler filled them) and the requests handed to
`http.DefaultClient.Do`. -/
structure ProxyResult where
  reply : ProxyReply
  built : List http.Request
  sent : List http.Request
  deriving DecidableEq

/-- Function `proxyModelTest`, on the outcome of decoding the request body. -/
def proxyModelTest (env : ProxyEnv) (targetPath : String)
    (headerSetter : Option (http.Request → Token → http.Request))
    (body : Except String ModelTestProxyRequest) : ProxyResult :=
  match body with
  | .error e => { reply := .ApiError e, built := [], sent := [] }
  | .ok req =>
    if req.TokenId = 0 ∨ req.Payload.length = 0 then
      { reply := .ApiError "invalid params", built := [], sent := [] }
    else
      match env.GetTokenById req.TokenId with
      | .error e => { reply := .ApiError e, built := [], sent := [] }
      | .ok token =>
        if token.Status ≠ env.TokenStatusEnabled then
          { reply := .ApiError "token is not enabled", built := [], sent := [] }
        else
          let targetURL := "http://127.0.0.1:" ++ getLocalPort env ++ targetPath
          match env.NewRequestError "POST" targetURL with
          | some e => { reply := .ApiError e, built := [], sent := [] }
          | none =>
            let h1 := http.Header.Set [] "Content-Type" "application/json"
            let h2 := http.Header.Set h1 "Authorization" ("Bearer sk-" ++ token.Key)
            let h3 := http.Header.Set h2 "Accept" "text/event-stream"
            let h4 := http.Header.Set h3 "Cache-Control" "no-cache"
            let req0 : http.Request :=
              { Method := "POST", URL := targetURL, Body := req.Payload, Header := h4 }
            let upstreamReq :=
              match headerSetter with
              | some setter => setter req0 token
              | none => req0
            match env.Do upstreamReq with
            | .error e => { reply := .ApiError e, built := [upstreamReq], sent := [upstreamReq] }
            | .ok resp =>
              { reply := .Stream resp.StatusCode (streamHeader env.clientHeader resp.Header)
                  (streamBody env.writeFails 0 resp.Body)
                built := [upstreamReq]
                sent := [upstreamReq] }

/-- Function `ProxyModelTestChatCompletions`. -/
def ProxyModelTestChatCompletions (env : ProxyEnv)
    (body : Except String ModelTestProxyRequest) : ProxyResult :=
  proxyModelTest env "/v1/chat/completions" none body

/-- Function `ProxyModelTestResponses`. -/
def ProxyModelTestResponses (env : ProxyEnv)
    (body : Except String ModelTestProxyRequest) : ProxyResult :=
  proxyModelTest env "/v1/responses" none body

/-- The header setter of `ProxyModelTestMessages`. -/
def messagesHeaderSetter (req : http.Request) (token : Token) : http.Request :=
  let h1 := http.Header.Set req.Header "x-api-key" ("sk-" ++ token.Key)
  let version := (http.Header.index h1 (http.CanonicalHeaderKey "anthropic-version")).headD ""
  let h2 := if version = "" then http.Header.Set h1 "anthropic-version" "2023-06-01" else h1
  { req with Header := h2 }

/-- Function `ProxyModelTestMessages`. -/
def ProxyModelTestMessages (env : ProxyEnv)
    (body : Except String ModelTestProxyRequest) : ProxyResult :=
  proxyModelTest env "/v1/messages" (some messagesHeaderSetter) body

end controller

/-! ## `controller/user.go`: the deletion of a user -/

namespace controller

/-- Type `model.User`, the fields read by `DeleteUser`. -/
structure User where
  Id : Int
  Role : Int
  deriving DecidableEq

/-- What the calls of `DeleteUser` into package `model` return: the user of an id, and
the error of the hard delete (`none` when the user was deleted). -/
structure UserEnv where
  GetUserById : Int → Bool → Except String User
  HardDeleteUserById : Int → Option String

/-- What `DeleteUser` writes to the client: `common.ApiError` with the error text,
`common.ApiErrorI18n` with a message key, or a JSON body with `success` and `message`. -/
inductive UserReply where
  | ApiError (message : String)
  | ApiErrorI18n (key : String)
  | JSON (success : Bool) (message : String)
  deriving DecidableEq

/-- What a call of `DeleteUser` leaves behind: the body it wrote (`none` when it wrote
nothing) and the `model.HardDeleteUserById` calls it made. -/
structure DeleteOutcome where
  reply : Option UserReply
  deletes : List Int
  deriving DecidableEq

/-- Function `DeleteUser`. `idParam` is the outcome of `strconv.Atoi(c.Param("id"))`, `myRole`
is `c.GetInt("role")` and `MsgUserNoPermissionHigherLevel` the message key of package
`i18n`. -/
def DeleteUser (env : UserEnv) (MsgUserNoPermissionHigherLevel : String)
    (idParam : Except String Int) (myRole : Int) : DeleteOutcome :=
  match idParam with
  | .error e => { reply := some (.ApiError e), deletes := [] }
  | .ok id =>
    match env.GetUserById id false with
    | .error e => { reply := some (.ApiError e), deletes := [] }
    | .ok originUser =>
      if myRole ≤ originUser.Role then
        { reply := some (.ApiErrorI18n MsgUserNoPermissionHigherLevel), deletes := [] }
      else
        match env.HardDeleteUserById id with
        | some _ => { reply := some (.JSON true ""), deletes := [id] }
        | none => { reply := none, deletes := [id] }

end controller

/-! ## Header names up to case -/

/-- The form of a header name that ignores the case of its ASCII letters: two names are
equal case-insensitively when their folds are equal. -/
def http.asciiFold (name : String) : List Char := name.toList.map http.toLowerASCII

/-- The hop-by-hop header names as the specification lists them. -/
def controller.hopByHopNames : List String :=
  ["Connection", "Keep-Alive", "Proxy-Authenticate", "Proxy-Authorization", "TE", "Trailer",
    "Transfer-Encoding", "Upgrade", "Content-Length"]

/-! ## Sample inputs of the later sections -/

/-- The request `sampleInfo` pre-charged 75 units, the quota of 150 tokens at price 1
with 500000 units per currency unit. -/
def settledInfo : RelayInfo := { sampleInfo with FinalPreConsumedQuota := 75 }

/-- A store in which group `a` reaches model `b||c` through channel 1 (priority 1) and
group `a||b` reaches model `c` through channel 2 (priority 10): two (group, model) pairs
whose keys `group ++ "||" ++ model` are both `a||b||c`. -/
def collidingStore : model.Store :=
  { abilities :=
      [ { Group := "a", Model := "b||c", ChannelId := 1, Enabled := true,
          Priority := some 1, Weight := 1, Tag := none },
        { Group := "a||b", Model := "c", ChannelId := 2, Enabled := true,
          Priority := some 10, Weight := 1, Tag := none } ],
    channels :=
      [ { Id := 1, Name := "one", Type_ := 1, Status := 1, BaseURL := none,
          ModelMapping := none },
        { Id := 2, Name := "two", Type_ := 1, Status := 1, BaseURL := none,
          ModelMapping := none } ],
    Error := none }

/-- An upstream response header with hop-by-hop fields, a field of two values and an
`X-Accel-Buffering` of its own. -/
def sampleUpstreamHeader : http.Header :=
  [ ("Content-Type", ["text/event-stream"]),
    ("Connection", ["keep-alive"]),
    ("Set-Cookie", ["a=1", "b=2"]),
    ("X-Accel-Buffering", ["yes"]),
    ("Content-Length", ["12"]),
    ("transfer-encoding", ["chunked"]) ]

/-- An environment of the test proxy: token 3 (key `abc`) is enabled (status 1), token 4
(key `xyz`) is not (status 2), the gateway listens on port 3000 and the upstream answers
200 with `sampleUpstreamHeader` and a body of one piece. -/
def sampleProxyEnv : controller.ProxyEnv :=
  { GetTokenById := fun id =>
      if id = 3 then .ok { RemainQuota := 1000, UnlimitedQuota := false, Key := "abc", Status := 1 }
      else if id = 4 then
        .ok { RemainQuota := 1000, UnlimitedQuota := false, Key := "xyz", Status := 2 }
      else .error "record not found"
    TokenStatusEnabled := 1
    PORT := ""
    Port := 3000
    NewRequestError := fun _ _ => none
    Do := fun _ => .ok { StatusCode := 200, Header := sampleUpstreamHeader, Body := ["data: hi"] }
    clientHeader := []
    writeFails := fun _ => false }

/-- A test request through the enabled token 3. -/
def enabledTokenRequest : controller.ModelTestProxyRequest := { TokenId := 3, Payload := "[1]" }

/-- A test request through the disabled token 4. -/
def disabledTokenRequest : controller.ModelTestProxyRequest := { TokenId := 4, Payload := "[1]" }

/-- An environment of `DeleteUser` in which user 5 has role 1 and every hard delete
succeeds. -/
def sampleUserEnv : controller.UserEnv :=
  { GetUserById := fun id _ =>
      if id = 5 then .ok { Id := 5, Role := 1 } else .error "record not found"
    HardDeleteUserById := fun _ => none }

/-- The environment `sampleUserEnv` in which every hard delete fails. -/
def failingUserEnv : controller.UserEnv :=
  { sampleUserEnv with HardDeleteUserById := fun _ => some "database is locked" }

/-! ## The quota formula in the arithmetic of the machine -/

/-- A value of Go type `float64`: a finite number (the sign of a zero is not kept), an
infinity, or a NaN. -/
inductive Float64 where
  | finite (value : ℚ)
  | inf (negative : Bool)
  | nan
  deriving DecidableEq

namespace Float64

/-- The integer nearest to `x`, a tie going to the even neighbour. -/
def roundHalfEven (x : ℚ) : Int :=
  if x - Int.floor x < 1 / 2 then Int.floor x
  else if 1 / 2 < x - Int.floor x then Int.floor x + 1
  else if Int.floor x % 2 = 0 then Int.floor x else Int.floor x + 1

/-- The rounding of IEEE 754 binary64 arithmetic (to nearest, ties to even): the
magnitude is rounded to a multiple of `2 ^ e`, where `e` leaves 53 significant bits and
is not below -1074, the exponent of the subnormal numbers; a magnitude that rounds to
`2 ^ 1024` or more becomes an infinity. -/
def nearest (x : ℚ) : Float64 :=
  if x = 0 then .finite 0
  else
    let a : ℚ := if x < 0 then -x else x
    let e := max (Int.log 2 a - 52) (-1074)
    let v : ℚ := (roundHalfEven (a / (2 : ℚ) ^ e) : ℚ) * (2 : ℚ) ^ e
    if (2 : ℚ) ^ (1024 : Int) ≤ v then .inf (decide (x < 0))
    else .finite (if x < 0 then -v else v)

/-- Arithmetic over exact rationals: every result is kept as it is. -/
def exact (x : ℚ) : Float64 := .finite x

/-- The product of two `float64` values, in the arithmetic that rounds with `fl`. -/
def mul (fl : ℚ → Float64) : Float64 → Float64 → Float64
  | .finite x, .finite y => fl (x * y)
  | .finite x, .inf s => if x = 0 then .nan else .inf (xor s (decide (x < 0)))
  | .inf s, .finite y => if y = 0 then .nan else .inf (xor s (decide (y < 0)))
  | .inf s, .inf t => .inf (xor s t)
  | _, _ => .nan

/-- The quotient of two `float64` values, in the arithmetic that rounds with `fl`. A
zero divisor is taken as the positive zero. -/
def div (fl : ℚ → Float64) : Float64 → Float64 → Float64
  | .finite x, .finite y =>
    if y = 0 then (if x = 0 then .nan else .inf (decide (x < 0))) else fl (x / y)
  | .finite _, .inf _ => .finite 0
  | .inf s, .finite y => .inf (xor s (decide (y < 0)))
  | _, _ => .nan

/-- Go `math.Round` on a `float64`: the nearest integer, halves away from zero; an
infinity and a NaN are returned unchanged. -/
def roundToInteger : Float64 → Float64
  | .finite x => .finite (mathRound x)
  | .inf s => .inf s
  | .nan => .nan

/-- The Go conversion `int(f)` of a `float64`, as compiled for amd64, where `int` has 64
bits: the value truncated toward zero when that fits, and the most negative integer
for every other value, infinities and NaN included (the language leaves the result of
a conversion that does not fit to the implementation). -/
def toInt : Float64 → Int
  | .finite x =>
    if -9223372036854775808 ≤ intOfFloat x ∧ intOfFloat x < 9223372036854775808 then intOfFloat x
    else -9223372036854775808
  | _ => -9223372036854775808

end Float64

namespace machine

/-- The value `calcQuotaFromTokens` hands to `math.Round`:
`(float64(tokens) * pricePer1M / 1_000_000.0) * common.QuotaPerUnit`, each operation
rounded with `fl`. The price and the scale factor are the values of finite
`float64`s. -/
def product (fl : ℚ → Float64) (cfg : Settings) (tokens : Int) (pricePer1M : ℚ) : Float64 :=
  Float64.mul fl
    (Float64.div fl (Float64.mul fl (fl (tokens : ℚ)) (.finite pricePer1M)) (.finite 1000000))
    (.finite cfg.QuotaPerUnit)

/-- The body shared by the two copies of `calcQuotaFromTokens`, with the conversions
of the machine: `Float64.nearest` for `fl` is the `float64` arithmetic of the code,
`Float64.exact` is arithmetic over exact rationals with the 64-bit `int` of the code. -/
def calcQuotaFromTokens (fl : ℚ → Float64) (cfg : Settings) (tokens : Int)
    (pricePer1M : ℚ) : Int :=
  if tokens ≤ 0 ∨ pricePer1M ≤ 0 then 0
  else Float64.toInt (Float64.roundToInteger (product fl cfg tokens pricePer1M))

end machine

/-- Settings with a negative scale factor. -/
def negativeScaleSettings : Settings := { sampleSettings with QuotaPerUnit := -500000 }

/-! ## Rounding lemmas -/

theorem mathRound_sub_le (x : ℚ) : |((mathRound x : ℤ) : ℚ) - x| ≤ 1 / 2 := by
  unfold mathRound
  split_ifs with h
  · have h1 := Int.floor_le (x + 1 / 2)
    have h2 := Int.lt_floor_add_one (x + 1 / 2)
    rw [abs_le]
    constructor <;> linarith
  · have h1 := Int.floor_le (-x + 1 / 2)
    have h2 := Int.lt_floor_add_one (-x + 1 / 2)
    rw [abs_le]
    push_cast
    constructor <;> linarith

theorem mathRound_half (n : ℤ) (x : ℚ) (hx : x = (n : ℚ) + 1 / 2) :
    mathRound x = if 0 ≤ x then n + 1 else n := by
  unfold mathRound
  split_ifs with h
  · rw [Int.floor_eq_iff]
    subst hx
    push_cast
    constructor <;> linarith
  · have : Int.floor (-x + 1 / 2) = -n := by
      rw [Int.floor_eq_iff]
      subst hx
      push_cast
      constructor <;> linarith
    rw [this]
    simp


/-! ## The quota formula -/

/-- C3: over exact rationals, for `tokens > 0` and `price > 0` both copies of
`calcQuotaFromTokens` return an integer within 1/2 of
`tokens * price / 1000000 * QuotaPerUnit`; they return 0 when `tokens ≤ 0` or
`price ≤ 0`; and 150 tokens at price 1 are charged the rounding of
`150 * 1 / 1000000 * QuotaPerUnit`. -/
theorem calcQuotaFromTokens_nearest (cfg : Settings) (tokens : Int) (price : ℚ) :
    (0 < tokens → 0 < price →
      |((service.calcQuotaFromTokens cfg tokens price : ℤ) : ℚ)
          - (tokens : ℚ) * price / 1000000 * cfg.QuotaPerUnit| ≤ 1 / 2 ∧
      |((helper.calcQuotaFromTokens cfg tokens price : ℤ) : ℚ)
          - (tokens : ℚ) * price / 1000000 * cfg.QuotaPerUnit| ≤ 1 / 2) ∧
    (tokens ≤ 0 ∨ price ≤ 0 →
      service.calcQuotaFromTokens cfg tokens price = 0 ∧
      helper.calcQuotaFromTokens cfg tokens price = 0) ∧
    service.calcQuotaFromTokens cfg 150 1 = mathRound (150 * 1 / 1000000 * cfg.QuotaPerUnit) ∧
    helper.calcQuotaFromTokens cfg 150 1 = mathRound (150 * 1 / 1000000 * cfg.QuotaPerUnit) := by
  refine ⟨fun ht hp => ?_, fun h => ?_, ?_, ?_⟩
  · have hn : ¬ (tokens ≤ 0 ∨ price ≤ 0) := by
      rintro (h | h)
      · omega
      · exact absurd hp (not_lt.mpr h)
    simp only [service.calcQuotaFromTokens, helper.calcQuotaFromTokens, if_neg hn]
    exact ⟨mathRound_sub_le _, mathRound_sub_le _⟩
  · simp [service.calcQuotaFromTokens, helper.calcQuotaFromTokens, h]
  · norm_num [service.calcQuotaFromTokens]
  · norm_num [helper.calcQuotaFromTokens]

/-- Witness of C3: 150 tokens at price 1 with 500000 units per currency unit. -/
theorem calcQuotaFromTokens_nearest_witness :
    |((service.calcQuotaFromTokens sampleSettings 150 1 : ℤ) : ℚ)
        - ((150 : ℤ) : ℚ) * 1 / 1000000 * sampleSettings.QuotaPerUnit| ≤ 1 / 2 ∧
    |((helper.calcQuotaFromTokens sampleSettings 150 1 : ℤ) : ℚ)
        - ((150 : ℤ) : ℚ) * 1 / 1000000 * sampleSettings.QuotaPerUnit| ≤ 1 / 2 :=
  (calcQuotaFromTokens_nearest sampleSettings 150 1).1 (by decide) (by norm_num)

/-! ## Traces -/

theorem userQuotaDebit_append (id : Int) (a b : List Event) :
    userQuotaDebit id (a ++ b) = userQuotaDebit id a + userQuotaDebit id b := by
  simp [userQuotaDebit, List.map_append, List.sum_append]

theorem tokenQuotaDebit_append (id : Int) (a b : List Event) :
    tokenQuotaDebit id (a ++ b) = tokenQuotaDebit id a + tokenQuotaDebit id b := by
  simp [tokenQuotaDebit, List.map_append, List.sum_append]

theorem logRows_append (a b : List Event) : logRows (a ++ b) = logRows a ++ logRows b := by
  simp [logRows, List.filterMap_append]

theorem userQuotaCalls_append (a b : List Event) :
    userQuotaCalls (a ++ b) = userQuotaCalls a ++ userQuotaCalls b := by
  simp [userQuotaCalls, List.filter_append]

theorem tokenQuotaCalls_append (a b : List Event) :
    tokenQuotaCalls (a ++ b) = tokenQuotaCalls a ++ tokenQuotaCalls b := by
  simp [tokenQuotaCalls, List.filter_append]

theorem userQuotaDebit_nil (id : Int) : userQuotaDebit id [] = 0 := rfl

theorem userQuotaDebit_cons (id : Int) (e : Event) (es : List Event) :
    userQuotaDebit id (e :: es) = e.userDebit id + userQuotaDebit id es := by
  simp [userQuotaDebit]

theorem tokenQuotaDebit_nil (id : Int) : tokenQuotaDebit id [] = 0 := rfl

theorem tokenQuotaDebit_cons (id : Int) (e : Event) (es : List Event) :
    tokenQuotaDebit id (e :: es) = e.tokenDebit id + tokenQuotaDebit id es := by
  simp [tokenQuotaDebit]

theorem logRows_nil : logRows [] = [] := rfl

theorem logRows_cons (e : Event) (es : List Event) :
    logRows (e :: es) = (match e.logRow? with
      | some row => row :: logRows es
      | none => logRows es) := by
  cases h : e.logRow? <;> simp [logRows, List.filterMap_cons, h]

theorem userQuotaCalls_nil : userQuotaCalls [] = [] := rfl

theorem userQuotaCalls_cons (e : Event) (es : List Event) :
    userQuotaCalls (e :: es)
      = if e.isUserQuotaCall = true then e :: userQuotaCalls es else userQuotaCalls es := by
  simp only [userQuotaCalls, List.filter_cons]

theorem tokenQuotaCalls_nil : tokenQuotaCalls [] = [] := rfl

theorem tokenQuotaCalls_cons (e : Event) (es : List Event) :
    tokenQuotaCalls (e :: es)
      = if e.isTokenQuotaCall = true then e :: tokenQuotaCalls es else tokenQuotaCalls es := by
  simp only [tokenQuotaCalls, List.filter_cons]

/-- The notification worker touches neither ledger nor the consumption log. -/
theorem checkAndSendQuotaNotify_inert (cfg : Settings) (env : Env) (relayInfo : RelayInfo)
    (quota pre : Int) (uid tid : Int) :
    userQuotaDebit uid (service.checkAndSendQuotaNotify cfg env relayInfo quota pre) = 0 ∧
    tokenQuotaDebit tid (service.checkAndSendQuotaNotify cfg env relayInfo quota pre) = 0 ∧
    logRows (service.checkAndSendQuotaNotify cfg env relayInfo quota pre) = [] ∧
    userQuotaCalls (service.checkAndSendQuotaNotify cfg env relayInfo quota pre) = [] ∧
    tokenQuotaCalls (service.checkAndSendQuotaNotify cfg env relayInfo quota pre) = [] := by
  unfold service.checkAndSendQuotaNotify
  simp only
  split_ifs <;> (try split) <;>
    simp [userQuotaDebit, tokenQuotaDebit, logRows, userQuotaCalls, tokenQuotaCalls,
      Event.userDebit, Event.tokenDebit, Event.logRow?, Event.isUserQuotaCall,
      Event.isTokenQuotaCall]

/-! ## `PostConsumeQuota` -/

/-- With a ledger that accepts every call, `PostConsumeQuota` returns no error,
debits the user by `quota`, debits the token by `quota` unless the request is
playground, and writes no log row. -/
theorem PostConsumeQuota_ledgerOk (cfg : Settings) (env : Env) (relayInfo : RelayInfo)
    (quota pre : Int) (sendEmail : Bool) (h : env.ledgerOk) :
    (service.PostConsumeQuota cfg env relayInfo quota pre sendEmail).2 = none ∧
    userQuotaDebit relayInfo.UserId
      (service.PostConsumeQuota cfg env relayInfo quota pre sendEmail).1 = quota ∧
    (relayInfo.IsPlayground = false →
      tokenQuotaDebit relayInfo.TokenId
        (service.PostConsumeQuota cfg env relayInfo quota pre sendEmail).1 = quota) ∧
    logRows (service.PostConsumeQuota cfg env relayInfo quota pre sendEmail).1 = [] := by
  obtain ⟨h1, h2, h3, h4⟩ := h
  have hn := checkAndSendQuotaNotify_inert cfg env relayInfo quota pre relayInfo.UserId
    relayInfo.TokenId
  obtain ⟨n1, n2, n3, -, -⟩ := hn
  unfold service.PostConsumeQuota
  simp only [h1, h2, h3, h4]
  by_cases hq : quota > 0 <;> cases hp : relayInfo.IsPlayground <;> cases sendEmail <;>
    by_cases hz : quota + pre = 0 <;>
    simp [hq, hz, userQuotaDebit_append, tokenQuotaDebit_append, logRows_append,
      userQuotaDebit_cons, tokenQuotaDebit_cons, logRows_cons, userQuotaDebit_nil,
      tokenQuotaDebit_nil, logRows_nil, n1, n2, n3, Event.userDebit, Event.tokenDebit,
      Event.logRow?]

/-- A playground request makes no call that mutates a token quota, whatever the
ledger answers. -/
theorem PostConsumeQuota_playground (cfg : Settings) (env : Env) (relayInfo : RelayInfo)
    (quota pre : Int) (sendEmail : Bool) (hp : relayInfo.IsPlayground = true) :
    tokenQuotaCalls (service.PostConsumeQuota cfg env relayInfo quota pre sendEmail).1 = [] := by
  have hn := (checkAndSendQuotaNotify_inert cfg env relayInfo quota pre 0 0).2.2.2.2
  unfold service.PostConsumeQuota
  simp only [hp]
  cases hd : env.DecreaseUserQuota relayInfo.UserId quota <;>
    cases hi : env.IncreaseUserQuota relayInfo.UserId (-quota) false <;>
    by_cases hq : quota > 0 <;> cases sendEmail <;> by_cases hz : quota + pre = 0 <;>
    simp [hq, hz, tokenQuotaCalls_append, tokenQuotaCalls_cons, tokenQuotaCalls_nil, hn,
      Event.isTokenQuotaCall]

/-- Function `PostConsumeQuota` writes no consumption log row, whatever the ledger answers. -/
theorem PostConsumeQuota_logRows (cfg : Settings) (env : Env) (relayInfo : RelayInfo)
    (quota pre : Int) (sendEmail : Bool) :
    logRows (service.PostConsumeQuota cfg env relayInfo quota pre sendEmail).1 = [] := by
  have hn := (checkAndSendQuotaNotify_inert cfg env relayInfo quota pre 0 0).2.2.1
  unfold service.PostConsumeQuota
  cases hd : env.DecreaseUserQuota relayInfo.UserId quota <;>
    cases hi : env.IncreaseUserQuota relayInfo.UserId (-quota) false <;>
    cases hdt : env.DecreaseTokenQuota relayInfo.TokenId relayInfo.TokenKey quota <;>
    cases hit : env.IncreaseTokenQuota relayInfo.TokenId relayInfo.TokenKey (-quota) <;>
    by_cases hq : quota > 0 <;> cases hp : relayInfo.IsPlayground <;> cases sendEmail <;>
    by_cases hz : quota + pre = 0 <;>
    simp [hq, hz, logRows_append, logRows_cons, logRows_nil, hn, Event.logRow?]

/-! ## The post-charge routines -/

theorem deltaLog_inert (env : Env) (quotaDelta quota pre : Int) (uid tid : Int) :
    userQuotaDebit uid (service.deltaLog env quotaDelta quota pre) = 0 ∧
    tokenQuotaDebit tid (service.deltaLog env quotaDelta quota pre) = 0 ∧
    logRows (service.deltaLog env quotaDelta quota pre) = [] ∧
    userQuotaCalls (service.deltaLog env quotaDelta quota pre) = [] ∧
    tokenQuotaCalls (service.deltaLog env quotaDelta quota pre) = [] := by
  unfold service.deltaLog
  split_ifs <;>
    simp [userQuotaDebit, tokenQuotaDebit, logRows, userQuotaCalls, tokenQuotaCalls,
      Event.userDebit, Event.tokenDebit, Event.logRow?, Event.isUserQuotaCall,
      Event.isTokenQuotaCall]

theorem reconcile_logRows (cfg : Settings) (env : Env) (relayInfo : RelayInfo)
    (quotaDelta : Int) : logRows (service.reconcile cfg env relayInfo quotaDelta) = [] := by
  have h := PostConsumeQuota_logRows cfg env relayInfo quotaDelta
    relayInfo.FinalPreConsumedQuota true
  unfold service.reconcile
  split_ifs
  · cases hr : (service.PostConsumeQuota cfg env relayInfo quotaDelta
        relayInfo.FinalPreConsumedQuota true).2 <;>
      simp [hr, logRows_append, logRows_cons, logRows_nil, h, Event.logRow?]
  · rfl

theorem reconcile_zero (cfg : Settings) (env : Env) (relayInfo : RelayInfo) :
    service.reconcile cfg env relayInfo 0 = [] := by
  simp [service.reconcile]

theorem reconcile_ledgerOk (cfg : Settings) (env : Env) (relayInfo : RelayInfo)
    (quotaDelta : Int) (h : env.ledgerOk) :
    userQuotaDebit relayInfo.UserId (service.reconcile cfg env relayInfo quotaDelta)
      = quotaDelta ∧
    (relayInfo.IsPlayground = false →
      tokenQuotaDebit relayInfo.TokenId (service.reconcile cfg env relayInfo quotaDelta)
        = quotaDelta) := by
  obtain ⟨p1, p2, p3, -⟩ := PostConsumeQuota_ledgerOk cfg env relayInfo quotaDelta
    relayInfo.FinalPreConsumedQuota true h
  unfold service.reconcile
  split_ifs with hz
  · simp only [p1]
    exact ⟨p2, p3⟩
  · have hz0 : quotaDelta = 0 := by simpa using hz
    subst hz0
    simp [userQuotaDebit_nil, tokenQuotaDebit_nil]

/-- The usage counters, or the error line of the zero-token path, touch neither quota
ledger nor the consumption log. -/
theorem counters_inert (relayInfo : RelayInfo) (modelName : String) (totalTokens quota : Int)
    (uid tid : Int) :
    userQuotaDebit uid (if totalTokens = 0 then [service.zeroTokensLog relayInfo modelName]
      else [Event.UpdateUserUsedQuotaAndRequestCount relayInfo.UserId quota,
            Event.UpdateChannelUsedQuota relayInfo.ChannelId quota]) = 0 ∧
    tokenQuotaDebit tid (if totalTokens = 0 then [service.zeroTokensLog relayInfo modelName]
      else [Event.UpdateUserUsedQuotaAndRequestCount relayInfo.UserId quota,
            Event.UpdateChannelUsedQuota relayInfo.ChannelId quota]) = 0 ∧
    logRows (if totalTokens = 0 then [service.zeroTokensLog relayInfo modelName]
      else [Event.UpdateUserUsedQuotaAndRequestCount relayInfo.UserId quota,
            Event.UpdateChannelUsedQuota relayInfo.ChannelId quota]) = [] ∧
    userQuotaCalls (if totalTokens = 0 then [service.zeroTokensLog relayInfo modelName]
      else [Event.UpdateUserUsedQuotaAndRequestCount relayInfo.UserId quota,
            Event.UpdateChannelUsedQuota relayInfo.ChannelId quota]) = [] ∧
    tokenQuotaCalls (if totalTokens = 0 then [service.zeroTokensLog relayInfo modelName]
      else [Event.UpdateUserUsedQuotaAndRequestCount relayInfo.UserId quota,
            Event.UpdateChannelUsedQuota relayInfo.ChannelId quota]) = [] := by
  split_ifs <;>
    simp [userQuotaDebit, tokenQuotaDebit, logRows, userQuotaCalls, tokenQuotaCalls,
      service.zeroTokensLog, Event.userDebit, Event.tokenDebit, Event.logRow?,
      Event.isUserQuotaCall, Event.isTokenQuotaCall]

/-- The common shape of the post-charge routines that reconcile: events that touch no
quota, the delta log line, the reconciliation of `row.Quota - P`, then the log row. With
a ledger that accepts every call the trace writes the single row `row`, debits the user
(and a non-playground token) by `row.Quota - P`, and makes no quota call when
`row.Quota = P`. -/
theorem postCharge_shape (cfg : Settings) (env : Env) (relayInfo : RelayInfo)
    (counters : List Event) (row : RecordConsumeLogParams) (h : env.ledgerOk)
    (hc1 : userQuotaDebit relayInfo.UserId counters = 0)
    (hc2 : tokenQuotaDebit relayInfo.TokenId counters = 0)
    (hc3 : logRows counters = [])
    (hc4 : userQuotaCalls counters = [])
    (hc5 : tokenQuotaCalls counters = []) :
    logRows (counters
        ++ service.deltaLog env (row.Quota - relayInfo.FinalPreConsumedQuota) row.Quota
            relayInfo.FinalPreConsumedQuota
        ++ service.reconcile cfg env relayInfo (row.Quota - relayInfo.FinalPreConsumedQuota)
        ++ [Event.RecordConsumeLog relayInfo.UserId row]) = [row] ∧
    userQuotaDebit relayInfo.UserId (counters
        ++ service.deltaLog env (row.Quota - relayInfo.FinalPreConsumedQuota) row.Quota
            relayInfo.FinalPreConsumedQuota
        ++ service.reconcile cfg env relayInfo (row.Quota - relayInfo.FinalPreConsumedQuota)
        ++ [Event.RecordConsumeLog relayInfo.UserId row])
      = row.Quota - relayInfo.FinalPreConsumedQuota ∧
    (relayInfo.IsPlayground = false →
      tokenQuotaDebit relayInfo.TokenId (counters
        ++ service.deltaLog env (row.Quota - relayInfo.FinalPreConsumedQuota) row.Quota
            relayInfo.FinalPreConsumedQuota
        ++ service.reconcile cfg env relayInfo (row.Quota - relayInfo.FinalPreConsumedQuota)
        ++ [Event.RecordConsumeLog relayInfo.UserId row])
      = row.Quota - relayInfo.FinalPreConsumedQuota) ∧
    (row.Quota = relayInfo.FinalPreConsumedQuota →
      userQuotaCalls (counters
        ++ service.deltaLog env (row.Quota - relayInfo.FinalPreConsumedQuota) row.Quota
            relayInfo.FinalPreConsumedQuota
        ++ service.reconcile cfg env relayInfo (row.Quota - relayInfo.FinalPreConsumedQuota)
        ++ [Event.RecordConsumeLog relayInfo.UserId row]) = [] ∧
      tokenQuotaCalls (counters
        ++ service.deltaLog env (row.Quota - relayInfo.FinalPreConsumedQuota) row.Quota
            relayInfo.FinalPreConsumedQuota
        ++ service.reconcile cfg env relayInfo (row.Quota - relayInfo.FinalPreConsumedQuota)
        ++ [Event.RecordConsumeLog relayInfo.UserId row]) = []) := by
  obtain ⟨d1, d2, d3, d4, d5⟩ := deltaLog_inert env
    (row.Quota - relayInfo.FinalPreConsumedQuota) row.Quota relayInfo.FinalPreConsumedQuota
    relayInfo.UserId relayInfo.TokenId
  obtain ⟨r1, r2⟩ := reconcile_ledgerOk cfg env relayInfo
    (row.Quota - relayInfo.FinalPreConsumedQuota) h
  have r3 := reconcile_logRows cfg env relayInfo (row.Quota - relayInfo.FinalPreConsumedQuota)
  refine ⟨?_, ?_, ?_, ?_⟩
  · simp [logRows_append, hc3, d3, r3, logRows_cons, logRows_nil, Event.logRow?]
  · simp [userQuotaDebit_append, hc1, d1, r1, userQuotaDebit_cons, userQuotaDebit_nil,
      Event.userDebit]
  · intro hp
    simp [tokenQuotaDebit_append, hc2, d2, r2 hp, tokenQuotaDebit_cons, tokenQuotaDebit_nil,
      Event.tokenDebit]
  · intro hq
    have hz : row.Quota - relayInfo.FinalPreConsumedQuota = 0 := by omega
    rw [hz] at d4 d5
    simp [hz, userQuotaCalls_append, tokenQuotaCalls_append, hc4, hc5, d4, d5, reconcile_zero,
      userQuotaCalls_cons, tokenQuotaCalls_cons, userQuotaCalls_nil, tokenQuotaCalls_nil,
      Event.isUserQuotaCall, Event.isTokenQuotaCall]

/-- The log row is written on every path of the common shape, whatever the ledger
answers. -/
theorem postCharge_shape_logRows (cfg : Settings) (env : Env) (relayInfo : RelayInfo)
    (counters : List Event) (row : RecordConsumeLogParams) (hc3 : logRows counters = []) :
    logRows (counters
        ++ service.deltaLog env (row.Quota - relayInfo.FinalPreConsumedQuota) row.Quota
            relayInfo.FinalPreConsumedQuota
        ++ service.reconcile cfg env relayInfo (row.Quota - relayInfo.FinalPreConsumedQuota)
        ++ [Event.RecordConsumeLog relayInfo.UserId row]) = [row] := by
  have d3 := (deltaLog_inert env (row.Quota - relayInfo.FinalPreConsumedQuota) row.Quota
    relayInfo.FinalPreConsumedQuota 0 0).2.2.1
  have r3 := reconcile_logRows cfg env relayInfo (row.Quota - relayInfo.FinalPreConsumedQuota)
  simp [logRows_append, hc3, d3, r3, logRows_cons, logRows_nil, Event.logRow?]

/-- An error of the reconciliation is logged. -/
theorem reconcile_logs_error (cfg : Settings) (env : Env) (relayInfo : RelayInfo)
    (quotaDelta : Int) (e : String) (hz : quotaDelta ≠ 0)
    (he : (service.PostConsumeQuota cfg env relayInfo quotaDelta
      relayInfo.FinalPreConsumedQuota true).2 = some e) :
    Event.LogError ("error consuming token remain quota: " ++ e)
      ∈ service.reconcile cfg env relayInfo quotaDelta := by
  unfold service.reconcile
  simp [hz, he]

/-- The trace of `PostClaudeConsumeQuota` has the common shape, and the quota of its
row is 0 for a zero total and the quota formula of the total otherwise. -/
theorem PostClaudeConsumeQuota_trace (cfg : Settings) (env : Env) (ctx : Context)
    (relayInfo : RelayInfo) (usage : Usage) :
    ∃ counters row,
      service.PostClaudeConsumeQuota cfg env ctx relayInfo usage
        = counters
          ++ service.deltaLog env (row.Quota - relayInfo.FinalPreConsumedQuota) row.Quota
              relayInfo.FinalPreConsumedQuota
          ++ service.reconcile cfg env relayInfo (row.Quota - relayInfo.FinalPreConsumedQuota)
          ++ [Event.RecordConsumeLog relayInfo.UserId row] ∧
      row.Quota
        = (if (if usage.TotalTokens = 0 then usage.PromptTokens + usage.CompletionTokens
              else usage.TotalTokens) = 0 then 0
            else service.calcQuotaFromTokens cfg
              (if usage.TotalTokens = 0 then usage.PromptTokens + usage.CompletionTokens
                else usage.TotalTokens) relayInfo.PriceData.ModelPrice) ∧
      userQuotaDebit relayInfo.UserId counters = 0 ∧
      tokenQuotaDebit relayInfo.TokenId counters = 0 ∧
      logRows counters = [] ∧ userQuotaCalls counters = [] ∧ tokenQuotaCalls counters = [] := by
  let T : Int :=
    if usage.TotalTokens = 0 then usage.PromptTokens + usage.CompletionTokens
    else usage.TotalTokens
  let q : Int :=
    if T = 0 then 0 else service.calcQuotaFromTokens cfg T relayInfo.PriceData.ModelPrice
  let c0 : String := "单价 " ++ env.Sprintf6f relayInfo.PriceData.ModelPrice ++ " / 1M tokens"
  let row : RecordConsumeLogParams :=
    { ChannelId := relayInfo.ChannelId
      PromptTokens := usage.PromptTokens
      CompletionTokens := usage.CompletionTokens
      ModelName := relayInfo.OriginModelName
      TokenName := ctx.token_name
      Quota := q
      Content := if T = 0 then c0 ++ "（可能是上游出错）" else c0
      TokenId := relayInfo.TokenId
      UseTimeSeconds := env.now - relayInfo.StartTime
      IsStream := relayInfo.IsStream
      Group := relayInfo.UsingGroup
      Other := env.GenerateClaudeOtherInfo relayInfo }
  exact ⟨_, row, rfl, rfl,
    counters_inert relayInfo relayInfo.OriginModelName T q relayInfo.UserId relayInfo.TokenId⟩

/-- The trace of `PostAudioConsumeQuota` has the common shape, and the quota of its
row is 0 for a zero total and the quota formula of the total otherwise. -/
theorem PostAudioConsumeQuota_trace (cfg : Settings) (env : Env) (ctx : Context)
    (relayInfo : RelayInfo) (usage : Usage) (extraContent : String) :
    ∃ counters row,
      service.PostAudioConsumeQuota cfg env ctx relayInfo usage extraContent
        = counters
          ++ service.deltaLog env (row.Quota - relayInfo.FinalPreConsumedQuota) row.Quota
              relayInfo.FinalPreConsumedQuota
          ++ service.reconcile cfg env relayInfo (row.Quota - relayInfo.FinalPreConsumedQuota)
          ++ [Event.RecordConsumeLog relayInfo.UserId row] ∧
      row.Quota
        = (if (if usage.TotalTokens = 0 then
                usage.PromptTokensDetails.TextTokens + usage.CompletionTokenDetails.TextTokens
                  + usage.PromptTokensDetails.AudioTokens
                  + usage.CompletionTokenDetails.AudioTokens
              else usage.TotalTokens) = 0 then 0
            else service.calcQuotaFromTokens cfg
              (if usage.TotalTokens = 0 then
                usage.PromptTokensDetails.TextTokens + usage.CompletionTokenDetails.TextTokens
                  + usage.PromptTokensDetails.AudioTokens
                  + usage.CompletionTokenDetails.AudioTokens
                else usage.TotalTokens) relayInfo.PriceData.ModelPrice) ∧
      userQuotaDebit relayInfo.UserId counters = 0 ∧
      tokenQuotaDebit relayInfo.TokenId counters = 0 ∧
      logRows counters = [] ∧ userQuotaCalls counters = [] ∧ tokenQuotaCalls counters = [] := by
  let T : Int :=
    if usage.TotalTokens = 0 then
      usage.PromptTokensDetails.TextTokens + usage.CompletionTokenDetails.TextTokens
        + usage.PromptTokensDetails.AudioTokens + usage.CompletionTokenDetails.AudioTokens
    else usage.TotalTokens
  let q : Int :=
    if T = 0 then 0 else service.calcQuotaFromTokens cfg T relayInfo.PriceData.ModelPrice
  let c0 : String := "单价 " ++ env.Sprintf6f relayInfo.PriceData.ModelPrice ++ " / 1M tokens"
  let c1 : String := if T = 0 then c0 ++ "（可能是上游超时）" else c0
  let row : RecordConsumeLogParams :=
    { ChannelId := relayInfo.ChannelId
      PromptTokens := usage.PromptTokens
      CompletionTokens := usage.CompletionTokens
      ModelName := relayInfo.OriginModelName
      TokenName := ctx.token_name
      Quota := q
      Content := if extraContent ≠ "" then c1 ++ ", " ++ extraContent else c1
      TokenId := relayInfo.TokenId
      UseTimeSeconds := env.now - relayInfo.StartTime
      IsStream := relayInfo.IsStream
      Group := relayInfo.UsingGroup
      Other := env.GenerateAudioOtherInfo relayInfo usage }
  exact ⟨_, row, rfl, rfl,
    counters_inert relayInfo relayInfo.OriginModelName T q relayInfo.UserId relayInfo.TokenId⟩

/-- Function `PostWssConsumeQuota` writes one log row and makes no call that mutates a quota. -/
theorem PostWssConsumeQuota_trace (cfg : Settings) (env : Env) (ctx : Context)
    (relayInfo : RelayInfo) (modelName : String) (usage : RealtimeUsage)
    (extraContent : String) :
    (∃ row, logRows (service.PostWssConsumeQuota cfg env ctx relayInfo modelName usage
      extraContent) = [row]) ∧
    userQuotaCalls (service.PostWssConsumeQuota cfg env ctx relayInfo modelName usage
      extraContent) = [] ∧
    tokenQuotaCalls (service.PostWssConsumeQuota cfg env ctx relayInfo modelName usage
      extraContent) = [] := by
  unfold service.PostWssConsumeQuota
  simp only
  split_ifs <;>
    simp [logRows_append, logRows_cons, logRows_nil, userQuotaCalls_append,
      userQuotaCalls_cons, userQuotaCalls_nil, tokenQuotaCalls_append, tokenQuotaCalls_cons,
      tokenQuotaCalls_nil, service.zeroTokensLog, Event.logRow?, Event.isUserQuotaCall,
      Event.isTokenQuotaCall]

/-! ## The claims about the post-charge -/

/-- C2: with a ledger that accepts every call, when `usage.TotalTokens = 0` and the
fallback sum of the counted tokens is 0, `PostClaudeConsumeQuota` and
`PostAudioConsumeQuota` write one log row with quota 0 and, for every pre-consumed
amount `P` (in particular `P > 0`), credit the user quota and the non-playground token
quota exactly `P`: the net debit is `-P`. -/
theorem zeroTokens_full_refund (cfg : Settings) (env : Env) (ctx : Context)
    (relayInfo : RelayInfo) (usage : Usage) (extraContent : String) (h : env.ledgerOk)
    (h0 : usage.TotalTokens = 0) :
    (usage.PromptTokens + usage.CompletionTokens = 0 →
      ∃ row, logRows (service.PostClaudeConsumeQuota cfg env ctx relayInfo usage) = [row] ∧
        row.Quota = 0 ∧
        userQuotaDebit relayInfo.UserId
          (service.PostClaudeConsumeQuota cfg env ctx relayInfo usage)
          = -relayInfo.FinalPreConsumedQuota ∧
        (relayInfo.IsPlayground = false →
          tokenQuotaDebit relayInfo.TokenId
            (service.PostClaudeConsumeQuota cfg env ctx relayInfo usage)
            = -relayInfo.FinalPreConsumedQuota)) ∧
    (usage.PromptTokensDetails.TextTokens + usage.CompletionTokenDetails.TextTokens
        + usage.PromptTokensDetails.AudioTokens + usage.CompletionTokenDetails.AudioTokens = 0 →
      ∃ row,
        logRows (service.PostAudioConsumeQuota cfg env ctx relayInfo usage extraContent)
          = [row] ∧
        row.Quota = 0 ∧
        userQuotaDebit relayInfo.UserId
          (service.PostAudioConsumeQuota cfg env ctx relayInfo usage extraContent)
          = -relayInfo.FinalPreConsumedQuota ∧
        (relayInfo.IsPlayground = false →
          tokenQuotaDebit relayInfo.TokenId
            (service.PostAudioConsumeQuota cfg env ctx relayInfo usage extraContent)
            = -relayInfo.FinalPreConsumedQuota)) := by
  constructor
  · intro hs
    obtain ⟨counters, row, htr, hq, c1, c2, c3, c4, c5⟩ :=
      PostClaudeConsumeQuota_trace cfg env ctx relayInfo usage
    obtain ⟨s1, s2, s3, -⟩ := postCharge_shape cfg env relayInfo counters row h c1 c2 c3 c4 c5
    have hq0 : row.Quota = 0 := by rw [hq]; simp [h0, hs]
    rw [htr]
    refine ⟨row, s1, hq0, ?_, fun hp => ?_⟩
    · rw [s2, hq0]; ring
    · rw [s3 hp, hq0]; ring
  · intro hs
    obtain ⟨counters, row, htr, hq, c1, c2, c3, c4, c5⟩ :=
      PostAudioConsumeQuota_trace cfg env ctx relayInfo usage extraContent
    obtain ⟨s1, s2, s3, -⟩ := postCharge_shape cfg env relayInfo counters row h c1 c2 c3 c4 c5
    have hq0 : row.Quota = 0 := by rw [hq]; simp [h0, hs]
    rw [htr]
    refine ⟨row, s1, hq0, ?_, fun hp => ?_⟩
    · rw [s2, hq0]; ring
    · rw [s3 hp, hq0]; ring

/-- Witness of C2: a usage without tokens after a pre-charge of 250. -/
theorem zeroTokens_full_refund_witness :
    (∃ row,
      logRows (service.PostClaudeConsumeQuota sampleSettings sampleEnv sampleCtx sampleInfo
        zeroUsage) = [row] ∧ row.Quota = 0 ∧
      userQuotaDebit 7 (service.PostClaudeConsumeQuota sampleSettings sampleEnv sampleCtx
        sampleInfo zeroUsage) = -250 ∧
      tokenQuotaDebit 3 (service.PostClaudeConsumeQuota sampleSettings sampleEnv sampleCtx
        sampleInfo zeroUsage) = -250) ∧
    (∃ row,
      logRows (service.PostAudioConsumeQuota sampleSettings sampleEnv sampleCtx sampleInfo
        zeroUsage "") = [row] ∧ row.Quota = 0 ∧
      userQuotaDebit 7 (service.PostAudioConsumeQuota sampleSettings sampleEnv sampleCtx
        sampleInfo zeroUsage "") = -250 ∧
      tokenQuotaDebit 3 (service.PostAudioConsumeQuota sampleSettings sampleEnv sampleCtx
        sampleInfo zeroUsage "") = -250) := by
  have h := zeroTokens_full_refund sampleSettings sampleEnv sampleCtx sampleInfo zeroUsage ""
    ⟨fun _ _ => rfl, fun _ _ _ => rfl, fun _ _ _ => rfl, fun _ _ _ => rfl⟩ rfl
  obtain ⟨row, a1, a2, a3, a4⟩ := h.1 (by decide)
  obtain ⟨row', b1, b2, b3, b4⟩ := h.2 (by decide)
  exact ⟨⟨row, a1, a2, a3, a4 rfl⟩, ⟨row', b1, b2, b3, b4 rfl⟩⟩

/-- C5: when the ledger calls succeed, `PostConsumeQuota(info, delta, pre, notify)`
returns no error; for `delta ≥ 0` the user quota is debited by `delta` and, unless the
request is playground, so is the token's remaining quota; for `delta < 0` both are
credited `|delta|`; and a playground request makes no call that mutates a token
quota. -/
theorem PostConsumeQuota_debits_or_credits (cfg : Settings) (env : Env) (relayInfo : RelayInfo)
    (delta pre : Int) (notify : Bool) (h : env.ledgerOk) :
    (service.PostConsumeQuota cfg env relayInfo delta pre notify).2 = none ∧
    (0 ≤ delta →
      userQuotaDebit relayInfo.UserId
        (service.PostConsumeQuota cfg env relayInfo delta pre notify).1 = delta ∧
      (relayInfo.IsPlayground = false →
        tokenQuotaDebit relayInfo.TokenId
          (service.PostConsumeQuota cfg env relayInfo delta pre notify).1 = delta)) ∧
    (delta < 0 →
      userQuotaDebit relayInfo.UserId
        (service.PostConsumeQuota cfg env relayInfo delta pre notify).1 = -|delta| ∧
      (relayInfo.IsPlayground = false →
        tokenQuotaDebit relayInfo.TokenId
          (service.PostConsumeQuota cfg env relayInfo delta pre notify).1 = -|delta|)) ∧
    (relayInfo.IsPlayground = true →
      tokenQuotaCalls (service.PostConsumeQuota cfg env relayInfo delta pre notify).1 = []) := by
  obtain ⟨p1, p2, p3, -⟩ := PostConsumeQuota_ledgerOk cfg env relayInfo delta pre notify h
  refine ⟨p1, fun _ => ⟨p2, p3⟩, fun hneg => ?_,
    PostConsumeQuota_playground cfg env relayInfo delta pre notify⟩
  have habs : -|delta| = delta := by rw [abs_of_neg hneg]; ring
  rw [habs]
  exact ⟨p2, p3⟩

/-- Witness of C5: a refund of 250 and a supplementary charge of 40. -/
theorem PostConsumeQuota_debits_or_credits_witness :
    (userQuotaDebit 7 (service.PostConsumeQuota sampleSettings sampleEnv sampleInfo (-250) 250
        true).1 = -|(-250)| ∧
      tokenQuotaDebit 3 (service.PostConsumeQuota sampleSettings sampleEnv sampleInfo (-250) 250
        true).1 = -|(-250)|) ∧
    (userQuotaDebit 7 (service.PostConsumeQuota sampleSettings sampleEnv sampleInfo 40 250
        true).1 = 40 ∧
      tokenQuotaDebit 3 (service.PostConsumeQuota sampleSettings sampleEnv sampleInfo 40 250
        true).1 = 40) ∧
    tokenQuotaCalls (service.PostConsumeQuota sampleSettings sampleEnv playgroundInfo 40 250
      true).1 = [] := by
  have hok : sampleEnv.ledgerOk :=
    ⟨fun _ _ => rfl, fun _ _ _ => rfl, fun _ _ _ => rfl, fun _ _ _ => rfl⟩
  have a := (PostConsumeQuota_debits_or_credits sampleSettings sampleEnv sampleInfo (-250) 250
    true hok).2.2.1 (by decide)
  have b := (PostConsumeQuota_debits_or_credits sampleSettings sampleEnv sampleInfo 40 250
    true hok).2.1 (by decide)
  have c := (PostConsumeQuota_debits_or_credits sampleSettings sampleEnv playgroundInfo 40 250
    true hok).2.2.2 rfl
  exact ⟨⟨a.1, a.2 rfl⟩, ⟨b.1, b.2 rfl⟩, c⟩

/-- C6: whatever the ledger answers, every call of `PostClaudeConsumeQuota`,
`PostAudioConsumeQuota` and `PostWssConsumeQuota` writes exactly one consumption log
row (with zero total tokens, with zero delta, with a failing ledger); and when the
reconciliation `PostConsumeQuota` of a non-zero delta returns an error, that error is
logged. The routines return nothing, so no error reaches the caller. -/
theorem postCharge_writes_one_row (cfg : Settings) (env : Env) (ctx : Context)
    (relayInfo : RelayInfo) (usage : Usage) (realtime : RealtimeUsage) (modelName : String)
    (extraContent : String) :
    (∃ row, logRows (service.PostClaudeConsumeQuota cfg env ctx relayInfo usage) = [row] ∧
      ∀ e, row.Quota - relayInfo.FinalPreConsumedQuota ≠ 0 →
        (service.PostConsumeQuota cfg env relayInfo
          (row.Quota - relayInfo.FinalPreConsumedQuota) relayInfo.FinalPreConsumedQuota
          true).2 = some e →
        Event.LogError ("error consuming token remain quota: " ++ e)
          ∈ service.PostClaudeConsumeQuota cfg env ctx relayInfo usage) ∧
    (∃ row,
      logRows (service.PostAudioConsumeQuota cfg env ctx relayInfo usage extraContent) = [row] ∧
      ∀ e, row.Quota - relayInfo.FinalPreConsumedQuota ≠ 0 →
        (service.PostConsumeQuota cfg env relayInfo
          (row.Quota - relayInfo.FinalPreConsumedQuota) relayInfo.FinalPreConsumedQuota
          true).2 = some e →
        Event.LogError ("error consuming token remain quota: " ++ e)
          ∈ service.PostAudioConsumeQuota cfg env ctx relayInfo usage extraContent) ∧
    (∃ row, logRows (service.PostWssConsumeQuota cfg env ctx relayInfo modelName realtime
      extraContent) = [row]) := by
  refine ⟨?_, ?_, (PostWssConsumeQuota_trace cfg env ctx relayInfo modelName realtime
    extraContent).1⟩
  · obtain ⟨counters, row, htr, -, -, -, c3, -, -⟩ :=
      PostClaudeConsumeQuota_trace cfg env ctx relayInfo usage
    rw [htr]
    refine ⟨row, postCharge_shape_logRows cfg env relayInfo counters row c3, fun e hz he => ?_⟩
    have hmem := reconcile_logs_error cfg env relayInfo _ e hz he
    simp only [List.mem_append]
    exact Or.inl (Or.inr hmem)
  · obtain ⟨counters, row, htr, -, -, -, c3, -, -⟩ :=
      PostAudioConsumeQuota_trace cfg env ctx relayInfo usage extraContent
    rw [htr]
    refine ⟨row, postCharge_shape_logRows cfg env relayInfo counters row c3, fun e hz he => ?_⟩
    have hmem := reconcile_logs_error cfg env relayInfo _ e hz he
    simp only [List.mem_append]
    exact Or.inl (Or.inr hmem)

/-- Witness of C6: the refund of a zero-token request through a token ledger that
refuses every mutation is logged as an error and the log row is still written. -/
theorem postCharge_writes_one_row_witness :
    (logRows (service.PostClaudeConsumeQuota sampleSettings failingTokenEnv sampleCtx
      sampleInfo zeroUsage)).length = 1 ∧
    Event.LogError ("error consuming token remain quota: " ++ "database is locked")
      ∈ service.PostClaudeConsumeQuota sampleSettings failingTokenEnv sampleCtx sampleInfo
          zeroUsage := by
  obtain ⟨⟨row, hrow, herr⟩, -, -⟩ := postCharge_writes_one_row sampleSettings failingTokenEnv
    sampleCtx sampleInfo zeroUsage zeroRealtimeUsage "" ""
  have hq : row.Quota = 0 := by
    have hrows : (logRows (service.PostClaudeConsumeQuota sampleSettings failingTokenEnv
        sampleCtx sampleInfo zeroUsage)).map (fun r => r.Quota) = [0] := by decide
    rw [hrow] at hrows
    simpa using hrows
  refine ⟨by rw [hrow]; rfl, herr "database is locked" ?_ ?_⟩
  · rw [hq]; decide
  · rw [hq]; decide

/-! ## The pre-charge of the token -/

/-- C7: `PreConsumeTokenQuota(info, quota)` returns an error and makes no call that
mutates a token quota when `quota < 0`, when the token lookup fails, or when the
request is not playground, the token is not flagged unlimited and the token's
remaining quota is less than `quota`; for a playground request with `quota ≥ 0` it
returns success with no call at all; for a non-playground limited token with
`remaining ≥ quota ≥ 0` its only ledger call is the decrease of the token's remaining
quota by `quota`, whose result it returns, so the token is debited exactly `quota`
when that call succeeds. -/
theorem PreConsumeTokenQuota_cases (env : Env) (relayInfo : RelayInfo) (quota : Int) :
    (quota < 0 →
      (service.PreConsumeTokenQuota env relayInfo quota).2 ≠ none ∧
      service.PreConsumeTokenQuota env relayInfo quota = ([], some "quota 不能为负数！")) ∧
    (0 ≤ quota → relayInfo.IsPlayground = false → relayInfo.TokenUnlimited = false →
      ∀ token, env.GetTokenByKey relayInfo.TokenKey false = .ok token →
        token.RemainQuota < quota →
        (service.PreConsumeTokenQuota env relayInfo quota).2 ≠ none ∧
        tokenQuotaCalls (service.PreConsumeTokenQuota env relayInfo quota).1 = []) ∧
    (0 ≤ quota → relayInfo.IsPlayground = false →
      ∀ e, env.GetTokenByKey relayInfo.TokenKey false = .error e →
        service.PreConsumeTokenQuota env relayInfo quota
          = ([Event.GetTokenByKey relayInfo.TokenKey false], some e)) ∧
    (0 ≤ quota → relayInfo.IsPlayground = true →
      service.PreConsumeTokenQuota env relayInfo quota = ([], none)) ∧
    (0 ≤ quota → relayInfo.IsPlayground = false → relayInfo.TokenUnlimited = false →
      ∀ token, env.GetTokenByKey relayInfo.TokenKey false = .ok token →
        quota ≤ token.RemainQuota →
        service.PreConsumeTokenQuota env relayInfo quota
          = ([Event.GetTokenByKey relayInfo.TokenKey false,
              Event.DecreaseTokenQuota relayInfo.TokenId relayInfo.TokenKey quota
                (env.DecreaseTokenQuota relayInfo.TokenId relayInfo.TokenKey quota)],
             env.DecreaseTokenQuota relayInfo.TokenId relayInfo.TokenKey quota) ∧
        (env.DecreaseTokenQuota relayInfo.TokenId relayInfo.TokenKey quota = none →
          tokenQuotaDebit relayInfo.TokenId
            (service.PreConsumeTokenQuota env relayInfo quota).1 = quota)) := by
  refine ⟨fun hq => ?_, fun hq hp hu token ht hr => ?_, fun hq hp e ht => ?_, fun hq hp => ?_,
    fun hq hp hu token ht hr => ?_⟩
  · simp [service.PreConsumeTokenQuota, hq]
  · have hq' : ¬ quota < 0 := by omega
    simp [service.PreConsumeTokenQuota, hq', hp, hu, ht, hr, tokenQuotaCalls,
      Event.isTokenQuotaCall]
  · have hq' : ¬ quota < 0 := by omega
    simp [service.PreConsumeTokenQuota, hq', hp, ht]
  · have hq' : ¬ quota < 0 := by omega
    simp [service.PreConsumeTokenQuota, hq', hp]
  · have hq' : ¬ quota < 0 := by omega
    have hr' : ¬ token.RemainQuota < quota := by omega
    have heq : service.PreConsumeTokenQuota env relayInfo quota
        = ([Event.GetTokenByKey relayInfo.TokenKey false,
            Event.DecreaseTokenQuota relayInfo.TokenId relayInfo.TokenKey quota
              (env.DecreaseTokenQuota relayInfo.TokenId relayInfo.TokenKey quota)],
           env.DecreaseTokenQuota relayInfo.TokenId relayInfo.TokenKey quota) := by
      simp [service.PreConsumeTokenQuota, hq', hp, hu, ht, hr']
    refine ⟨heq, fun hok => ?_⟩
    rw [heq]
    simp [tokenQuotaDebit, hok, Event.tokenDebit]

/-- Witness of C7: the token with key `"k"` has 1000 units left; a pre-charge of 250
debits it by 250, a pre-charge of 2000 is refused, and the playground is not charged. -/
theorem PreConsumeTokenQuota_cases_witness :
    tokenQuotaDebit 3 (service.PreConsumeTokenQuota sampleEnv sampleInfo 250).1 = 250 ∧
    ((service.PreConsumeTokenQuota sampleEnv sampleInfo 2000).2 ≠ none ∧
      tokenQuotaCalls (service.PreConsumeTokenQuota sampleEnv sampleInfo 2000).1 = []) ∧
    service.PreConsumeTokenQuota sampleEnv playgroundInfo 250 = ([], none) ∧
    (service.PreConsumeTokenQuota sampleEnv sampleInfo (-1)).2 ≠ none := by
  have a := (PreConsumeTokenQuota_cases sampleEnv sampleInfo 250).2.2.2.2 (by decide) rfl rfl
    { RemainQuota := 1000, UnlimitedQuota := false } rfl (by decide)
  have b := (PreConsumeTokenQuota_cases sampleEnv sampleInfo 2000).2.1 (by decide) rfl rfl
    { RemainQuota := 1000, UnlimitedQuota := false } rfl (by decide)
  have c := (PreConsumeTokenQuota_cases sampleEnv playgroundInfo 250).2.2.2.1 (by decide) rfl
  have d := (PreConsumeTokenQuota_cases sampleEnv sampleInfo (-1)).1 (by decide)
  exact ⟨a.2 rfl, b, c, d.1⟩

/-! ## `ModelPriceHelper` -/

/-- C8: `ModelPriceHelper` returns an error if and only if the requested model
(`OriginModelName`) has no configured price and the user's `AcceptUnsetRatioModel` is
false; when the price is absent and the setting is true it succeeds with
`ModelPrice = 0`. -/
theorem ModelPriceHelper_error_iff (cfg : Settings) (env : Env) (c : Context)
    (info : RelayInfo) (promptTokens : Int) (meta : TokenCountMeta) :
    ((∃ e, (helper.ModelPriceHelper cfg env c info promptTokens meta).result = .error e) ↔
      ((env.GetModelPricePer1M info.OriginModelName).2 = false ∧
        info.UserSetting.AcceptUnsetRatioModel = false)) ∧
    ((env.GetModelPricePer1M info.OriginModelName).2 = false →
      info.UserSetting.AcceptUnsetRatioModel = true →
      ∃ priceData, (helper.ModelPriceHelper cfg env c info promptTokens meta).result
        = .ok priceData ∧ priceData.ModelPrice = 0) := by
  unfold helper.ModelPriceHelper helper.HandleGroupRatio
  cases hg : c.auto_group <;>
    cases hl : (env.GetModelPricePer1M info.OriginModelName).2 <;>
    cases ha : info.UserSetting.AcceptUnsetRatioModel <;>
    simp [hl, ha]

/-- Witness of C8: the unpriced model of a user who accepts unpriced models is free. -/
theorem ModelPriceHelper_error_iff_witness :
    ∃ priceData,
      (helper.ModelPriceHelper sampleSettings sampleEnv sampleCtx unpricedInfo 100 ⟨50⟩).result
        = .ok priceData ∧ priceData.ModelPrice = 0 :=
  (ModelPriceHelper_error_iff sampleSettings sampleEnv sampleCtx unpricedInfo 100 ⟨50⟩).2
    rfl rfl

/-- The quota formula charges nothing at price 0. -/
theorem helper_calcQuotaFromTokens_zero_price (cfg : Settings) (tokens : Int) :
    helper.calcQuotaFromTokens cfg tokens 0 = 0 := by
  simp [helper.calcQuotaFromTokens]

/-- C9: on success `ModelPriceHelper` returns
`QuotaToPreConsume = calcQuotaFromTokens(max(promptTokens, PreConsumedQuota) + maxTokens,
price)`, where `price` is the returned model price (the configured price, or 0 for an
accepted unpriced model) and an unset `maxTokens` is 0, for every `promptTokens`,
`maxTokens` and price. -/
theorem ModelPriceHelper_preConsume (cfg : Settings) (env : Env) (c : Context)
    (info : RelayInfo) (promptTokens : Int) (meta : TokenCountMeta) (priceData : PriceData)
    (h : (helper.ModelPriceHelper cfg env c info promptTokens meta).result = .ok priceData) :
    priceData.ModelPrice
      = (if (env.GetModelPricePer1M info.OriginModelName).2 = true
          then (env.GetModelPricePer1M info.OriginModelName).1 else 0) ∧
    priceData.QuotaToPreConsume
      = helper.calcQuotaFromTokens cfg (max promptTokens cfg.PreConsumedQuota + meta.MaxTokens)
          priceData.ModelPrice := by
  have hm : (if meta.MaxTokens ≠ 0 then max promptTokens cfg.PreConsumedQuota + meta.MaxTokens
      else max promptTokens cfg.PreConsumedQuota)
      = max promptTokens cfg.PreConsumedQuota + meta.MaxTokens := by
    split_ifs with hz
    · rfl
    · have : meta.MaxTokens = 0 := by simpa using hz
      rw [this]; ring
  unfold helper.ModelPriceHelper helper.HandleGroupRatio at h
  simp only [hm] at h
  cases hg : c.auto_group <;>
    cases hl : (env.GetModelPricePer1M info.OriginModelName).2 <;>
    cases ha : info.UserSetting.AcceptUnsetRatioModel <;>
    cases he : cfg.EnableFreeModelPreConsume <;>
    simp [hg, hl, ha, he] at h <;>
    subst h <;>
    simp [helper_calcQuotaFromTokens_zero_price] <;>
    intro hz <;>
    simp [hz, helper_calcQuotaFromTokens_zero_price]

/-- Witness of C9: 100 prompt tokens and `max_tokens = 50` on a model priced at 1 are
pre-charged for `max 100 500 + 50` tokens. -/
theorem ModelPriceHelper_preConsume_witness :
    ∃ priceData,
      (helper.ModelPriceHelper sampleSettings sampleEnv sampleCtx sampleInfo 100 ⟨50⟩).result
        = .ok priceData ∧
      priceData.QuotaToPreConsume
        = helper.calcQuotaFromTokens sampleSettings (max 100 500 + 50) priceData.ModelPrice := by
  cases hr : (helper.ModelPriceHelper sampleSettings sampleEnv sampleCtx sampleInfo 100
      ⟨50⟩).result with
  | error e =>
    simp [helper.ModelPriceHelper, helper.HandleGroupRatio, sampleEnv, sampleInfo,
      sampleCtx] at hr
  | ok priceData =>
    exact ⟨priceData, rfl, (ModelPriceHelper_preConsume sampleSettings sampleEnv sampleCtx
      sampleInfo 100 ⟨50⟩ priceData hr).2⟩

/-! ## `UpdateChannelMapping` -/

theorem lookup_isSome_iff (key : String) (mapping : List (String × String)) :
    (mapping.lookup key).isSome = true ↔ key ∈ mapping.map Prod.fst := by
  induction mapping with
  | nil => simp
  | cons entry rest ih =>
    obtain ⟨k, v⟩ := entry
    by_cases hk : key = k
    · subst hk
      simp [List.lookup]
    · have hb : (key == k) = false := by simpa using hk
      simp [List.lookup, hb, ih, hk]

theorem retainedEntries_cons_dropped (pair : controller.MappingPair)
    (rest : List controller.MappingPair)
    (h : TrimSpace pair.Model = "" ∨ TrimSpace pair.UpstreamModel = "") :
    controller.retainedEntries (pair :: rest) = controller.retainedEntries rest := by
  have hd : ¬ (TrimSpace pair.Model ≠ "" ∧ TrimSpace pair.UpstreamModel ≠ "") := by
    rintro ⟨h1, h2⟩
    rcases h with h | h
    · exact h1 h
    · exact h2 h
  simp [controller.retainedEntries, List.filter_cons, hd]

theorem retainedEntries_cons_kept (pair : controller.MappingPair)
    (rest : List controller.MappingPair)
    (h : ¬ (TrimSpace pair.Model = "" ∨ TrimSpace pair.UpstreamModel = "")) :
    controller.retainedEntries (pair :: rest)
      = (TrimSpace pair.Model, TrimSpace pair.UpstreamModel)
          :: controller.retainedEntries rest := by
  have hk : TrimSpace pair.Model ≠ "" ∧ TrimSpace pair.UpstreamModel ≠ "" := by
    constructor
    · exact fun h1 => h (Or.inl h1)
    · exact fun h2 => h (Or.inr h2)
  simp [controller.retainedEntries, List.filter_cons, hk]

/-- The loop of `UpdateChannelMapping`, started on a map with distinct keys, fails
exactly when the keys of the map followed by the trimmed source names of the retained
pairs contain a repetition; otherwise it returns the map extended by the retained
entries. -/
theorem buildMapping_eq (pairs : List controller.MappingPair) :
    ∀ mapping : List (String × String), (mapping.map Prod.fst).Nodup →
      controller.buildMapping pairs mapping
        = if (mapping.map Prod.fst ++ (controller.retainedEntries pairs).map Prod.fst).Nodup
          then .ok (mapping ++ controller.retainedEntries pairs)
          else .error "duplicate model mapping" := by
  induction pairs with
  | nil =>
    intro mapping hnd
    simp [controller.buildMapping, controller.retainedEntries, hnd]
  | cons pair rest ih =>
    intro mapping hnd
    by_cases hdrop : TrimSpace pair.Model = "" ∨ TrimSpace pair.UpstreamModel = ""
    · rw [retainedEntries_cons_dropped pair rest hdrop]
      simp only [controller.buildMapping, if_pos hdrop]
      exact ih mapping hnd
    · rw [retainedEntries_cons_kept pair rest hdrop]
      simp only [controller.buildMapping, if_neg hdrop]
      by_cases hmem : TrimSpace pair.Model ∈ mapping.map Prod.fst
      · have hl := (lookup_isSome_iff (TrimSpace pair.Model) mapping).mpr hmem
        have hnot : ¬ (mapping.map Prod.fst
            ++ ((TrimSpace pair.Model, TrimSpace pair.UpstreamModel)
              :: controller.retainedEntries rest).map Prod.fst).Nodup := by
          intro hn
          rw [List.nodup_append] at hn
          exact hn.2.2 hmem (by simp)
        rw [if_pos hl, if_neg hnot]
      · have hl : ¬ (mapping.lookup (TrimSpace pair.Model)).isSome = true := fun hh =>
          hmem ((lookup_isSome_iff (TrimSpace pair.Model) mapping).mp hh)
        have hnd' : ((mapping ++ [(TrimSpace pair.Model, TrimSpace pair.UpstreamModel)]).map
            Prod.fst).Nodup := by
          rw [List.map_append, List.nodup_append]
          refine ⟨hnd, by simp, ?_⟩
          intro a ha hb
          simp at hb
          subst hb
          exact hmem ha
        rw [if_neg hl, ih _ hnd']
        simp [List.map_append, List.append_assoc]

/-- C10, refuted as stated: the payload `[("a", ""), ("a", "b")]` for channel 1 has two
pairs with the source model `a`, yet it is accepted and the remap `a → b` is written
over the stored one. -/
theorem UpdateChannelMapping_accepts_dropped_duplicate :
    droppedDuplicatePayload.Mappings.map (fun pair => pair.Model) = ["a", "a"] ∧
    (controller.UpdateChannelMapping sampleMarshal sampleStore
      (.ok droppedDuplicatePayload)).response = controller.Response.Success ∧
    (controller.UpdateChannelMapping sampleMarshal sampleStore
      (.ok droppedDuplicatePayload)).writes = [(1, some "a:b")] ∧
    (controller.UpdateChannelMapping sampleMarshal sampleStore
      (.ok droppedDuplicatePayload)).db ≠ sampleStore := by
  decide

/-- C10, amended: for a non-zero `channel_id`, `UpdateChannelMapping` answers
`duplicate model mapping` whenever two pairs of the payload whose model and upstream
names are both non-empty after trimming have the same trimmed model name; `channel_id = 0`
is answered `invalid channel_id`; and on either rejection no `UpdateChannelModelMapping`
call is made and the stored state is unchanged. -/
theorem UpdateChannelMapping_rejects_duplicates
    (marshal : List (String × String) → String) (db : model.Store)
    (req : controller.UpdateChannelMappingRequest) :
    (req.ChannelId ≠ 0 → ¬ ((controller.retainedEntries req.Mappings).map Prod.fst).Nodup →
      (controller.UpdateChannelMapping marshal db (.ok req)).response
        = controller.Response.ApiError "duplicate model mapping") ∧
    (req.ChannelId = 0 →
      (controller.UpdateChannelMapping marshal db (.ok req)).response
        = controller.Response.ApiError "invalid channel_id") ∧
    (¬ ((controller.retainedEntries req.Mappings).map Prod.fst).Nodup ∨ req.ChannelId = 0 →
      (controller.UpdateChannelMapping marshal db (.ok req)).writes = [] ∧
      (controller.UpdateChannelMapping marshal db (.ok req)).db = db) := by
  have hb := buildMapping_eq req.Mappings [] (by simp)
  simp only [List.map_nil, List.nil_append] at hb
  refine ⟨fun hc hdup => ?_, fun hc => ?_, fun h => ?_⟩
  · simp [controller.UpdateChannelMapping, hc, hb, hdup]
  · simp [controller.UpdateChannelMapping, hc]
  · rcases h with hdup | hc
    · by_cases hc : req.ChannelId = 0
      · simp [controller.UpdateChannelMapping, hc]
      · simp [controller.UpdateChannelMapping, hc, hb, hdup]
    · simp [controller.UpdateChannelMapping, hc]

/-- Witness of the amended C10: two complete pairs whose source models are `a` after
trimming are rejected and nothing is written. -/
theorem UpdateChannelMapping_rejects_duplicates_witness :
    (controller.UpdateChannelMapping sampleMarshal sampleStore (.ok duplicatePayload)).response
      = controller.Response.ApiError "duplicate model mapping" ∧
    (controller.UpdateChannelMapping sampleMarshal sampleStore (.ok duplicatePayload)).writes
      = [] ∧
    (controller.UpdateChannelMapping sampleMarshal sampleStore (.ok duplicatePayload)).db
      = sampleStore := by
  have h := UpdateChannelMapping_rejects_duplicates sampleMarshal sampleStore duplicatePayload
  exact ⟨h.1 (by decide) (by decide), h.2.2 (Or.inl (by decide))⟩

/-! ## The notification of a low quota -/

theorem notifications_nil : notifications [] = [] := rfl

theorem notifications_cons (e : Event) (es : List Event) :
    notifications (e :: es)
      = if e.isNotify = true then e :: notifications es else notifications es := by
  simp only [notifications, List.filter_cons]

theorem notifications_append (a b : List Event) :
    notifications (a ++ b) = notifications a ++ notifications b := by
  simp [notifications, List.filter_append]

/-- The worker dispatches one notification when the quota left after the charge is
below the threshold, and none otherwise. -/
theorem checkAndSendQuotaNotify_notifications (cfg : Settings) (env : Env)
    (relayInfo : RelayInfo) (quota pre : Int) :
    (notifications (service.checkAndSendQuotaNotify cfg env relayInfo quota pre)).length
      = if relayInfo.UserQuota - (quota + pre) < notifyThreshold cfg relayInfo then 1 else 0 := by
  unfold service.checkAndSendQuotaNotify notifyThreshold
  simp only
  by_cases hlow : relayInfo.UserQuota - (quota + pre)
      < (if relayInfo.UserSetting.QuotaWarningThreshold ≠ 0
          then intOfFloat relayInfo.UserSetting.QuotaWarningThreshold
          else cfg.QuotaRemindThreshold)
  · simp only [hlow, decide_True, if_true]
    split <;> simp [notifications_cons, notifications_nil, Event.isNotify]
  · simp only [hlow, decide_False, Bool.false_eq_true, if_false, notifications_nil,
      List.length_nil]

/-- The notifications of `PostConsumeQuota` when the ledger accepts every call: those
of the worker when `sendEmail` is set and `quota + preConsumedQuota` is not 0, none
otherwise. -/
theorem PostConsumeQuota_notifications (cfg : Settings) (env : Env) (relayInfo : RelayInfo)
    (quota pre : Int) (sendEmail : Bool) (h : env.ledgerOk) :
    notifications (service.PostConsumeQuota cfg env relayInfo quota pre sendEmail).1
      = if sendEmail = true ∧ quota + pre ≠ 0
        then notifications (service.checkAndSendQuotaNotify cfg env relayInfo quota pre)
        else [] := by
  obtain ⟨h1, h2, h3, h4⟩ := h
  unfold service.PostConsumeQuota
  simp only [h1, h2, h3, h4]
  by_cases hq : quota > 0 <;> cases hp : relayInfo.IsPlayground <;> cases sendEmail <;>
    by_cases hz : quota + pre = 0 <;>
    simp [hq, hz, notifications_append, notifications_cons, notifications_nil, Event.isNotify]

/-- Without `sendEmail`, `PostConsumeQuota` dispatches no notification, whatever the
ledger answers. -/
theorem PostConsumeQuota_silent (cfg : Settings) (env : Env) (relayInfo : RelayInfo)
    (quota pre : Int) :
    notifications (service.PostConsumeQuota cfg env relayInfo quota pre false).1 = [] := by
  unfold service.PostConsumeQuota
  cases hd : env.DecreaseUserQuota relayInfo.UserId quota <;>
    cases hi : env.IncreaseUserQuota relayInfo.UserId (-quota) false <;>
    cases hdt : env.DecreaseTokenQuota relayInfo.TokenId relayInfo.TokenKey quota <;>
    cases hit : env.IncreaseTokenQuota relayInfo.TokenId relayInfo.TokenKey (-quota) <;>
    by_cases hq : quota > 0 <;> cases hp : relayInfo.IsPlayground <;>
    simp [hq, notifications_append, notifications_cons, notifications_nil, Event.isNotify]

/-- C18, refuted as stated: (1) a refund of 250 after a pre-charge of 250 to a user with
100 units left, below the threshold 1000, dispatches no notification, because
`delta + pre_consumed = 0`; (2) a charge through a token ledger that refuses the
mutation dispatches none either; (3) with the warning threshold 1/2 and exactly 0 units
left after the charge, `0 < 1/2` holds and no notification is dispatched, the threshold
being compared as the integer 0. -/
theorem PostConsumeQuota_notify_guarded :
    (lowQuotaInfo.UserQuota - (-250 + 250) < notifyThreshold sampleSettings lowQuotaInfo ∧
      notifications (service.PostConsumeQuota sampleSettings sampleEnv lowQuotaInfo (-250) 250
        true).1 = []) ∧
    (lowQuotaInfo.UserQuota - (40 + 250) < notifyThreshold sampleSettings lowQuotaInfo ∧
      notifications (service.PostConsumeQuota sampleSettings failingTokenEnv lowQuotaInfo 40 250
        true).1 = []) ∧
    (((halfThresholdInfo.UserQuota - (40 + 250) : Int) : ℚ)
        < halfThresholdInfo.UserSetting.QuotaWarningThreshold ∧
      halfThresholdInfo.UserSetting.QuotaWarningThreshold ≠ 0 ∧
      notifications (service.PostConsumeQuota sampleSettings sampleEnv halfThresholdInfo 40 250
        true).1 = []) := by
  refine ⟨⟨?_, ?_⟩, ⟨?_, ?_⟩, ⟨?_, ?_, ?_⟩⟩
  · norm_num [notifyThreshold, lowQuotaInfo, sampleInfo, sampleSettings]
  · decide
  · norm_num [notifyThreshold, lowQuotaInfo, sampleInfo, sampleSettings]
  · decide
  · norm_num [halfThresholdInfo, sampleInfo]
  · norm_num [halfThresholdInfo, sampleInfo]
  · have hok : sampleEnv.ledgerOk :=
      ⟨fun _ _ => rfl, fun _ _ _ => rfl, fun _ _ _ => rfl, fun _ _ _ => rfl⟩
    have hlen := checkAndSendQuotaNotify_notifications sampleSettings sampleEnv
      halfThresholdInfo 40 250
    have hth : ¬ halfThresholdInfo.UserQuota - (40 + 250)
        < notifyThreshold sampleSettings halfThresholdInfo := by
      norm_num [notifyThreshold, halfThresholdInfo, sampleInfo, intOfFloat]
    rw [if_neg hth] at hlen
    rw [PostConsumeQuota_notifications _ _ _ _ _ _ hok]
    simp only [List.length_eq_zero] at hlen
    simp [hlen]

/-- C18, amended: when the ledger calls succeed, `PostConsumeQuota` with `notify = true`
dispatches a quota notification if and only if `delta + pre_consumed ≠ 0` and
`user_quota - (delta + pre_consumed) < threshold`, where `threshold` is the user's
warning threshold converted to an integer when it is non-zero and the global
`QuotaRemindThreshold` otherwise, and it dispatches at most one; with `notify = false`
it never dispatches one. -/
theorem PostConsumeQuota_notifies_iff (cfg : Settings) (env : Env) (relayInfo : RelayInfo)
    (delta pre : Int) (h : env.ledgerOk) :
    (notifications (service.PostConsumeQuota cfg env relayInfo delta pre true).1 ≠ [] ↔
      (delta + pre ≠ 0 ∧
        relayInfo.UserQuota - (delta + pre) < notifyThreshold cfg relayInfo)) ∧
    (notifications (service.PostConsumeQuota cfg env relayInfo delta pre true).1).length ≤ 1 ∧
    notifications (service.PostConsumeQuota cfg env relayInfo delta pre false).1 = [] := by
  have hlen := checkAndSendQuotaNotify_notifications cfg env relayInfo delta pre
  rw [PostConsumeQuota_notifications cfg env relayInfo delta pre true h]
  refine ⟨?_, ?_, PostConsumeQuota_silent cfg env relayInfo delta pre⟩
  · by_cases hz : delta + pre = 0
    · simp [hz]
    · by_cases hlow : relayInfo.UserQuota - (delta + pre) < notifyThreshold cfg relayInfo
      · rw [if_pos hlow] at hlen
        have hne : notifications (service.checkAndSendQuotaNotify cfg env relayInfo delta pre)
            ≠ [] := by
          intro hnil
          rw [hnil] at hlen
          simp at hlen
        simp [hz, hlow, hne]
      · rw [if_neg hlow] at hlen
        have hnil := List.length_eq_zero.mp hlen
        simp [hz, hlow, hnil]
  · split_ifs
    · rw [hlen]
      split_ifs <;> simp
    · simp

/-- Witness of the amended C18: a charge of 40 after a pre-charge of 250 leaves the
user with 100 units below the threshold 1000, and one notification is dispatched. -/
theorem PostConsumeQuota_notifies_iff_witness :
    notifications (service.PostConsumeQuota sampleSettings sampleEnv lowQuotaInfo 40 250 true).1
      ≠ [] :=
  (PostConsumeQuota_notifies_iff sampleSettings sampleEnv lowQuotaInfo 40 250
    ⟨fun _ _ => rfl, fun _ _ _ => rfl, fun _ _ _ => rfl, fun _ _ _ => rfl⟩).1.mpr
    ⟨by decide, by norm_num [notifyThreshold, lowQuotaInfo, sampleInfo, sampleSettings]⟩

/-! ## The pre-charge of an unlimited token -/

/-- C17, refuted as stated: for the unlimited token with key `"k"` (no remaining quota)
a pre-charge of 250 succeeds and calls the decrease of the token's remaining quota by
250. -/
theorem PreConsumeTokenQuota_unlimited_decreases :
    unlimitedInfo.TokenUnlimited = true ∧
    unlimitedEnv.GetTokenByKey "k" false = .ok { RemainQuota := 0, UnlimitedQuota := true } ∧
    service.PreConsumeTokenQuota unlimitedEnv unlimitedInfo 250
      = ([Event.GetTokenByKey "k" false, Event.DecreaseTokenQuota 3 "k" 250 none], none) ∧
    tokenQuotaCalls (service.PreConsumeTokenQuota unlimitedEnv unlimitedInfo 250).1
      = [Event.DecreaseTokenQuota 3 "k" 250 none] :=
  ⟨rfl, rfl, by decide, by decide⟩

/-- C17, amended: for a request whose token is flagged unlimited
(`relayInfo.TokenUnlimited`), `PreConsumeTokenQuota` never fails for insufficient
remaining quota: for a non-playground request with `quota ≥ 0` whose token lookup
succeeds, whatever the token's remaining quota, it calls the decrease of the token's
remaining quota by `quota` and returns the result of that call. -/
theorem PreConsumeTokenQuota_unlimited (env : Env) (relayInfo : RelayInfo) (quota : Int)
    (token : Token) (hu : relayInfo.TokenUnlimited = true) (hq : 0 ≤ quota)
    (hp : relayInfo.IsPlayground = false)
    (ht : env.GetTokenByKey relayInfo.TokenKey false = .ok token) :
    service.PreConsumeTokenQuota env relayInfo quota
      = ([Event.GetTokenByKey relayInfo.TokenKey false,
          Event.DecreaseTokenQuota relayInfo.TokenId relayInfo.TokenKey quota
            (env.DecreaseTokenQuota relayInfo.TokenId relayInfo.TokenKey quota)],
         env.DecreaseTokenQuota relayInfo.TokenId relayInfo.TokenKey quota) := by
  have hq' : ¬ quota < 0 := by omega
  simp [service.PreConsumeTokenQuota, hq', hp, hu, ht]

/-- Witness of the amended C17: the unlimited token without remaining quota is
pre-charged 250. -/
theorem PreConsumeTokenQuota_unlimited_witness :
    service.PreConsumeTokenQuota unlimitedEnv unlimitedInfo 250
      = ([Event.GetTokenByKey unlimitedInfo.TokenKey false,
          Event.DecreaseTokenQuota unlimitedInfo.TokenId unlimitedInfo.TokenKey 250
            (unlimitedEnv.DecreaseTokenQuota unlimitedInfo.TokenId unlimitedInfo.TokenKey 250)],
         unlimitedEnv.DecreaseTokenQuota unlimitedInfo.TokenId unlimitedInfo.TokenKey 250) :=
  PreConsumeTokenQuota_unlimited unlimitedEnv unlimitedInfo 250
    { RemainQuota := 0, UnlimitedQuota := true } rfl (by decide) rfl rfl

/-! ## The realtime post-charge -/

/-- C20, the code at the failing input: `PostWssConsumeQuota` for a usage without tokens
after a pre-charge of 250 writes its log row with quota 0 and makes no call that
mutates the user quota or the token quota: nothing of the 250 is credited. -/
theorem PostWssConsumeQuota_no_refund :
    sampleInfo.FinalPreConsumedQuota = 250 ∧
    (logRows (service.PostWssConsumeQuota sampleSettings sampleEnv sampleCtx sampleInfo "gpt-x"
      zeroRealtimeUsage "")).map (fun row => row.Quota) = [0] ∧
    userQuotaCalls (service.PostWssConsumeQuota sampleSettings sampleEnv sampleCtx sampleInfo
      "gpt-x" zeroRealtimeUsage "") = [] ∧
    tokenQuotaCalls (service.PostWssConsumeQuota sampleSettings sampleEnv sampleCtx sampleInfo
      "gpt-x" zeroRealtimeUsage "") = [] ∧
    userQuotaDebit 7 (service.PostWssConsumeQuota sampleSettings sampleEnv sampleCtx sampleInfo
      "gpt-x" zeroRealtimeUsage "") = 0 ∧
    tokenQuotaDebit 3 (service.PostWssConsumeQuota sampleSettings sampleEnv sampleCtx sampleInfo
      "gpt-x" zeroRealtimeUsage "") = 0 := by
  decide

/-! ## The content of the log row -/

/-- The content of the row `PostClaudeConsumeQuota` writes. -/
theorem PostClaudeConsumeQuota_content (cfg : Settings) (env : Env) (ctx : Context)
    (relayInfo : RelayInfo) (usage : Usage) :
    ∃ row, logRows (service.PostClaudeConsumeQuota cfg env ctx relayInfo usage) = [row] ∧
      row.Content = (if claudeTotalTokens usage = 0
        then priceLine env relayInfo ++ errorNote else priceLine env relayInfo) := by
  let T : Int := claudeTotalTokens usage
  let q : Int :=
    if T = 0 then 0 else service.calcQuotaFromTokens cfg T relayInfo.PriceData.ModelPrice
  let row : RecordConsumeLogParams :=
    { ChannelId := relayInfo.ChannelId
      PromptTokens := usage.PromptTokens
      CompletionTokens := usage.CompletionTokens
      ModelName := relayInfo.OriginModelName
      TokenName := ctx.token_name
      Quota := q
      Content := if T = 0 then priceLine env relayInfo ++ errorNote
        else priceLine env relayInfo
      TokenId := relayInfo.TokenId
      UseTimeSeconds := env.now - relayInfo.StartTime
      IsStream := relayInfo.IsStream
      Group := relayInfo.UsingGroup
      Other := env.GenerateClaudeOtherInfo relayInfo }
  have hc := (counters_inert relayInfo relayInfo.OriginModelName T q 0 0).2.2.1
  exact ⟨row, postCharge_shape_logRows cfg env relayInfo _ row hc, rfl⟩

/-- The content of the row `PostAudioConsumeQuota` writes. -/
theorem PostAudioConsumeQuota_content (cfg : Settings) (env : Env) (ctx : Context)
    (relayInfo : RelayInfo) (usage : Usage) (extraContent : String) :
    ∃ row,
      logRows (service.PostAudioConsumeQuota cfg env ctx relayInfo usage extraContent) = [row] ∧
      row.Content = (if audioTotalTokens usage = 0
        then priceLine env relayInfo ++ timeoutNote ++ extraSuffix extraContent
        else priceLine env relayInfo ++ extraSuffix extraContent) := by
  let T : Int := audioTotalTokens usage
  let q : Int :=
    if T = 0 then 0 else service.calcQuotaFromTokens cfg T relayInfo.PriceData.ModelPrice
  let c1 : String :=
    if T = 0 then priceLine env relayInfo ++ timeoutNote else priceLine env relayInfo
  let row : RecordConsumeLogParams :=
    { ChannelId := relayInfo.ChannelId
      PromptTokens := usage.PromptTokens
      CompletionTokens := usage.CompletionTokens
      ModelName := relayInfo.OriginModelName
      TokenName := ctx.token_name
      Quota := q
      Content := if extraContent ≠ "" then c1 ++ ", " ++ extraContent else c1
      TokenId := relayInfo.TokenId
      UseTimeSeconds := env.now - relayInfo.StartTime
      IsStream := relayInfo.IsStream
      Group := relayInfo.UsingGroup
      Other := env.GenerateAudioOtherInfo relayInfo usage }
  have hc := (counters_inert relayInfo relayInfo.OriginModelName T q 0 0).2.2.1
  refine ⟨row, postCharge_shape_logRows cfg env relayInfo _ row hc, ?_⟩
  show (if extraContent ≠ "" then c1 ++ ", " ++ extraContent else c1) = _
  simp only [c1, T, extraSuffix]
  split_ifs <;> simp [String.append_assoc]

/-- The content of the row `PostWssConsumeQuota` writes. -/
theorem PostWssConsumeQuota_content (cfg : Settings) (env : Env) (ctx : Context)
    (relayInfo : RelayInfo) (modelName : String) (usage : RealtimeUsage)
    (extraContent : String) :
    ∃ row,
      logRows (service.PostWssConsumeQuota cfg env ctx relayInfo modelName usage extraContent)
        = [row] ∧
      row.Content = (if wssTotalTokens usage = 0
        then priceLine env relayInfo ++ timeoutNote ++ extraSuffix extraContent
        else priceLine env relayInfo ++ extraSuffix extraContent) := by
  unfold service.PostWssConsumeQuota wssTotalTokens extraSuffix priceLine timeoutNote
  simp only
  split_ifs <;>
    simp [logRows_append, logRows_cons, logRows_nil, service.zeroTokensLog, Event.logRow?,
      String.append_assoc] <;>
    (apply String.ext; simp [String.data_append])

theorem containsText_append_right (a b : String) : containsText (a ++ b) b := by
  show b.data <:+: (a ++ b).data
  rw [String.data_append]
  exact (List.suffix_append a.data b.data).isInfix

theorem containsText_append_mid (a b c : String) : containsText (a ++ b ++ c) b := by
  show b.data <:+: (a ++ b ++ c).data
  rw [String.data_append, String.data_append]
  exact List.infix_append a.data b.data c.data

/-- A text that lacks a character of `t` does not contain `t`. -/
theorem not_containsText_of_char (s t : String) (ch : Char) (ht : ch ∈ t.toList)
    (hs : ch ∉ s.toList) : ¬ containsText s t := by
  intro h
  exact hs (h.subset ht)

theorem priceLine_no_paren (env : Env) (relayInfo : RelayInfo)
    (h : '（' ∉ (env.Sprintf6f relayInfo.PriceData.ModelPrice).toList) :
    '（' ∉ (priceLine env relayInfo).toList := by
  show '（' ∉ ("单价 " ++ env.Sprintf6f relayInfo.PriceData.ModelPrice ++ " / 1M tokens").data
  simp only [String.data_append, List.mem_append, not_or]
  exact ⟨⟨by decide, h⟩, by decide⟩

theorem extraSuffix_no_paren (extraContent : String) (h : '（' ∉ extraContent.toList) :
    '（' ∉ (extraSuffix extraContent).toList := by
  unfold extraSuffix
  split_ifs
  · show '（' ∉ (", " ++ extraContent).data
    simp only [String.data_append, List.mem_append, not_or]
    exact ⟨by decide, h⟩
  · decide

/-- C19, refuted as stated: (1) `PostClaudeConsumeQuota` for a usage without tokens
writes a content without the annotation "（可能是上游超时）" (it carries
"（可能是上游出错）"); (2) `PostAudioConsumeQuota` for a usage of 150 tokens called with
that annotation as extra content writes a content that includes it. -/
theorem postCharge_note_differs :
    (claudeTotalTokens zeroUsage = 0 ∧
      ∃ row, logRows (service.PostClaudeConsumeQuota sampleSettings sampleEnv sampleCtx
          sampleInfo zeroUsage) = [row] ∧
        ¬ containsText row.Content timeoutNote ∧
        containsText row.Content errorNote) ∧
    (audioTotalTokens sampleUsage ≠ 0 ∧
      ∃ row, logRows (service.PostAudioConsumeQuota sampleSettings sampleEnv sampleCtx
          sampleInfo sampleUsage timeoutNote) = [row] ∧
        containsText row.Content timeoutNote) := by
  refine ⟨⟨by decide, ?_⟩, ⟨by decide, ?_⟩⟩
  · obtain ⟨row, hrow, hc⟩ := PostClaudeConsumeQuota_content sampleSettings sampleEnv sampleCtx
      sampleInfo zeroUsage
    refine ⟨row, hrow, ?_, ?_⟩ <;>
      · rw [hc]
        decide
  · obtain ⟨row, hrow, hc⟩ := PostAudioConsumeQuota_content sampleSettings sampleEnv sampleCtx
      sampleInfo sampleUsage timeoutNote
    refine ⟨row, hrow, ?_⟩
    rw [hc]
    decide

/-- C19, amended: when the total token count is zero, the log content of
`PostAudioConsumeQuota` and of `PostWssConsumeQuota` includes "（可能是上游超时）" and
that of `PostClaudeConsumeQuota` includes "（可能是上游出错）"; when the total is not
zero no routine adds an annotation, the content being the price line followed by the
caller's extra content, so that neither annotation occurs in it when the formatted
price and the extra content are free of the character `（`. -/
theorem postCharge_notes (cfg : Settings) (env : Env) (ctx : Context)
    (relayInfo : RelayInfo) (usage : Usage) (realtime : RealtimeUsage) (modelName : String)
    (extraContent : String) :
    (∃ row, logRows (service.PostClaudeConsumeQuota cfg env ctx relayInfo usage) = [row] ∧
      (claudeTotalTokens usage = 0 → containsText row.Content errorNote) ∧
      (claudeTotalTokens usage ≠ 0 →
        row.Content = priceLine env relayInfo ∧
        ('（' ∉ (env.Sprintf6f relayInfo.PriceData.ModelPrice).toList →
          ¬ containsText row.Content timeoutNote ∧
          ¬ containsText row.Content errorNote))) ∧
    (∃ row,
      logRows (service.PostAudioConsumeQuota cfg env ctx relayInfo usage extraContent) = [row] ∧
      (audioTotalTokens usage = 0 → containsText row.Content timeoutNote) ∧
      (audioTotalTokens usage ≠ 0 →
        row.Content = priceLine env relayInfo ++ extraSuffix extraContent ∧
        ('（' ∉ (env.Sprintf6f relayInfo.PriceData.ModelPrice).toList →
          '（' ∉ extraContent.toList →
          ¬ containsText row.Content timeoutNote))) ∧
    (∃ row,
      logRows (service.PostWssConsumeQuota cfg env ctx relayInfo modelName realtime
        extraContent) = [row] ∧
      (wssTotalTokens realtime = 0 → containsText row.Content timeoutNote) ∧
      (wssTotalTokens realtime ≠ 0 →
        row.Content = priceLine env relayInfo ++ extraSuffix extraContent ∧
        ('（' ∉ (env.Sprintf6f relayInfo.PriceData.ModelPrice).toList →
          '（' ∉ extraContent.toList →
          ¬ containsText row.Content timeoutNote))) := by
  have hjoin : ∀ a b : String, '（' ∉ a.toList → '（' ∉ b.toList → '（' ∉ (a ++ b).toList := by
    intro a b ha hb
    show '（' ∉ (a ++ b).data
    rw [String.data_append, List.mem_append, not_or]
    exact ⟨ha, hb⟩
  refine ⟨?_, ?_, ?_⟩
  · obtain ⟨row, hrow, hc⟩ := PostClaudeConsumeQuota_content cfg env ctx relayInfo usage
    refine ⟨row, hrow, fun h0 => ?_, fun hne => ?_⟩
    · rw [hc, if_pos h0]
      exact containsText_append_right _ _
    · rw [hc, if_neg hne]
      refine ⟨rfl, fun hf => ⟨?_, ?_⟩⟩
      · exact not_containsText_of_char _ _ '（' (by decide) (priceLine_no_paren env relayInfo hf)
      · exact not_containsText_of_char _ _ '（' (by decide) (priceLine_no_paren env relayInfo hf)
  · obtain ⟨row, hrow, hc⟩ := PostAudioConsumeQuota_content cfg env ctx relayInfo usage
      extraContent
    refine ⟨row, hrow, fun h0 => ?_, fun hne => ?_⟩
    · rw [hc, if_pos h0]
      exact containsText_append_mid _ _ _
    · rw [hc, if_neg hne]
      refine ⟨rfl, fun hf he => ?_⟩
      exact not_containsText_of_char _ _ '（' (by decide)
        (hjoin _ _ (priceLine_no_paren env relayInfo hf) (extraSuffix_no_paren extraContent he))
  · obtain ⟨row, hrow, hc⟩ := PostWssConsumeQuota_content cfg env ctx relayInfo modelName
      realtime extraContent
    refine ⟨row, hrow, fun h0 => ?_, fun hne => ?_⟩
    · rw [hc, if_pos h0]
      exact containsText_append_mid _ _ _
    · rw [hc, if_neg hne]
      refine ⟨rfl, fun hf he => ?_⟩
      exact not_containsText_of_char _ _ '（' (by decide)
        (hjoin _ _ (priceLine_no_paren env relayInfo hf) (extraSuffix_no_paren extraContent he))

/-- Witness of the amended C19: the realtime routine annotates a usage without tokens,
and leaves a usage of 150 tokens without annotation. -/
theorem postCharge_notes_witness :
    (∃ row, logRows (service.PostWssConsumeQuota sampleSettings sampleEnv sampleCtx sampleInfo
        "gpt-x" zeroRealtimeUsage "") = [row] ∧ containsText row.Content timeoutNote) ∧
    (∃ row, logRows (service.PostWssConsumeQuota sampleSettings sampleEnv sampleCtx sampleInfo
        "gpt-x" sampleRealtimeUsage "") = [row] ∧
      ¬ containsText row.Content timeoutNote) := by
  obtain ⟨row, hrow, h0, -⟩ := (postCharge_notes sampleSettings sampleEnv sampleCtx
    sampleInfo zeroUsage zeroRealtimeUsage "gpt-x" "").2.2
  obtain ⟨row', hrow', -, hne⟩ := (postCharge_notes sampleSettings sampleEnv sampleCtx
    sampleInfo zeroUsage sampleRealtimeUsage "gpt-x" "").2.2
  exact ⟨⟨row, hrow, h0 (by decide)⟩,
    ⟨row', hrow', ((hne (by decide)).2 (by decide) (by decide))⟩⟩

/-! ## The ability index -/

/-- The state after `UpdateAbility` is a fixed point of the same call. -/
theorem UpdateAbility_twice (db : model.Store) (group modelName : String) (channelId : Int)
    (priority : Option Int) (weight : Option Nat) :
    model.UpdateAbility (model.UpdateAbility db group modelName channelId priority weight).1
        group modelName channelId priority weight
      = model.UpdateAbility db group modelName channelId priority weight := by
  unfold model.UpdateAbility
  by_cases hn : priority.isNone = true ∧ weight.isNone = true
  · simp only [hn, and_self, if_true]
  · simp only [hn, if_false]
    cases he : db.Error with
    | some e => simp only [he]
    | none =>
      simp only [he, List.map_map]
      congr 2
      apply List.map_congr_left
      intro a _
      simp only [Function.comp]
      by_cases hk : a.Group = group ∧ a.Model = modelName ∧ a.ChannelId = channelId
      · simp only [hk, and_self, if_true]
        cases priority <;> cases weight <;> rfl
      · simp only [hk, if_false]

/-- C13: `UpdateAbility(group, model, channel_id, priority, weight)` is idempotent on
the stored state, and so is the handler `UpdateMappingAbility` that calls it: for every
state and every argument tuple, applying it twice with the same arguments yields the
same abilities table (and the same answer) as applying it once. -/
theorem UpdateAbility_idempotent (db : model.Store) (group modelName : String)
    (channelId : Int) (priority : Option Int) (weight : Option Nat)
    (body : Except String controller.UpdateAbilityRequest) :
    (model.UpdateAbility (model.UpdateAbility db group modelName channelId priority weight).1
        group modelName channelId priority weight).1.abilities
      = (model.UpdateAbility db group modelName channelId priority weight).1.abilities ∧
    model.UpdateAbility (model.UpdateAbility db group modelName channelId priority weight).1
        group modelName channelId priority weight
      = model.UpdateAbility db group modelName channelId priority weight ∧
    controller.UpdateMappingAbility (controller.UpdateMappingAbility db body).2 body
      = controller.UpdateMappingAbility db body := by
  have h := UpdateAbility_twice db group modelName channelId priority weight
  refine ⟨by rw [h], h, ?_⟩
  unfold controller.UpdateMappingAbility
  cases body with
  | error e => rfl
  | ok req =>
    simp only
    by_cases hv : req.Group = "" ∨ req.Model = "" ∨ req.ChannelId = 0
    · simp only [hv, if_true]
    · simp only [hv, if_false]
      by_cases hn : req.Weight.isNone = true ∧ req.Priority.isNone = true
      · simp only [hn, and_self, if_true]
      · simp only [hn, if_false]
        have h2 := UpdateAbility_twice db req.Group req.Model req.ChannelId req.Priority
          req.Weight
        cases hr : (model.UpdateAbility db req.Group req.Model req.ChannelId req.Priority
            req.Weight).2 with
        | some e =>
          simp only [hr]
          rw [h2]
          simp only [hr]
        | none =>
          simp only [hr]
          rw [h2]
          simp only [hr]

theorem priorityBelow_trichotomy (x y : Option Int) :
    model.priorityBelow x y ∨ x = y ∨ model.priorityBelow y x := by
  cases x with
  | none =>
    cases y with
    | none => exact Or.inr (Or.inl rfl)
    | some b => exact Or.inl trivial
  | some a =>
    cases y with
    | none => exact Or.inr (Or.inr trivial)
    | some b =>
      rcases lt_trichotomy a b with h | h | h
      · exact Or.inl h
      · exact Or.inr (Or.inl (by rw [h]))
      · exact Or.inr (Or.inr h)

theorem priorityBelow_trans (x y z : Option Int) (h1 : model.priorityBelow x y)
    (h2 : model.priorityBelow y z) : model.priorityBelow x z := by
  cases x <;> cases y <;> cases z <;>
    first
      | (simp only [model.priorityBelow] at *; omega)
      | simp only [model.priorityBelow] at *

theorem orderedBefore_total (a b : model.MappingRow) :
    model.orderedBefore a b ∨ model.orderedBefore b a := by
  unfold model.orderedBefore
  rcases lt_trichotomy a.GroupName.toList b.GroupName.toList with hg | hg | hg
  · exact Or.inl (Or.inl hg)
  · have hg' : a.GroupName = b.GroupName := String.ext hg
    rcases lt_trichotomy a.Model.toList b.Model.toList with hm | hm | hm
    · exact Or.inl (Or.inr ⟨hg', Or.inl hm⟩)
    · have hm' : a.Model = b.Model := String.ext hm
      rcases priorityBelow_trichotomy a.Priority b.Priority with hp | hp | hp
      · exact Or.inr (Or.inr ⟨hg'.symm, Or.inr ⟨hm'.symm, Or.inl hp⟩⟩)
      · rcases le_total a.Weight b.Weight with hw | hw
        · exact Or.inr (Or.inr ⟨hg'.symm, Or.inr ⟨hm'.symm, Or.inr ⟨hp.symm, hw⟩⟩⟩)
        · exact Or.inl (Or.inr ⟨hg', Or.inr ⟨hm', Or.inr ⟨hp, hw⟩⟩⟩)
      · exact Or.inl (Or.inr ⟨hg', Or.inr ⟨hm', Or.inl hp⟩⟩)
    · exact Or.inr (Or.inr ⟨hg'.symm, Or.inl hm⟩)
  · exact Or.inr (Or.inl hg)

theorem orderedBefore_trans (a b c : model.MappingRow) (hab : model.orderedBefore a b)
    (hbc : model.orderedBefore b c) : model.orderedBefore a c := by
  unfold model.orderedBefore at *
  rcases hab with h1 | ⟨g1, h2 | ⟨m1, h3 | ⟨p1, w1⟩⟩⟩
  · rcases hbc with k1 | ⟨g2, -⟩
    · exact Or.inl (lt_trans h1 k1)
    · exact Or.inl (g2 ▸ h1)
  · rcases hbc with k1 | ⟨g2, k2 | ⟨m2, -⟩⟩
    · exact Or.inl (g1 ▸ k1)
    · exact Or.inr ⟨g1.trans g2, Or.inl (lt_trans h2 k2)⟩
    · exact Or.inr ⟨g1.trans g2, Or.inl (m2 ▸ h2)⟩
  · rcases hbc with k1 | ⟨g2, k2 | ⟨m2, k3 | ⟨p2, -⟩⟩⟩
    · exact Or.inl (g1 ▸ k1)
    · exact Or.inr ⟨g1.trans g2, Or.inl (m1 ▸ k2)⟩
    · exact Or.inr ⟨g1.trans g2, Or.inr ⟨m1.trans m2,
        Or.inl (priorityBelow_trans _ _ _ k3 h3)⟩⟩
    · exact Or.inr ⟨g1.trans g2, Or.inr ⟨m1.trans m2, Or.inl (p2 ▸ h3)⟩⟩
  · rcases hbc with k1 | ⟨g2, k2 | ⟨m2, k3 | ⟨p2, w2⟩⟩⟩
    · exact Or.inl (g1 ▸ k1)
    · exact Or.inr ⟨g1.trans g2, Or.inl (m1 ▸ k2)⟩
    · exact Or.inr ⟨g1.trans g2, Or.inr ⟨m1.trans m2, Or.inl (p1 ▸ k3)⟩⟩
    · exact Or.inr ⟨g1.trans g2, Or.inr ⟨m1.trans m2,
        Or.inr ⟨p1.trans p2, le_trans w2 w1⟩⟩⟩


/-! ## `GetMappingRows` -/

/-- What the join pairs an ability with: the ability is stored, a present channel is a
stored channel of the ability's channel id, and a missing channel means that no stored
channel has that id. -/
theorem joinRows_mem (db : model.Store) (a : model.Ability) (ch : Option model.Channel) :
    (a, ch) ∈ model.joinRows db ↔
      a ∈ db.abilities ∧
      ((∃ c, ch = some c ∧ c ∈ db.channels ∧ c.Id = a.ChannelId) ∨
        (ch = none ∧ ∀ c ∈ db.channels, c.Id ≠ a.ChannelId)) := by
  unfold model.joinRows
  simp only [List.mem_flatMap]
  constructor
  · rintro ⟨a', ha', hmem⟩
    cases hf : db.channels.filter (fun c => decide (c.Id = a'.ChannelId)) with
    | nil =>
      rw [hf] at hmem
      simp only [List.mem_singleton, Prod.mk.injEq] at hmem
      obtain ⟨rfl, rfl⟩ := hmem
      refine ⟨ha', Or.inr ⟨rfl, fun c hc hid => ?_⟩⟩
      have : c ∈ db.channels.filter (fun c => decide (c.Id = a.ChannelId)) := by
        simp [List.mem_filter, hc, hid]
      rw [hf] at this
      simp at this
    | cons c0 cs =>
      rw [hf] at hmem
      simp only [List.mem_map, Prod.mk.injEq] at hmem
      obtain ⟨c, hc, rfl, rfl⟩ := hmem
      rw [← hf] at hc
      simp only [List.mem_filter, decide_eq_true_eq] at hc
      exact ⟨ha', Or.inl ⟨c, rfl, hc.1, hc.2⟩⟩
  · rintro ⟨ha, h⟩
    refine ⟨a, ha, ?_⟩
    rcases h with ⟨c, rfl, hc, hid⟩ | ⟨rfl, hnone⟩
    · have hcf : c ∈ db.channels.filter (fun c => decide (c.Id = a.ChannelId)) := by
        simp [List.mem_filter, hc, hid]
      cases hf : db.channels.filter (fun c => decide (c.Id = a.ChannelId)) with
      | nil =>
        rw [hf] at hcf
        simp at hcf
      | cons c0 cs =>
        rw [hf] at hcf
        exact List.mem_map.mpr ⟨c, hcf, rfl⟩
    · have hf : db.channels.filter (fun c => decide (c.Id = a.ChannelId)) = [] := by
        rw [List.filter_eq_nil_iff]
        intro c hc
        simpa using hnone c hc
      rw [hf]
      simp

/-- The rows `GetMappingRows` returns from a store that reports no error: a
rearrangement of the joined rows the `WHERE` clause accepts, in `ORDER BY` order. -/
theorem GetMappingRows_ok (E : Int) (db : model.Store) (group : String) (enabledOnly : Bool)
    (keyword : String) (he : db.Error = none) :
    ∃ rows, model.GetMappingRows E db group enabledOnly keyword = .ok rows ∧
      rows.Perm (((model.joinRows db).filter
        (model.whereClause E group enabledOnly keyword)).map model.MappingRow.ofJoin) ∧
      rows.Sorted model.orderedBefore := by
  haveI : IsTotal model.MappingRow model.orderedBefore := ⟨orderedBefore_total⟩
  haveI : IsTrans model.MappingRow model.orderedBefore := ⟨orderedBefore_trans⟩
  unfold model.GetMappingRows
  rw [he]
  exact ⟨_, rfl, List.perm_insertionSort _ _, List.sorted_insertionSort _ _⟩

/-- The rows of any read are scans of joined rows that the `WHERE` clause accepts. -/
theorem GetMappingRows_mem (E : Int) (db : model.Store) (group : String) (enabledOnly : Bool)
    (keyword : String) (rows : List model.MappingRow)
    (h : model.GetMappingRows E db group enabledOnly keyword = .ok rows)
    (r : model.MappingRow) :
    r ∈ rows ↔ ∃ j ∈ model.joinRows db,
      model.whereClause E group enabledOnly keyword j = true ∧ model.MappingRow.ofJoin j = r := by
  unfold model.GetMappingRows at h
  cases he : db.Error with
  | some e => rw [he] at h; cases h
  | none =>
    rw [he] at h
    simp only [Except.ok.injEq] at h
    subst h
    rw [(List.perm_insertionSort _ _).mem_iff]
    simp only [List.mem_map, List.mem_filter]
    constructor
    · rintro ⟨j, ⟨hj, hw⟩, rfl⟩
      exact ⟨j, hj, hw, rfl⟩
    · rintro ⟨j, hj, hw, rfl⟩
      exact ⟨j, ⟨hj, hw⟩, rfl⟩

/-- Clearing the bit disables the ability. -/
theorem UpdateAbilityEnabled_disables (db : model.Store) (g m : String) (c : Int)
    (h : (model.UpdateAbilityEnabled db g m c false).2 = none) :
    model.abilityDisabled (model.UpdateAbilityEnabled db g m c false).1 g m c := by
  unfold model.UpdateAbilityEnabled at h ⊢
  cases he : db.Error with
  | some e => rw [he] at h; simp at h
  | none =>
    simp only [he]
    intro a ha hg hm hc
    simp only [List.mem_map] at ha
    obtain ⟨a0, -, rfl⟩ := ha
    by_cases hk : a0.Group = g ∧ a0.Model = m ∧ a0.ChannelId = c
    · simp only [hk, and_self, if_true]
    · simp only [hk, if_false] at hg hm hc
      exact absurd ⟨hg, hm, hc⟩ hk

/-- A disabled ability is in no read with `enabledOnly`. -/
theorem disabled_not_in_rows (db : model.Store) (g m : String) (c : Int)
    (hd : model.abilityDisabled db g m c) (E : Int) (group keyword : String)
    (rows : List model.MappingRow)
    (h : model.GetMappingRows E db group true keyword = .ok rows)
    (r : model.MappingRow) (hr : r ∈ rows) :
    ¬ (r.GroupName = g ∧ r.Model = m ∧ r.ChannelId = c) := by
  rintro ⟨hg, hm, hc⟩
  obtain ⟨j, hj, hw, rfl⟩ := (GetMappingRows_mem E db group true keyword rows h r).mp hr
  obtain ⟨a, ch⟩ := j
  have ha := ((joinRows_mem db a ch).mp hj).1
  have hoff := hd a ha hg hm hc
  simp only [model.whereClause, if_true, Bool.and_eq_true] at hw
  rw [hoff] at hw
  simp at hw

/-- The other mutations of the surface keep a disabled ability disabled. -/
theorem abilityDisabled_preserved (db : model.Store) (g m : String) (c : Int)
    (hd : model.abilityDisabled db g m c) :
    (∀ (group modelName : String) (channelId : Int) (priority : Option Int)
        (weight : Option Nat),
      model.abilityDisabled
        (model.UpdateAbility db group modelName channelId priority weight).1 g m c) ∧
    (∀ (channelId : Int) (mapping : Option String),
      model.abilityDisabled (model.UpdateChannelModelMapping db channelId mapping).1 g m c) ∧
    (∀ (group modelName : String) (channelId : Int) (enabled : Bool),
      enabled = false ∨ ¬ (group = g ∧ modelName = m ∧ channelId = c) →
      model.abilityDisabled
        (model.UpdateAbilityEnabled db group modelName channelId enabled).1 g m c) := by
  refine ⟨fun group modelName channelId priority weight => ?_, fun channelId mapping => ?_,
    fun group modelName channelId enabled hcase => ?_⟩
  · unfold model.UpdateAbility
    split_ifs
    · exact hd
    · cases he : db.Error with
      | some e => exact hd
      | none =>
        intro a ha hg hm hc
        simp only [List.mem_map] at ha
        obtain ⟨a0, ha0, rfl⟩ := ha
        by_cases hk : a0.Group = group ∧ a0.Model = modelName ∧ a0.ChannelId = channelId
        · simp only [hk, and_self, if_true] at hg hm hc ⊢
          exact hd a0 ha0 (hk.1.trans hg) (hk.2.1.trans hm) (hk.2.2.trans hc)
        · simp only [hk, if_false] at hg hm hc ⊢
          exact hd a0 ha0 hg hm hc
  · unfold model.UpdateChannelModelMapping
    cases he : db.Error with
    | some e => exact hd
    | none => exact hd
  · unfold model.UpdateAbilityEnabled
    cases he : db.Error with
    | some e => exact hd
    | none =>
      intro a ha hg hm hc
      simp only [List.mem_map] at ha
      obtain ⟨a0, ha0, rfl⟩ := ha
      by_cases hk : a0.Group = group ∧ a0.Model = modelName ∧ a0.ChannelId = channelId
      · simp only [hk, and_self, if_true] at hg hm hc ⊢
        rcases hcase with hfalse | hother
        · exact hfalse
        · exact absurd ⟨hg, hm, hc⟩ hother
      · simp only [hk, if_false] at hg hm hc ⊢
        exact hd a0 ha0 hg hm hc

/-- C14: after a successful `UpdateAbilityEnabled(g, m, c, false)` the ability is
disabled; as long as it is, `GetMappingRows` with `enabled_only = true` returns no row
with group `g`, model `m` and channel `c`, for every group filter and keyword; and it
stays disabled under every mutation of the surface that does not set the bit again
(`UpdateAbility`, `UpdateChannelModelMapping`, `UpdateAbilityEnabled` on another key or
with `false`). -/
theorem disabled_ability_not_routable (db : model.Store) (g m : String) (c : Int) :
    ((model.UpdateAbilityEnabled db g m c false).2 = none →
      model.abilityDisabled (model.UpdateAbilityEnabled db g m c false).1 g m c) ∧
    (∀ later : model.Store, model.abilityDisabled later g m c →
      (∀ (E : Int) (group keyword : String) (rows : List model.MappingRow),
        model.GetMappingRows E later group true keyword = .ok rows →
        ∀ r ∈ rows, ¬ (r.GroupName = g ∧ r.Model = m ∧ r.ChannelId = c)) ∧
      (∀ (group modelName : String) (channelId : Int) (priority : Option Int)
          (weight : Option Nat),
        model.abilityDisabled
          (model.UpdateAbility later group modelName channelId priority weight).1 g m c) ∧
      (∀ (channelId : Int) (mapping : Option String),
        model.abilityDisabled
          (model.UpdateChannelModelMapping later channelId mapping).1 g m c) ∧
      (∀ (group modelName : String) (channelId : Int) (enabled : Bool),
        enabled = false ∨ ¬ (group = g ∧ modelName = m ∧ channelId = c) →
        model.abilityDisabled
          (model.UpdateAbilityEnabled later group modelName channelId enabled).1 g m c)) := by
  refine ⟨UpdateAbilityEnabled_disables db g m c, fun later hd => ⟨?_, ?_⟩⟩
  · intro E group keyword rows h r hr
    exact disabled_not_in_rows later g m c hd E group keyword rows h r hr
  · exact abilityDisabled_preserved later g m c hd

/-- Witness of C14: after channel 1 is disabled for (`default`, `gpt-x`) the read with
`enabled_only` returns the rows of channel 2 only. -/
theorem disabled_ability_not_routable_witness :
    (model.rowsOf (model.GetMappingRows 1
        (model.UpdateAbilityEnabled routingStore "default" "gpt-x" 1 false).1 "" true "")).filter
      (fun r => r.GroupName = "default" ∧ r.Model = "gpt-x" ∧ r.ChannelId = 1) = [] := by
  have h := disabled_ability_not_routable routingStore "default" "gpt-x" 1
  have hd := h.1 rfl
  have hrows := (h.2 _ hd).1 1 "" ""
    (model.rowsOf (model.GetMappingRows 1
      (model.UpdateAbilityEnabled routingStore "default" "gpt-x" 1 false).1 "" true "")) rfl
  rw [List.filter_eq_nil_iff]
  intro r hr
  simpa using hrows r hr

/-! ## The `LIKE` filter -/

/-- What `appendChannel` leaves of an item: its key, group and model, and its channel
entries, followed by the new entry when the item is the first of the key. -/
theorem appendChannel_mem (key : String) (entry : controller.MappingChannelItem) :
    ∀ (items : List (String × controller.MappingItem)) (kv : String × controller.MappingItem),
      kv ∈ controller.appendChannel key entry items →
      ∃ old ∈ items, kv.1 = old.1 ∧ kv.2.Group = old.2.Group ∧ kv.2.Model = old.2.Model ∧
        (kv.2.Channels = old.2.Channels ∨
          (old.1 = key ∧ kv.2.Channels = old.2.Channels ++ [entry])) := by
  intro items
  induction items with
  | nil => intro kv h; simp [controller.appendChannel] at h
  | cons head rest ih =>
    intro kv h
    obtain ⟨k, item⟩ := head
    simp only [controller.appendChannel] at h
    split_ifs at h with hk
    · rcases List.mem_cons.mp h with rfl | h'
      · exact ⟨(k, item), List.mem_cons_self _ _, rfl, rfl, rfl, Or.inr ⟨hk, rfl⟩⟩
      · exact ⟨kv, List.mem_cons_of_mem _ h', rfl, rfl, rfl, Or.inl rfl⟩
    · rcases List.mem_cons.mp h with rfl | h'
      · exact ⟨(k, item), List.mem_cons_self _ _, rfl, rfl, rfl, Or.inl rfl⟩
      · obtain ⟨old, hold, hrest⟩ := ih kv h'
        exact ⟨old, List.mem_cons_of_mem _ hold, hrest⟩

/-- Every item keeps its channel entries under `appendChannel`. -/
theorem appendChannel_keeps (key : String) (entry : controller.MappingChannelItem) :
    ∀ (items : List (String × controller.MappingItem)) (old : String × controller.MappingItem),
      old ∈ items →
      ∃ kv ∈ controller.appendChannel key entry items,
        ∀ e ∈ old.2.Channels, e ∈ kv.2.Channels := by
  intro items
  induction items with
  | nil => intro old h; simp at h
  | cons head rest ih =>
    intro old h
    obtain ⟨k, item⟩ := head
    simp only [controller.appendChannel]
    split_ifs with hk
    · rcases List.mem_cons.mp h with rfl | h'
      · exact ⟨_, List.mem_cons_self _ _, fun e he => List.mem_append_left _ he⟩
      · exact ⟨old, List.mem_cons_of_mem _ h', fun e he => he⟩
    · rcases List.mem_cons.mp h with rfl | h'
      · exact ⟨_, List.mem_cons_self _ _, fun e he => he⟩
      · obtain ⟨kv, hkv, hsub⟩ := ih old h'
        exact ⟨kv, List.mem_cons_of_mem _ hkv, hsub⟩

/-- The new entry is in the item of the key when there is one. -/
theorem appendChannel_adds (key : String) (entry : controller.MappingChannelItem) :
    ∀ (items : List (String × controller.MappingItem)),
      (∃ old ∈ items, old.1 = key) →
      ∃ kv ∈ controller.appendChannel key entry items, entry ∈ kv.2.Channels := by
  intro items
  induction items with
  | nil => rintro ⟨old, h, -⟩; simp at h
  | cons head rest ih =>
    rintro ⟨old, h, hkey⟩
    obtain ⟨k, item⟩ := head
    simp only [controller.appendChannel]
    split_ifs with hk
    · exact ⟨_, List.mem_cons_self _ _, by simp⟩
    · rcases List.mem_cons.mp h with rfl | h'
      · exact absurd hkey hk
      · obtain ⟨kv, hkv, he⟩ := ih ⟨old, h', hkey⟩
        exact ⟨kv, List.mem_cons_of_mem _ hkv, he⟩

/-- The remap table of a channel does not change when rows are added after a row of
that channel. -/
theorem remapOf_append (unmarshal : String → List (String × String))
    (rows more : List model.MappingRow) (r : model.MappingRow) (hr : r ∈ rows) :
    controller.remapOf unmarshal (rows ++ more) r.ChannelId
      = controller.remapOf unmarshal rows r.ChannelId := by
  unfold controller.remapOf
  rw [List.find?_append]
  have hsome : (rows.find? (fun row => decide (row.ChannelId = r.ChannelId))).isSome = true := by
    rw [List.find?_isSome]
    exact ⟨r, hr, by simp⟩
  cases hf : rows.find? (fun row => decide (row.ChannelId = r.ChannelId)) with
  | none => rw [hf] at hsome; simp at hsome
  | some r0 => simp

/-- The remap table a turn of the loop uses for its row is the one of the row's channel
among the rows read so far. -/
theorem step_mapping (unmarshal : String → List (String × String))
    (done : List model.MappingRow) (cache : List (Int × List (String × String)))
    (row : model.MappingRow)
    (hcache : ∀ id : Int, cache.lookup id
      = (done.find? (fun r => decide (r.ChannelId = id))).map
          (fun r => controller.decodeMapping unmarshal r.ModelMapping)) :
    (match cache.lookup row.ChannelId with
      | some m => m
      | none => controller.decodeMapping unmarshal row.ModelMapping)
      = controller.remapOf unmarshal (done ++ [row]) row.ChannelId := by
  unfold controller.remapOf
  rw [hcache row.ChannelId, List.find?_append]
  cases hf : done.find? (fun r => decide (r.ChannelId = row.ChannelId)) with
  | none => simp
  | some r0 => simp

/-- One turn of the loop keeps the invariant. -/
theorem mappingStep_invariant (unmarshal : String → List (String × String))
    (urls : List String) (done : List model.MappingRow) (acc : controller.MappingAcc)
    (row : model.MappingRow) (h : controller.loopInvariant unmarshal urls done acc) :
    controller.loopInvariant unmarshal urls (done ++ [row])
      (controller.mappingStep unmarshal urls acc row) := by
  obtain ⟨hcache, hrows, hitems⟩ := h
  have hmap := step_mapping unmarshal done acc.channelMappingCache row hcache
  have hkey : ∃ old ∈ (if ((acc.itemMap.lookup (row.GroupName ++ "||" ++ row.Model)).isSome
        = true) then acc.itemMap
      else acc.itemMap ++ [(row.GroupName ++ "||" ++ row.Model,
        ({ Group := row.GroupName, Model := row.Model, Channels := [] } :
          controller.MappingItem))]),
      old.1 = row.GroupName ++ "||" ++ row.Model := by
    split_ifs with hl
    · rw [List.lookup_isSome_iff] at hl
      obtain ⟨p, hp, hpk⟩ := hl
      exact ⟨p, hp, (by simpa using hpk : row.GroupName ++ "||" ++ row.Model = p.1).symm⟩
    · exact ⟨_, List.mem_append_right _ (List.mem_singleton_self _), rfl⟩
  have hsub : ∀ kv ∈ acc.itemMap,
      kv ∈ (if ((acc.itemMap.lookup (row.GroupName ++ "||" ++ row.Model)).isSome = true)
        then acc.itemMap
        else acc.itemMap ++ [(row.GroupName ++ "||" ++ row.Model,
          ({ Group := row.GroupName, Model := row.Model, Channels := [] } :
            controller.MappingItem))]) := by
    intro kv hkv
    split_ifs
    · exact hkv
    · exact List.mem_append_left _ hkv
  have hold : ∀ kv ∈ (if ((acc.itemMap.lookup (row.GroupName ++ "||" ++ row.Model)).isSome
        = true) then acc.itemMap
      else acc.itemMap ++ [(row.GroupName ++ "||" ++ row.Model,
        ({ Group := row.GroupName, Model := row.Model, Channels := [] } :
          controller.MappingItem))]),
      kv ∈ acc.itemMap ∨ kv.2.Channels = [] := by
    intro kv hkv
    split_ifs at hkv
    · exact Or.inl hkv
    · rcases List.mem_append.mp hkv with h1 | h1
      · exact Or.inl h1
      · rw [List.mem_singleton] at h1
        exact Or.inr (by rw [h1])
  refine ⟨?_, ?_, ?_⟩
  · intro id
    simp only [controller.mappingStep]
    rw [List.find?_append]
    cases hc : acc.channelMappingCache.lookup row.ChannelId with
    | some m =>
      simp only []
      rw [hcache id]
      have hc' := hcache row.ChannelId
      rw [hc] at hc'
      cases hf : done.find? (fun r => decide (r.ChannelId = id)) with
      | some r0 => simp
      | none =>
        by_cases hid : row.ChannelId = id
        · subst hid
          rw [hf] at hc'
          simp at hc'
        · simp [hid]
    | none =>
      simp only []
      rw [List.lookup_append, hcache id]
      have hc' := hcache row.ChannelId
      rw [hc] at hc'
      cases hf : done.find? (fun r => decide (r.ChannelId = id)) with
      | some r0 => simp
      | none =>
        by_cases hid : row.ChannelId = id
        · subst hid
          simp [List.lookup]
        · have hne : (id == row.ChannelId) = false := by
            simpa using fun h => hid h.symm
          simp [List.lookup, hne, hid]
  · intro r hr
    simp only [controller.mappingStep]
    rw [hmap]
    rcases List.mem_append.mp hr with hdone | hnew
    · obtain ⟨kv, hkv, he⟩ := hrows r hdone
      obtain ⟨kv', hkv', hkeep⟩ := appendChannel_keeps (row.GroupName ++ "||" ++ row.Model)
        (controller.channelEntry urls
          (controller.remapOf unmarshal (done ++ [row]) row.ChannelId) row) _ kv (hsub kv hkv)
      rw [remapOf_append unmarshal done [row] r hdone]
      exact ⟨kv', hkv', hkeep _ he⟩
    · rw [List.mem_singleton] at hnew
      subst hnew
      exact appendChannel_adds _ _ _ hkey
  · intro kv hkv e he
    simp only [controller.mappingStep] at hkv
    rw [hmap] at hkv
    obtain ⟨old, hold', -, -, -, hch⟩ := appendChannel_mem _ _ _ kv hkv
    have hfrom : ∀ x ∈ old.2.Channels, ∃ r ∈ done ++ [row],
        x = controller.channelEntry urls
          (controller.remapOf unmarshal (done ++ [row]) r.ChannelId) r := by
      intro x hx
      rcases hold old hold' with hin | hempty
      · obtain ⟨r, hr, hxe⟩ := hitems old hin x hx
        refine ⟨r, List.mem_append_left _ hr, ?_⟩
        rw [remapOf_append unmarshal done [row] r hr]
        exact hxe
      · rw [hempty] at hx
        simp at hx
    rcases hch with hsame | ⟨-, happ⟩
    · rw [hsame] at he
      exact hfrom e he
    · rw [happ] at he
      rcases List.mem_append.mp he with h1 | h1
      · exact hfrom e h1
      · rw [List.mem_singleton] at h1
        exact ⟨row, List.mem_append_right _ (List.mem_singleton_self _), h1⟩

/-- The invariant holds after the whole loop. -/
theorem mappingLoop_invariant (unmarshal : String → List (String × String))
    (urls : List String) (rows : List model.MappingRow) :
    controller.loopInvariant unmarshal urls rows
      (rows.foldl (controller.mappingStep unmarshal urls)
        { groupsSet := [], itemMap := [], channelMappingCache := [] }) := by
  induction rows using List.reverseRecOn with
  | nil =>
    refine ⟨fun id => ?_, fun r hr => ?_, fun kv hkv => ?_⟩
    · simp
    · simp at hr
    · simp at hkv
  | append_singleton done row ih =>
    rw [List.foldl_append]
    exact mappingStep_invariant unmarshal urls done _ row ih

/-- What `GetMappings` reports: every row has its channel entry, built with the remap
table of the row's channel, in an item of the response, and every channel entry of the
response is the entry of a row. -/
theorem buildMappingResponse_entries (unmarshal : String → List (String × String))
    (urls : List String) (rows : List model.MappingRow) :
    (∀ r ∈ rows, ∃ item ∈ (controller.buildMappingResponse unmarshal urls rows).Items,
      controller.channelEntry urls (controller.remapOf unmarshal rows r.ChannelId) r
        ∈ item.Channels) ∧
    (∀ item ∈ (controller.buildMappingResponse unmarshal urls rows).Items,
      ∀ e ∈ item.Channels, ∃ r ∈ rows,
        e = controller.channelEntry urls (controller.remapOf unmarshal rows r.ChannelId) r) := by
  obtain ⟨-, hrows, hitems⟩ := mappingLoop_invariant unmarshal urls rows
  have hmem : ∀ item, item ∈ (controller.buildMappingResponse unmarshal urls rows).Items ↔
      ∃ kv ∈ (rows.foldl (controller.mappingStep unmarshal urls)
        { groupsSet := [], itemMap := [], channelMappingCache := [] }).itemMap,
        kv.2 = item := by
    intro item
    unfold controller.buildMappingResponse
    simp only []
    rw [(List.perm_insertionSort _ _).mem_iff, List.mem_map]
  constructor
  · intro r hr
    obtain ⟨kv, hkv, he⟩ := hrows r hr
    exact ⟨kv.2, (hmem kv.2).mpr ⟨kv, hkv, rfl⟩, he⟩
  · intro item hitem e he
    obtain ⟨kv, hkv, rfl⟩ := (hmem item).mp hitem
    exact hitems kv hkv e he

/-- The remap of a channel entry: a model with a non-empty entry in the remap table is
reported with that entry and `mapping_applied`; a model without entry, or with an empty
one, is reported as itself and not applied. -/
theorem channelEntry_remap (urls : List String) (mapping : List (String × String))
    (row : model.MappingRow) :
    (controller.channelEntry urls mapping row).ChannelId = row.ChannelId ∧
    (∀ name, mapping.lookup row.Model = some name → name ≠ "" →
      (controller.channelEntry urls mapping row).UpstreamModel = name ∧
      (controller.channelEntry urls mapping row).MappingApplied = true) ∧
    (mapping.lookup row.Model = none ∨ mapping.lookup row.Model = some "" →
      (controller.channelEntry urls mapping row).UpstreamModel = row.Model ∧
      (controller.channelEntry urls mapping row).MappingApplied = false) := by
  refine ⟨rfl, fun name hl hne => ?_, fun h => ?_⟩
  · simp [controller.channelEntry, hl, hne]
  · rcases h with h | h <;> simp [controller.channelEntry, h]

/-- When the rows of a channel carry the same stored remap, the remap table of the
channel is the one decoded from any of them. -/
theorem remapOf_eq_decode (unmarshal : String → List (String × String))
    (rows : List model.MappingRow) (r : model.MappingRow) (hr : r ∈ rows)
    (hsame : ∀ r' ∈ rows, r'.ChannelId = r.ChannelId → r'.ModelMapping = r.ModelMapping) :
    controller.remapOf unmarshal rows r.ChannelId
      = controller.decodeMapping unmarshal r.ModelMapping := by
  unfold controller.remapOf
  cases hf : rows.find? (fun row => decide (row.ChannelId = r.ChannelId)) with
  | none =>
    have := List.find?_eq_none.mp hf r hr
    simp at this
  | some r0 =>
    have hmem := List.mem_of_find?_eq_some hf
    have hp := List.find?_some hf
    simp only [decide_eq_true_eq] at hp
    simp only [hsame r0 hmem hp]

/-- The handler `GetMappings` on a store that reports no error: the response built from
the rows `GetMappingRows` returns for the trimmed query parameters. -/
theorem GetMappings_ok (unmarshal : String → List (String × String)) (urls : List String)
    (E : Int) (db : model.Store) (groupQuery qQuery enabledOnlyQuery : String)
    (he : db.Error = none) :
    ∃ rows enabledOnly,
      model.GetMappingRows E db (TrimSpace groupQuery) enabledOnly (TrimSpace qQuery)
        = .ok rows ∧
      controller.GetMappings unmarshal urls E db groupQuery qQuery enabledOnlyQuery
        = .ok (controller.buildMappingResponse unmarshal urls rows) := by
  obtain ⟨rows, hrows, -, -⟩ := GetMappingRows_ok E db (TrimSpace groupQuery)
    (if TrimSpace enabledOnlyQuery ≠ "" ∧
        (TrimSpace enabledOnlyQuery = "false" ∨ TrimSpace enabledOnlyQuery = "0")
      then false else true) (TrimSpace qQuery) he
  refine ⟨rows, _, hrows, ?_⟩
  unfold controller.GetMappings
  simp only [hrows]

/-! ## The remap reported by `GetMappings` -/

/-- C16, refuted as stated: channel 1 stores the remap `gpt-x` to the empty name, so
`gpt-x` is a key of its remap table with `remap[gpt-x] = ""`; `GetMappings` reports the
row with `upstream_model = "gpt-x"` and `mapping_applied = false`. -/
theorem GetMappings_empty_remap_not_applied :
    (controller.decodeMapping sampleUnmarshal (some "gpt-x:")).lookup "gpt-x" = some "" ∧
    (model.rowsOf (model.GetMappingRows 1 emptyRemapStore "" true "")).map
        (fun r => (r.Model, r.ChannelId, r.ModelMapping)) = [("gpt-x", 1, some "gpt-x:")] ∧
    (controller.buildMappingResponse sampleUnmarshal []
        (model.rowsOf (model.GetMappingRows 1 emptyRemapStore "" true ""))).Items.map
      (fun item => (item.Group, item.Model,
        item.Channels.map (fun e => (e.ChannelId, e.UpstreamModel, e.MappingApplied))))
      = [("default", "gpt-x", [(1, "gpt-x", false)])] := by
  decide

/-- C16, amended: in `GetMappings`, every row has a channel entry in the response whose
`upstream_model` is `remap[model]` when the row's model is a key of the channel's remap
table with a non-empty value, and the row's model otherwise (no key, or an empty
value), and whose `mapping_applied` is true exactly in the first case. The remap table
of the channel is the one decoded from the first row of the channel, which is the
row's own when the rows of a channel agree on the stored remap. -/
theorem GetMappings_reports_remap (unmarshal : String → List (String × String))
    (urls : List String) (rows : List model.MappingRow) (r : model.MappingRow)
    (hr : r ∈ rows) :
    (∃ item ∈ (controller.buildMappingResponse unmarshal urls rows).Items,
      ∃ e ∈ item.Channels,
        e = controller.channelEntry urls (controller.remapOf unmarshal rows r.ChannelId) r ∧
        e.ChannelId = r.ChannelId ∧
        (∀ name, (controller.remapOf unmarshal rows r.ChannelId).lookup r.Model = some name →
          name ≠ "" → e.UpstreamModel = name ∧ e.MappingApplied = true) ∧
        ((controller.remapOf unmarshal rows r.ChannelId).lookup r.Model = none ∨
            (controller.remapOf unmarshal rows r.ChannelId).lookup r.Model = some "" →
          e.UpstreamModel = r.Model ∧ e.MappingApplied = false) ∧
        (e.MappingApplied = true ↔
          ∃ name, (controller.remapOf unmarshal rows r.ChannelId).lookup r.Model = some name ∧
            name ≠ "")) ∧
    ((∀ r' ∈ rows, r'.ChannelId = r.ChannelId → r'.ModelMapping = r.ModelMapping) →
      controller.remapOf unmarshal rows r.ChannelId
        = controller.decodeMapping unmarshal r.ModelMapping) ∧
    (∀ (E : Int) (db : model.Store) (groupQuery qQuery enabledOnlyQuery : String),
      db.Error = none →
      ∃ read enabledOnly,
        model.GetMappingRows E db (TrimSpace groupQuery) enabledOnly (TrimSpace qQuery)
          = .ok read ∧
        controller.GetMappings unmarshal urls E db groupQuery qQuery enabledOnlyQuery
          = .ok (controller.buildMappingResponse unmarshal urls read)) := by
  refine ⟨?_, remapOf_eq_decode unmarshal rows r hr,
    fun E db groupQuery qQuery enabledOnlyQuery he =>
      GetMappings_ok unmarshal urls E db groupQuery qQuery enabledOnlyQuery he⟩
  obtain ⟨item, hitem, he⟩ := (buildMappingResponse_entries unmarshal urls rows).1 r hr
  obtain ⟨h1, h2, h3⟩ := channelEntry_remap urls (controller.remapOf unmarshal rows r.ChannelId) r
  refine ⟨item, hitem, _, he, rfl, h1, h2, h3, ?_⟩
  cases hl : (controller.remapOf unmarshal rows r.ChannelId).lookup r.Model with
  | none =>
    have := (h3 (Or.inl hl)).2
    simp [this]
  | some name =>
    by_cases hn : name = ""
    · subst hn
      have := (h3 (Or.inr hl)).2
      simp [this]
    · have := (h2 name hl hn).2
      simp [this, hn]

/-- Witness of the amended C16: the row of channel 1 for `gpt-x` on the sample store is
reported with the remapped name. -/
theorem GetMappings_reports_remap_witness :
    ∃ item ∈ (controller.buildMappingResponse sampleUnmarshal []
        (model.rowsOf (model.GetMappingRows 1 routingStore "" true ""))).Items,
      ∃ e ∈ item.Channels, e.ChannelId = 1 ∧ e.UpstreamModel = "gpt-x-real" ∧
        e.MappingApplied = true := by
  have hr : (model.MappingRow.ofJoin
        ({ Group := "default", Model := "gpt-x", ChannelId := 1, Enabled := true,
           Priority := some 10, Weight := 3, Tag := none },
         some { Id := 1, Name := "one", Type_ := 1, Status := 1, BaseURL := none,
                ModelMapping := some "gpt-x:gpt-x-real" }))
      ∈ model.rowsOf (model.GetMappingRows 1 routingStore "" true "") := by decide
  obtain ⟨item, hitem, e, he, -, hid, happ, -, -⟩ :=
    (GetMappings_reports_remap sampleUnmarshal [] _ _ hr).1
  exact ⟨item, hitem, e, he, hid, happ "gpt-x-real" (by decide) (by decide)⟩

/-! ## Writing the remap table, then reading it -/

/-- A successful `UpdateChannelMapping`: the channel id is not 0, the retained source
names are distinct, and the one statement sets the stored remap of the channels of
that id to the rendering of the retained entries, or to NULL when there is none. -/
theorem UpdateChannelMapping_success (marshal : List (String × String) → String)
    (db : model.Store) (req : controller.UpdateChannelMappingRequest)
    (hok : (controller.UpdateChannelMapping marshal db (.ok req)).response
      = controller.Response.Success) :
    req.ChannelId ≠ 0 ∧
    ((controller.retainedEntries req.Mappings).map Prod.fst).Nodup ∧
    (controller.UpdateChannelMapping marshal db (.ok req)).db.Error = none ∧
    (controller.UpdateChannelMapping marshal db (.ok req)).db.abilities = db.abilities ∧
    (controller.UpdateChannelMapping marshal db (.ok req)).db.channels
      = db.channels.map (fun ch =>
          if ch.Id = req.ChannelId then
            { ch with ModelMapping :=
                if (controller.retainedEntries req.Mappings).length > 0
                then some (marshal (controller.retainedEntries req.Mappings)) else none }
          else ch) ∧
    (controller.UpdateChannelMapping marshal db (.ok req)).writes
      = [(req.ChannelId,
          if (controller.retainedEntries req.Mappings).length > 0
          then some (marshal (controller.retainedEntries req.Mappings)) else none)] := by
  have hb := buildMapping_eq req.Mappings [] (by simp)
  simp only [List.map_nil, List.nil_append] at hb
  unfold controller.UpdateChannelMapping at hok ⊢
  by_cases hc : req.ChannelId = 0
  · simp [hc] at hok
  · by_cases hdup : ((controller.retainedEntries req.Mappings).map Prod.fst).Nodup
    · simp only [hc, if_false, hb, hdup, if_true] at hok ⊢
      unfold model.UpdateChannelModelMapping at hok ⊢
      cases he : db.Error with
      | some e => simp [he] at hok
      | none => simp [he, hc, hdup]
    · simp [hc, hb, hdup] at hok

/-- The rows of a channel carry the stored remap of the channel. -/
theorem rows_carry_remap (E : Int) (db : model.Store) (group : String) (enabledOnly : Bool)
    (keyword : String) (rows : List model.MappingRow) (C : Int) (ptr : Option String)
    (hchan : ∀ ch ∈ db.channels, ch.Id = C → ch.ModelMapping = ptr)
    (hex : ptr = none ∨ ∃ ch ∈ db.channels, ch.Id = C)
    (hrows : model.GetMappingRows E db group enabledOnly keyword = .ok rows) :
    ∀ r ∈ rows, r.ChannelId = C → r.ModelMapping = ptr := by
  intro r hr hC
  obtain ⟨j, hj, -, rfl⟩ := (GetMappingRows_mem E db group enabledOnly keyword rows hrows r).mp hr
  obtain ⟨a, ch⟩ := j
  obtain ⟨-, hcase⟩ := (joinRows_mem db a ch).mp hj
  have hC' : a.ChannelId = C := hC
  rcases hcase with ⟨c, rfl, hc, hid⟩ | ⟨rfl, hnone⟩
  · exact hchan c hc (hid.trans hC')
  · rcases hex with hp | ⟨c, hc, hid⟩
    · rw [hp]
      rfl
    · exact absurd (hid.trans hC'.symm) (hnone c hc)

theorem lookup_of_mem_nodup (key value : String) :
    ∀ mapping : List (String × String), (mapping.map Prod.fst).Nodup →
      (key, value) ∈ mapping → mapping.lookup key = some value := by
  intro mapping
  induction mapping with
  | nil => intro _ h; simp at h
  | cons entry rest ih =>
    intro hnd hmem
    obtain ⟨k, v⟩ := entry
    simp only [List.map_cons, List.nodup_cons] at hnd
    rcases List.mem_cons.mp hmem with heq | hrest
    · simp only [Prod.mk.injEq] at heq
      obtain ⟨rfl, rfl⟩ := heq
      simp [List.lookup]
    · have hne : key ≠ k := by
        rintro rfl
        exact hnd.1 (List.mem_map.mpr ⟨(key, value), hrest, rfl⟩)
      have hb : (key == k) = false := by simpa using hne
      simp only [List.lookup, hb]
      exact ih hnd.2 hrest

theorem lookup_of_not_mem (key : String) (mapping : List (String × String))
    (h : key ∉ mapping.map Prod.fst) : mapping.lookup key = none := by
  cases hl : mapping.lookup key with
  | none => rfl
  | some v =>
    have hs : (mapping.lookup key).isSome = true := by rw [hl]; rfl
    exact absurd ((lookup_isSome_iff key mapping).mp hs) h

theorem retainedEntries_nonempty (pairs : List controller.MappingPair) (key value : String)
    (h : (key, value) ∈ controller.retainedEntries pairs) : key ≠ "" ∧ value ≠ "" := by
  unfold controller.retainedEntries at h
  simp only [List.mem_map, List.mem_filter, decide_eq_true_eq, Prod.mk.injEq] at h
  obtain ⟨pair, ⟨-, hk, hv⟩, rfl, rfl⟩ := h
  exact ⟨hk, hv⟩

/-- After a successful `UpdateChannelMapping`, the rows `GetMappings` reads for the
channel are reported with the remap table decoded from the stored remap. -/
theorem read_after_write (marshal : List (String × String) → String)
    (unmarshal : String → List (String × String)) (urls : List String) (E : Int)
    (db : model.Store) (req : controller.UpdateChannelMappingRequest)
    (groupQuery qQuery enabledOnlyQuery : String)
    (hok : (controller.UpdateChannelMapping marshal db (.ok req)).response
      = controller.Response.Success)
    (hex : (controller.retainedEntries req.Mappings).length > 0 →
      ∃ ch ∈ db.channels, ch.Id = req.ChannelId) :
    ∃ rows enabledOnly,
      model.GetMappingRows E (controller.UpdateChannelMapping marshal db (.ok req)).db
        (TrimSpace groupQuery) enabledOnly (TrimSpace qQuery) = .ok rows ∧
      controller.GetMappings unmarshal urls E
        (controller.UpdateChannelMapping marshal db (.ok req)).db groupQuery qQuery
        enabledOnlyQuery = .ok (controller.buildMappingResponse unmarshal urls rows) ∧
      ∀ r ∈ rows, r.ChannelId = req.ChannelId →
        ∃ item ∈ (controller.buildMappingResponse unmarshal urls rows).Items,
          controller.channelEntry urls
            (controller.decodeMapping unmarshal
              (if (controller.retainedEntries req.Mappings).length > 0
                then some (marshal (controller.retainedEntries req.Mappings)) else none)) r
            ∈ item.Channels := by
  obtain ⟨-, -, herr, -, hchan, -⟩ := UpdateChannelMapping_success marshal db req hok
  obtain ⟨rows, enabledOnly, hrows, hget⟩ := GetMappings_ok unmarshal urls E
    (controller.UpdateChannelMapping marshal db (.ok req)).db groupQuery qQuery
    enabledOnlyQuery herr
  refine ⟨rows, enabledOnly, hrows, hget, fun r hr hC => ?_⟩
  have hcarry := rows_carry_remap E (controller.UpdateChannelMapping marshal db (.ok req)).db
    (TrimSpace groupQuery) enabledOnly (TrimSpace qQuery) rows req.ChannelId
    (if (controller.retainedEntries req.Mappings).length > 0
      then some (marshal (controller.retainedEntries req.Mappings)) else none)
    (by
      intro ch hch hid
      rw [hchan, List.mem_map] at hch
      obtain ⟨c0, -, rfl⟩ := hch
      by_cases h0 : c0.Id = req.ChannelId
      · simp only [h0, if_true]
      · simp only [h0, if_false] at hid)
    (by
      by_cases hlen : (controller.retainedEntries req.Mappings).length > 0
      · obtain ⟨c0, hc0, hid⟩ := hex hlen
        have hm : ∃ c ∈ (controller.UpdateChannelMapping marshal db (.ok req)).db.channels,
            c.Id = req.ChannelId := by
          rw [hchan]
          refine ⟨_, List.mem_map_of_mem _ hc0, ?_⟩
          simp only [hid, if_true]
        exact Or.inr hm
      · exact Or.inl (by simp only [hlen, if_false]))
    hrows
  obtain ⟨item, hitem, he⟩ := (buildMappingResponse_entries unmarshal urls rows).1 r hr
  have hremap := remapOf_eq_decode unmarshal rows r hr
    (fun r' hr' hid => (hcarry r' hr' (hid.trans hC)).trans (hcarry r hr hC).symm)
  rw [hremap, hcarry r hr hC] at he
  exact ⟨item, hitem, he⟩

/-- C11: after `UpdateChannelMapping` succeeds for an existing channel C with mappings M
(the JSON rendering of the written table reading back to the same table),
`GetMappings` reports, for every pair (name, upstream) of M whose two sides are
non-empty after trimming and every row of channel C whose model is the trimmed name,
`upstream_model` = the trimmed upstream and `mapping_applied = true`; for the rows of C
whose model is not the trimmed name of such a pair it reports `upstream_model = model`
and `mapping_applied = false`. -/
theorem remap_write_then_read (marshal : List (String × String) → String)
    (unmarshal : String → List (String × String)) (urls : List String) (E : Int)
    (db : model.Store) (req : controller.UpdateChannelMappingRequest)
    (groupQuery qQuery enabledOnlyQuery : String)
    (hok : (controller.UpdateChannelMapping marshal db (.ok req)).response
      = controller.Response.Success)
    (hex : ∃ ch ∈ db.channels, ch.Id = req.ChannelId)
    (hcodec : controller.retainedEntries req.Mappings ≠ [] → ∀ key,
      (controller.decodeMapping unmarshal
          (some (marshal (controller.retainedEntries req.Mappings)))).lookup key
        = (controller.retainedEntries req.Mappings).lookup key) :
    ∃ rows enabledOnly,
      model.GetMappingRows E (controller.UpdateChannelMapping marshal db (.ok req)).db
        (TrimSpace groupQuery) enabledOnly (TrimSpace qQuery) = .ok rows ∧
      controller.GetMappings unmarshal urls E
        (controller.UpdateChannelMapping marshal db (.ok req)).db groupQuery qQuery
        enabledOnlyQuery = .ok (controller.buildMappingResponse unmarshal urls rows) ∧
      ∀ r ∈ rows, r.ChannelId = req.ChannelId →
        ∃ item ∈ (controller.buildMappingResponse unmarshal urls rows).Items,
          ∃ e ∈ item.Channels, e.ChannelId = r.ChannelId ∧
            (∀ name upstream, (name, upstream) ∈ controller.retainedEntries req.Mappings →
              r.Model = name → e.UpstreamModel = upstream ∧ e.MappingApplied = true) ∧
            (r.Model ∉ (controller.retainedEntries req.Mappings).map Prod.fst →
              e.UpstreamModel = r.Model ∧ e.MappingApplied = false) := by
  obtain ⟨-, hnd, -, -, -, -⟩ := UpdateChannelMapping_success marshal db req hok
  obtain ⟨rows, enabledOnly, hrows, hget, hall⟩ := read_after_write marshal unmarshal urls E db
    req groupQuery qQuery enabledOnlyQuery hok (fun _ => hex)
  refine ⟨rows, enabledOnly, hrows, hget, fun r hr hC => ?_⟩
  obtain ⟨item, hitem, he⟩ := hall r hr hC
  have hlook : ∀ key, (controller.decodeMapping unmarshal
      (if (controller.retainedEntries req.Mappings).length > 0
        then some (marshal (controller.retainedEntries req.Mappings)) else none)).lookup key
      = (controller.retainedEntries req.Mappings).lookup key := by
    intro key
    by_cases hlen : (controller.retainedEntries req.Mappings).length > 0
    · simp only [hlen, if_true]
      exact hcodec (fun hnil => by rw [hnil] at hlen; simp at hlen) key
    · have hnil : controller.retainedEntries req.Mappings = [] := by
        cases hl : controller.retainedEntries req.Mappings with
        | nil => rfl
        | cons x xs => rw [hl] at hlen; simp at hlen
      simp [hnil, controller.decodeMapping]
  obtain ⟨h1, h2, h3⟩ := channelEntry_remap urls (controller.decodeMapping unmarshal
    (if (controller.retainedEntries req.Mappings).length > 0
      then some (marshal (controller.retainedEntries req.Mappings)) else none)) r
  refine ⟨item, hitem, _, he, h1, fun name upstream hmem hname => ?_, fun hnot => ?_⟩
  · subst hname
    have hl := lookup_of_mem_nodup r.Model upstream _ hnd hmem
    exact h2 upstream ((hlook r.Model).trans hl)
      (retainedEntries_nonempty req.Mappings r.Model upstream hmem).2
  · have hl := lookup_of_not_mem r.Model _ hnot
    exact h3 (Or.inl ((hlook r.Model).trans hl))

/-- C12: a successful `UpdateChannelMapping` whose pairs are all dropped (in particular
an empty mappings list) writes a NULL `model_mapping` for the channel, replacing the
stored remap, and a subsequent `GetMappings` reports `mapping_applied = false` and
`upstream_model = model` for every row of that channel. -/
theorem empty_remap_clears (marshal : List (String × String) → String)
    (unmarshal : String → List (String × String)) (urls : List String) (E : Int)
    (db : model.Store) (req : controller.UpdateChannelMappingRequest)
    (groupQuery qQuery enabledOnlyQuery : String)
    (hok : (controller.UpdateChannelMapping marshal db (.ok req)).response
      = controller.Response.Success)
    (hempty : controller.retainedEntries req.Mappings = []) :
    controller.retainedEntries [] = [] ∧
    (controller.UpdateChannelMapping marshal db (.ok req)).writes = [(req.ChannelId, none)] ∧
    (∀ ch ∈ (controller.UpdateChannelMapping marshal db (.ok req)).db.channels,
      ch.Id = req.ChannelId → ch.ModelMapping = none) ∧
    ∃ rows enabledOnly,
      model.GetMappingRows E (controller.UpdateChannelMapping marshal db (.ok req)).db
        (TrimSpace groupQuery) enabledOnly (TrimSpace qQuery) = .ok rows ∧
      controller.GetMappings unmarshal urls E
        (controller.UpdateChannelMapping marshal db (.ok req)).db groupQuery qQuery
        enabledOnlyQuery = .ok (controller.buildMappingResponse unmarshal urls rows) ∧
      ∀ r ∈ rows, r.ChannelId = req.ChannelId →
        ∃ item ∈ (controller.buildMappingResponse unmarshal urls rows).Items,
          ∃ e ∈ item.Channels, e.ChannelId = r.ChannelId ∧
            e.UpstreamModel = r.Model ∧ e.MappingApplied = false := by
  obtain ⟨-, -, -, -, hchan, hwrites⟩ := UpdateChannelMapping_success marshal db req hok
  have hlen : ¬ (controller.retainedEntries req.Mappings).length > 0 := by
    rw [hempty]
    simp
  simp only [hlen, if_false] at hchan hwrites
  refine ⟨rfl, hwrites, ?_, ?_⟩
  · intro ch hch hid
    rw [hchan, List.mem_map] at hch
    obtain ⟨c0, -, rfl⟩ := hch
    by_cases h0 : c0.Id = req.ChannelId
    · simp only [h0, if_true]
    · simp only [h0, if_false] at hid
  · obtain ⟨rows, enabledOnly, hrows, hget, hall⟩ := read_after_write marshal unmarshal urls E
      db req groupQuery qQuery enabledOnlyQuery hok (fun h => absurd h hlen)
    refine ⟨rows, enabledOnly, hrows, hget, fun r hr hC => ?_⟩
    obtain ⟨item, hitem, he⟩ := hall r hr hC
    simp only [hlen, if_false] at he
    obtain ⟨h1, -, h3⟩ := channelEntry_remap urls (controller.decodeMapping unmarshal none) r
    exact ⟨item, hitem, _, he, h1, h3 (Or.inl (by simp [controller.decodeMapping]))⟩

/-- Witness of C11: after channel 1 is given the remap `gpt-x` to `gpt-x-new`, its row for
`gpt-x` is reported with the new name. -/
theorem remap_write_then_read_witness :
    ∃ resp,
      controller.GetMappings sampleUnmarshal [] 1
        (controller.UpdateChannelMapping sampleMarshal routingStore (.ok remapPayload)).db
        "" "" "" = .ok resp ∧
      ∃ item ∈ resp.Items, ∃ e ∈ item.Channels,
        e.ChannelId = 1 ∧ e.UpstreamModel = "gpt-x-new" ∧ e.MappingApplied = true := by
  obtain ⟨rows, enabledOnly, hrows, hget, hall⟩ := remap_write_then_read sampleMarshal
    sampleUnmarshal [] 1 routingStore remapPayload "" "" "" (by decide) (by decide)
    (fun _ key => by
      rw [show controller.decodeMapping sampleUnmarshal
          (some (sampleMarshal (controller.retainedEntries remapPayload.Mappings)))
        = controller.retainedEntries remapPayload.Mappings from by decide])
  have hrows' : rows = model.rowsOf (model.GetMappingRows 1
      (controller.UpdateChannelMapping sampleMarshal routingStore (.ok remapPayload)).db
      (TrimSpace "") enabledOnly (TrimSpace "")) := by
    rw [hrows]
    rfl
  have hr : ({ GroupName := "default", Model := "gpt-x", ChannelId := 1, Enabled := true,
               Priority := some 10, Weight := 3, Tag := none, ChannelName := "one",
               ChannelType := 1, ChannelStatus := 1, BaseURL := none,
               ModelMapping := some "gpt-x:gpt-x-new,gpt-z:gpt-z-new" } : model.MappingRow)
      ∈ rows := by
    rw [hrows']
    cases enabledOnly <;> decide
  obtain ⟨item, hitem, e, he, hid, happ, -⟩ := hall _ hr rfl
  exact ⟨_, hget, item, hitem, e, he, hid, happ "gpt-x" "gpt-x-new" (by decide) rfl⟩

/-- Witness of C12: a payload whose only pair has an empty upstream name clears the
remap of channel 1, whose row for `gpt-x` is then reported unmapped. -/
theorem empty_remap_clears_witness :
    (controller.UpdateChannelMapping sampleMarshal routingStore (.ok clearingPayload)).writes
      = [(1, none)] ∧
    ∃ resp,
      controller.GetMappings sampleUnmarshal [] 1
        (controller.UpdateChannelMapping sampleMarshal routingStore (.ok clearingPayload)).db
        "" "" "" = .ok resp ∧
      ∃ item ∈ resp.Items, ∃ e ∈ item.Channels,
        e.ChannelId = 1 ∧ e.UpstreamModel = "gpt-x" ∧ e.MappingApplied = false := by
  obtain ⟨-, hwrites, -, rows, enabledOnly, hrows, hget, hall⟩ := empty_remap_clears
    sampleMarshal sampleUnmarshal [] 1 routingStore clearingPayload "" "" "" (by decide)
    (by decide)
  have hrows' : rows = model.rowsOf (model.GetMappingRows 1
      (controller.UpdateChannelMapping sampleMarshal routingStore (.ok clearingPayload)).db
      (TrimSpace "") enabledOnly (TrimSpace "")) := by
    rw [hrows]
    rfl
  have hr : ({ GroupName := "default", Model := "gpt-x", ChannelId := 1, Enabled := true,
               Priority := some 10, Weight := 3, Tag := none, ChannelName := "one",
               ChannelType := 1, ChannelStatus := 1, BaseURL := none,
               ModelMapping := none } : model.MappingRow)
      ∈ rows := by
    rw [hrows']
    cases enabledOnly <;> decide
  obtain ⟨item, hitem, e, he, hid, hup, happ⟩ := hall _ hr rfl
  exact ⟨hwrites, _, hget, item, hitem, e, he, hid, hup, happ⟩

/-! ## The two copies of the quota formula -/

/-- When the logged quota equals the pre-consumed amount, the common shape of the
post-charge routines makes no call that mutates a quota, whatever the ledger answers. -/
theorem postCharge_shape_settled (cfg : Settings) (env : Env) (relayInfo : RelayInfo)
    (counters : List Event) (row : RecordConsumeLogParams)
    (hc4 : userQuotaCalls counters = []) (hc5 : tokenQuotaCalls counters = [])
    (hq : row.Quota = relayInfo.FinalPreConsumedQuota) :
    userQuotaCalls (counters
        ++ service.deltaLog env (row.Quota - relayInfo.FinalPreConsumedQuota) row.Quota
            relayInfo.FinalPreConsumedQuota
        ++ service.reconcile cfg env relayInfo (row.Quota - relayInfo.FinalPreConsumedQuota)
        ++ [Event.RecordConsumeLog relayInfo.UserId row]) = [] ∧
    tokenQuotaCalls (counters
        ++ service.deltaLog env (row.Quota - relayInfo.FinalPreConsumedQuota) row.Quota
            relayInfo.FinalPreConsumedQuota
        ++ service.reconcile cfg env relayInfo (row.Quota - relayInfo.FinalPreConsumedQuota)
        ++ [Event.RecordConsumeLog relayInfo.UserId row]) = [] := by
  obtain ⟨-, -, -, d4, d5⟩ := deltaLog_inert env
    (row.Quota - relayInfo.FinalPreConsumedQuota) row.Quota relayInfo.FinalPreConsumedQuota
    relayInfo.UserId relayInfo.TokenId
  have hz : row.Quota - relayInfo.FinalPreConsumedQuota = 0 := by omega
  rw [hz] at d4 d5
  simp [hz, userQuotaCalls_append, tokenQuotaCalls_append, hc4, hc5, d4, d5, reconcile_zero,
    userQuotaCalls_cons, tokenQuotaCalls_cons, userQuotaCalls_nil, tokenQuotaCalls_nil,
    Event.isUserQuotaCall, Event.isTokenQuotaCall]

/-- C26: `helper.calcQuotaFromTokens` and `service.calcQuotaFromTokens` return the same
value for every token count and price; hence a request pre-charged
`helper.calcQuotaFromTokens` of a token estimate whose actual total equals that
estimate is logged with that very quota by `PostClaudeConsumeQuota` and
`PostAudioConsumeQuota`: the delta is 0 and no call mutates a quota. -/
theorem calcQuotaFromTokens_agree (cfg : Settings) (env : Env) (ctx : Context)
    (relayInfo : RelayInfo) (usage : Usage) (extraContent : String) :
    (∀ (tokens : Int) (price : ℚ),
      helper.calcQuotaFromTokens cfg tokens price
        = service.calcQuotaFromTokens cfg tokens price) ∧
    (relayInfo.FinalPreConsumedQuota
        = helper.calcQuotaFromTokens cfg (claudeTotalTokens usage)
            relayInfo.PriceData.ModelPrice →
      (∃ row, logRows (service.PostClaudeConsumeQuota cfg env ctx relayInfo usage) = [row] ∧
        row.Quota - relayInfo.FinalPreConsumedQuota = 0) ∧
      userQuotaCalls (service.PostClaudeConsumeQuota cfg env ctx relayInfo usage) = [] ∧
      tokenQuotaCalls (service.PostClaudeConsumeQuota cfg env ctx relayInfo usage) = []) ∧
    (relayInfo.FinalPreConsumedQuota
        = helper.calcQuotaFromTokens cfg (audioTotalTokens usage)
            relayInfo.PriceData.ModelPrice →
      (∃ row, logRows (service.PostAudioConsumeQuota cfg env ctx relayInfo usage
          extraContent) = [row] ∧
        row.Quota - relayInfo.FinalPreConsumedQuota = 0) ∧
      userQuotaCalls (service.PostAudioConsumeQuota cfg env ctx relayInfo usage
        extraContent) = [] ∧
      tokenQuotaCalls (service.PostAudioConsumeQuota cfg env ctx relayInfo usage
        extraContent) = []) := by
  have hsame : ∀ (tokens : Int) (price : ℚ),
      helper.calcQuotaFromTokens cfg tokens price
        = service.calcQuotaFromTokens cfg tokens price := fun _ _ => rfl
  have hzero : ∀ (T : Int) (price : ℚ),
      (if T = 0 then 0 else service.calcQuotaFromTokens cfg T price)
        = helper.calcQuotaFromTokens cfg T price := by
    intro T price
    split_ifs with h
    · subst h
      simp [helper.calcQuotaFromTokens]
    · rfl
  refine ⟨hsame, fun hp => ?_, fun hp => ?_⟩
  · obtain ⟨counters, row, htr, hq, -, -, c3, c4, c5⟩ :=
      PostClaudeConsumeQuota_trace cfg env ctx relayInfo usage
    have hq2 : row.Quota = relayInfo.FinalPreConsumedQuota := by
      rw [hq, hp]
      exact hzero _ _
    rw [htr]
    refine ⟨⟨row, postCharge_shape_logRows cfg env relayInfo counters row c3, by omega⟩, ?_⟩
    exact postCharge_shape_settled cfg env relayInfo counters row c4 c5 hq2
  · obtain ⟨counters, row, htr, hq, -, -, c3, c4, c5⟩ :=
      PostAudioConsumeQuota_trace cfg env ctx relayInfo usage extraContent
    have hq2 : row.Quota = relayInfo.FinalPreConsumedQuota := by
      rw [hq, hp]
      exact hzero _ _
    rw [htr]
    refine ⟨⟨row, postCharge_shape_logRows cfg env relayInfo counters row c3, by omega⟩, ?_⟩
    exact postCharge_shape_settled cfg env relayInfo counters row c4 c5 hq2

/-- Witness of C26: 150 tokens at price 1 after a pre-charge of 75, the quota of 150
tokens: the logged quota is the pre-charge and no call mutates a quota. -/
theorem calcQuotaFromTokens_agree_witness :
    settledInfo.FinalPreConsumedQuota
      = helper.calcQuotaFromTokens sampleSettings (claudeTotalTokens sampleUsage)
          settledInfo.PriceData.ModelPrice ∧
    (∃ row, logRows (service.PostClaudeConsumeQuota sampleSettings sampleEnv sampleCtx
        settledInfo sampleUsage) = [row] ∧
      row.Quota - settledInfo.FinalPreConsumedQuota = 0) ∧
    userQuotaCalls (service.PostClaudeConsumeQuota sampleSettings sampleEnv sampleCtx
      settledInfo sampleUsage) = [] ∧
    tokenQuotaCalls (service.PostClaudeConsumeQuota sampleSettings sampleEnv sampleCtx
      settledInfo sampleUsage) = [] :=
  have hp : settledInfo.FinalPreConsumedQuota
      = helper.calcQuotaFromTokens sampleSettings (claudeTotalTokens sampleUsage)
          settledInfo.PriceData.ModelPrice := by
    norm_num [helper.calcQuotaFromTokens, claudeTotalTokens, sampleUsage, settledInfo,
      sampleInfo, samplePrice, sampleSettings, mathRound]
  ⟨hp, (calcQuotaFromTokens_agree sampleSettings sampleEnv sampleCtx settledInfo sampleUsage
    "").2.1 hp⟩

/-! ## The free-model setting of `ModelPriceHelper` -/

/-- The quota formula reads only the scale factor of the settings. -/
theorem helper_calcQuotaFromTokens_flag (cfg : Settings) (flag : Bool) (tokens : Int)
    (price : ℚ) :
    helper.calcQuotaFromTokens { cfg with EnableFreeModelPreConsume := flag } tokens price
      = helper.calcQuotaFromTokens cfg tokens price := rfl

/-- C24: the outcome of `ModelPriceHelper` (the price data or error, the relay info it
leaves and its events) is the same with `EnableFreeModelPreConsume` on and off, for
every model, price, `promptTokens` and `maxTokens`; and whenever the returned price is
0, `QuotaToPreConsume = 0` and `FreeModel = true`. -/
theorem ModelPriceHelper_flag_irrelevant (cfg : Settings) (env : Env) (c : Context)
    (info : RelayInfo) (promptTokens : Int) (meta : TokenCountMeta) :
    helper.ModelPriceHelper { cfg with EnableFreeModelPreConsume := true } env c info
        promptTokens meta
      = helper.ModelPriceHelper { cfg with EnableFreeModelPreConsume := false } env c info
        promptTokens meta ∧
    (∀ priceData, (helper.ModelPriceHelper cfg env c info promptTokens meta).result
        = .ok priceData → priceData.ModelPrice = 0 →
      priceData.QuotaToPreConsume = 0 ∧ priceData.FreeModel = true) := by
  constructor
  · unfold helper.ModelPriceHelper helper.HandleGroupRatio
    simp only [helper_calcQuotaFromTokens_flag]
    cases hg : c.auto_group <;>
      cases hl : (env.GetModelPricePer1M info.OriginModelName).2 <;>
      cases ha : info.UserSetting.AcceptUnsetRatioModel <;>
      simp [hl, ha, helper_calcQuotaFromTokens_zero_price] <;>
      by_cases hz : (env.GetModelPricePer1M info.OriginModelName).1 = 0 <;>
      simp [hz, helper_calcQuotaFromTokens_zero_price]
  · intro priceData h hp
    unfold helper.ModelPriceHelper helper.HandleGroupRatio at h
    cases hg : c.auto_group <;>
      cases hl : (env.GetModelPricePer1M info.OriginModelName).2 <;>
      cases ha : info.UserSetting.AcceptUnsetRatioModel <;>
      cases he : cfg.EnableFreeModelPreConsume <;>
      simp [hg, hl, ha, he] at h <;>
      subst h <;>
      simp at hp <;>
      simp [hp, helper_calcQuotaFromTokens_zero_price]

/-- Witness of C24: the unpriced model of a user who accepts unpriced models is
pre-charged nothing and flagged free. -/
theorem ModelPriceHelper_flag_irrelevant_witness :
    ∃ priceData,
      (helper.ModelPriceHelper sampleSettings sampleEnv sampleCtx unpricedInfo 100 ⟨50⟩).result
        = .ok priceData ∧ priceData.QuotaToPreConsume = 0 ∧ priceData.FreeModel = true := by
  cases hr : (helper.ModelPriceHelper sampleSettings sampleEnv sampleCtx unpricedInfo 100
      ⟨50⟩).result with
  | error e =>
    simp [helper.ModelPriceHelper, helper.HandleGroupRatio, sampleEnv, unpricedInfo, sampleInfo,
      sampleCtx] at hr
  | ok priceData =>
    have hp : priceData.ModelPrice = 0 := by
      simp [helper.ModelPriceHelper, helper.HandleGroupRatio, sampleEnv, unpricedInfo,
        sampleInfo, sampleCtx] at hr
      subst hr
      rfl
    exact ⟨priceData, rfl, (ModelPriceHelper_flag_irrelevant sampleSettings sampleEnv sampleCtx
      unpricedInfo 100 ⟨50⟩).2 priceData hr hp⟩

/-! ## Sign and monotonicity of the quota formula -/

/-- On a non-negative argument `math.Round` is the floor of the argument plus one
half. -/
theorem mathRound_of_nonneg (x : ℚ) (hx : 0 ≤ x) : mathRound x = Int.floor (x + 1 / 2) := by
  simp [mathRound, hx]

/-- The quota formula with a non-negative scale factor: the value on positive tokens
and price. -/
theorem service_calcQuotaFromTokens_pos (cfg : Settings) (tokens : Int) (price : ℚ)
    (hQ : 0 ≤ cfg.QuotaPerUnit) (ht : 0 < tokens) (hp : 0 < price) :
    service.calcQuotaFromTokens cfg tokens price
      = Int.floor ((tokens : ℚ) * price / 1000000 * cfg.QuotaPerUnit + 1 / 2) := by
  have hn : ¬ (tokens ≤ 0 ∨ price ≤ 0) := by
    rintro (h | h)
    · omega
    · exact absurd hp (not_lt.mpr h)
  have ht2 : (0 : ℚ) < (tokens : ℚ) := by exact_mod_cast ht
  have hx : (0 : ℚ) ≤ (tokens : ℚ) * price / 1000000 * cfg.QuotaPerUnit := by positivity
  simp only [service.calcQuotaFromTokens, if_neg hn]
  exact mathRound_of_nonneg _ hx

/-- The quota formula with a non-negative scale factor is never negative. -/
theorem service_calcQuotaFromTokens_nonneg (cfg : Settings) (tokens : Int) (price : ℚ)
    (hQ : 0 ≤ cfg.QuotaPerUnit) : 0 ≤ service.calcQuotaFromTokens cfg tokens price := by
  by_cases hn : tokens ≤ 0 ∨ price ≤ 0
  · simp [service.calcQuotaFromTokens, hn]
  · have ht : 0 < tokens := by
      by_contra h
      exact hn (Or.inl (by omega))
    have hp : 0 < price := by
      by_contra h
      exact hn (Or.inr (not_lt.mp h))
    rw [service_calcQuotaFromTokens_pos cfg tokens price hQ ht hp]
    have ht2 : (0 : ℚ) < (tokens : ℚ) := by exact_mod_cast ht
    have hx : (0 : ℚ) ≤ (tokens : ℚ) * price / 1000000 * cfg.QuotaPerUnit := by positivity
    apply Int.floor_nonneg.mpr
    linarith

/-- The quota formula with a non-negative scale factor is monotone in the token count
and in the price. -/
theorem service_calcQuotaFromTokens_mono (cfg : Settings) (t1 t2 : Int) (p1 p2 : ℚ)
    (hQ : 0 ≤ cfg.QuotaPerUnit) (ht : t1 ≤ t2) (hp : p1 ≤ p2) :
    service.calcQuotaFromTokens cfg t1 p1 ≤ service.calcQuotaFromTokens cfg t2 p2 := by
  by_cases hn : t1 ≤ 0 ∨ p1 ≤ 0
  · have h0 : service.calcQuotaFromTokens cfg t1 p1 = 0 := by
      simp [service.calcQuotaFromTokens, hn]
    rw [h0]
    exact service_calcQuotaFromTokens_nonneg cfg t2 p2 hQ
  · have ht1 : 0 < t1 := by
      by_contra h
      exact hn (Or.inl (by omega))
    have hp1 : 0 < p1 := by
      by_contra h
      exact hn (Or.inr (not_lt.mp h))
    have ht2 : 0 < t2 := by omega
    have hp2 : 0 < p2 := lt_of_lt_of_le hp1 hp
    rw [service_calcQuotaFromTokens_pos cfg t1 p1 hQ ht1 hp1,
      service_calcQuotaFromTokens_pos cfg t2 p2 hQ ht2 hp2]
    apply Int.floor_mono
    have a1 : (0 : ℚ) < (t1 : ℚ) := by exact_mod_cast ht1
    have a2 : (t1 : ℚ) ≤ (t2 : ℚ) := by exact_mod_cast ht
    have hmul : (t1 : ℚ) * p1 ≤ (t2 : ℚ) * p2 :=
      mul_le_mul a2 hp (le_of_lt hp1) (le_trans (le_of_lt a1) a2)
    have hdiv : (t1 : ℚ) * p1 / 1000000 ≤ (t2 : ℚ) * p2 / 1000000 :=
      div_le_div_of_nonneg_right hmul (by norm_num)
    have := mul_le_mul_of_nonneg_right hdiv hQ
    linarith

/-! ## An error of `PostConsumeQuota` -/

/-- C25, refuted as stated: with a token ledger that refuses every mutation, the
supplementary charge of 40 returns the error of the token ledger after the user quota
has been debited 40; the token quota is unchanged and no notification is
dispatched. -/
theorem PostConsumeQuota_partial_debit :
    (service.PostConsumeQuota sampleSettings failingTokenEnv sampleInfo 40 250 true).2
      = some "database is locked" ∧
    userQuotaDebit 7
      (service.PostConsumeQuota sampleSettings failingTokenEnv sampleInfo 40 250 true).1 = 40 ∧
    tokenQuotaDebit 3
      (service.PostConsumeQuota sampleSettings failingTokenEnv sampleInfo 40 250 true).1 = 0 ∧
    notifications
      (service.PostConsumeQuota sampleSettings failingTokenEnv sampleInfo 40 250 true).1 = [] := by
  decide

/-- C25, amended: whenever `PostConsumeQuota` returns an error, no notification has been
dispatched and the token quota is unchanged. When the error is that of the user-quota
call, the user quota is unchanged and no token-quota call is made. Otherwise the
user-quota call has succeeded, the request is not playground, the error is that of the
token-quota call, and the user quota stays debited by `quota` (credited by `-quota` when
`quota ≤ 0`): nothing is rolled back. -/
theorem PostConsumeQuota_on_error (cfg : Settings) (env : Env) (relayInfo : RelayInfo)
    (quota pre : Int) (sendEmail : Bool) (e : String)
    (he : (service.PostConsumeQuota cfg env relayInfo quota pre sendEmail).2 = some e) :
    notifications (service.PostConsumeQuota cfg env relayInfo quota pre sendEmail).1 = [] ∧
    tokenQuotaDebit relayInfo.TokenId
      (service.PostConsumeQuota cfg env relayInfo quota pre sendEmail).1 = 0 ∧
    (((if quota > 0 then env.DecreaseUserQuota relayInfo.UserId quota
        else env.IncreaseUserQuota relayInfo.UserId (-quota) false) = some e ∧
      userQuotaDebit relayInfo.UserId
        (service.PostConsumeQuota cfg env relayInfo quota pre sendEmail).1 = 0 ∧
      tokenQuotaCalls (service.PostConsumeQuota cfg env relayInfo quota pre sendEmail).1 = []) ∨
     ((if quota > 0 then env.DecreaseUserQuota relayInfo.UserId quota
        else env.IncreaseUserQuota relayInfo.UserId (-quota) false) = none ∧
      relayInfo.IsPlayground = false ∧
      (if quota > 0 then env.DecreaseTokenQuota relayInfo.TokenId relayInfo.TokenKey quota
        else env.IncreaseTokenQuota relayInfo.TokenId relayInfo.TokenKey (-quota)) = some e ∧
      userQuotaDebit relayInfo.UserId
        (service.PostConsumeQuota cfg env relayInfo quota pre sendEmail).1 = quota)) := by
  unfold service.PostConsumeQuota at he ⊢
  cases hd : env.DecreaseUserQuota relayInfo.UserId quota <;>
    cases hi : env.IncreaseUserQuota relayInfo.UserId (-quota) false <;>
    cases hdt : env.DecreaseTokenQuota relayInfo.TokenId relayInfo.TokenKey quota <;>
    cases hit : env.IncreaseTokenQuota relayInfo.TokenId relayInfo.TokenKey (-quota) <;>
    by_cases hq : quota > 0 <;> cases hp : relayInfo.IsPlayground <;>
    simp [hd, hi, hdt, hit, hq, hp] at he ⊢ <;>
    simp [he, notifications, userQuotaDebit, tokenQuotaDebit, tokenQuotaCalls,
      Event.isNotify, Event.userDebit, Event.tokenDebit, Event.isTokenQuotaCall]

/-- Witness of the amended C25: the supplementary charge of 40 against a token ledger
that refuses every mutation. -/
theorem PostConsumeQuota_on_error_witness :
    notifications
      (service.PostConsumeQuota sampleSettings failingTokenEnv sampleInfo 40 250 true).1 = [] ∧
    tokenQuotaDebit sampleInfo.TokenId
      (service.PostConsumeQuota sampleSettings failingTokenEnv sampleInfo 40 250 true).1 = 0 :=
  ⟨(PostConsumeQuota_on_error sampleSettings failingTokenEnv sampleInfo 40 250 true
      "database is locked" (by decide)).1,
    (PostConsumeQuota_on_error sampleSettings failingTokenEnv sampleInfo 40 250 true
      "database is locked" (by decide)).2.1⟩

/-! ## The payloads `UpdateChannelMapping` rejects -/

/-- An entry read from a map is an entry of the map. -/
theorem mem_of_lookup_some (key value : String) :
    ∀ mapping : List (String × String), mapping.lookup key = some value →
      (key, value) ∈ mapping := by
  intro mapping
  induction mapping with
  | nil => intro h; simp at h
  | cons entry rest ih =>
    intro h
    obtain ⟨k, v⟩ := entry
    by_cases hk : key = k
    · subst hk
      simp [List.lookup] at h
      simp [h]
    · have hb : (key == k) = false := by simpa using hk
      simp only [List.lookup, hb] at h
      exact List.mem_cons_of_mem _ (ih h)

/-- C28: on a decoded payload `UpdateChannelMapping` rejects before any statement (it
makes no `UpdateChannelModelMapping` call) if and only if `channel_id = 0` or two retained
pairs (model and upstream name both non-empty after trimming) have the same trimmed
model; the rejection is `invalid channel_id` or `duplicate model mapping`. Otherwise it
issues the one statement that stores, on the channels of that id, the rendering of the
map whose entries are the retained pairs (trimmed model, trimmed upstream name) in
payload order, or NULL when no pair is retained; that map sends the trimmed model of
each retained pair to its trimmed upstream name and has no other key; and with a store
that applies the statement the answer is the success body. -/
theorem UpdateChannelMapping_rejects_iff (marshal : List (String × String) → String)
    (db : model.Store) (req : controller.UpdateChannelMappingRequest) :
    ((controller.UpdateChannelMapping marshal db (.ok req)).writes = [] ↔
      (req.ChannelId = 0 ∨ ¬ ((controller.retainedEntries req.Mappings).map Prod.fst).Nodup)) ∧
    (req.ChannelId = 0 ∨ ¬ ((controller.retainedEntries req.Mappings).map Prod.fst).Nodup →
      ((controller.UpdateChannelMapping marshal db (.ok req)).response
          = controller.Response.ApiError "invalid channel_id" ∨
        (controller.UpdateChannelMapping marshal db (.ok req)).response
          = controller.Response.ApiError "duplicate model mapping") ∧
      (controller.UpdateChannelMapping marshal db (.ok req)).db = db) ∧
    (¬ (req.ChannelId = 0 ∨ ¬ ((controller.retainedEntries req.Mappings).map Prod.fst).Nodup) →
      (controller.UpdateChannelMapping marshal db (.ok req)).writes
        = [(req.ChannelId,
            if (controller.retainedEntries req.Mappings).length > 0
            then some (marshal (controller.retainedEntries req.Mappings)) else none)] ∧
      (∀ pair ∈ req.Mappings, TrimSpace pair.Model ≠ "" → TrimSpace pair.UpstreamModel ≠ "" →
        (controller.retainedEntries req.Mappings).lookup (TrimSpace pair.Model)
          = some (TrimSpace pair.UpstreamModel)) ∧
      (∀ key value, (controller.retainedEntries req.Mappings).lookup key = some value →
        ∃ pair ∈ req.Mappings, TrimSpace pair.Model ≠ "" ∧ TrimSpace pair.UpstreamModel ≠ "" ∧
          key = TrimSpace pair.Model ∧ value = TrimSpace pair.UpstreamModel) ∧
      (db.Error = none →
        (controller.UpdateChannelMapping marshal db (.ok req)).response
          = controller.Response.Success ∧
        (controller.UpdateChannelMapping marshal db (.ok req)).db.channels
          = db.channels.map (fun ch =>
              if ch.Id = req.ChannelId then
                { ch with ModelMapping :=
                    if (controller.retainedEntries req.Mappings).length > 0
                    then some (marshal (controller.retainedEntries req.Mappings)) else none }
              else ch))) := by
  have hb := buildMapping_eq req.Mappings [] (by simp)
  simp only [List.map_nil, List.nil_append] at hb
  refine ⟨?_, fun h => ?_, fun h => ?_⟩
  · by_cases hc : req.ChannelId = 0
    · simp [controller.UpdateChannelMapping, hc]
    · by_cases hdup : ((controller.retainedEntries req.Mappings).map Prod.fst).Nodup
      · cases he : db.Error <;>
          simp [controller.UpdateChannelMapping, model.UpdateChannelModelMapping, hc, hb,
            hdup, he]
      · simp [controller.UpdateChannelMapping, hc, hb, hdup]
  · by_cases hc : req.ChannelId = 0
    · simp [controller.UpdateChannelMapping, hc]
    · have hdup : ¬ ((controller.retainedEntries req.Mappings).map Prod.fst).Nodup := by
        rcases h with h | h
        · exact absurd h hc
        · exact h
      simp [controller.UpdateChannelMapping, hc, hb, hdup]
  · have hc : req.ChannelId ≠ 0 := fun h0 => h (Or.inl h0)
    have hdup : ((controller.retainedEntries req.Mappings).map Prod.fst).Nodup := by
      by_contra hn
      exact h (Or.inr hn)
    refine ⟨?_, ?_, ?_, ?_⟩
    · cases he : db.Error <;>
        simp [controller.UpdateChannelMapping, model.UpdateChannelModelMapping, hc, hb,
          hdup, he]
    · intro pair hp h1 h2
      apply lookup_of_mem_nodup _ _ _ hdup
      unfold controller.retainedEntries
      simp only [List.mem_map, List.mem_filter, decide_eq_true_eq]
      exact ⟨pair, ⟨hp, h1, h2⟩, rfl⟩
    · intro key value hl
      have hmem : (key, value) ∈ controller.retainedEntries req.Mappings :=
        mem_of_lookup_some key value _ hl
      unfold controller.retainedEntries at hmem
      simp only [List.mem_map, List.mem_filter, decide_eq_true_eq, Prod.mk.injEq] at hmem
      obtain ⟨pair, ⟨hp, h1, h2⟩, rfl, rfl⟩ := hmem
      exact ⟨pair, hp, h1, h2, rfl, rfl⟩
    · intro he
      simp [controller.UpdateChannelMapping, model.UpdateChannelModelMapping, hc, hb, hdup, he]

/-- Witness of C28: the payload with the pairs `gpt-x` to `gpt-x-new` and `gpt-z` to
`gpt-z-new` for channel 1 issues the one statement that stores both entries. -/
theorem UpdateChannelMapping_rejects_iff_witness :
    (controller.UpdateChannelMapping sampleMarshal routingStore (.ok remapPayload)).writes
      = [(1, some "gpt-x:gpt-x-new,gpt-z:gpt-z-new")] ∧
    (controller.UpdateChannelMapping sampleMarshal routingStore (.ok remapPayload)).response
      = controller.Response.Success := by
  have h := (UpdateChannelMapping_rejects_iff sampleMarshal routingStore remapPayload).2.2
    (by decide)
  exact ⟨h.1.trans (by decide), (h.2.2.2 rfl).1⟩

/-! ## The keys of the items of `GetMappings` -/

/-- C23, the code at the failing input: group `a` reaches model `b||c` through channel 1
and group `a||b` reaches model `c` through channel 2. `GetMappings` answers the single item
of group `a` and model `b||c` with the entries of both channels: the entry of channel 2
comes from a row of group `a||b` and model `c`. -/
theorem GetMappings_mixes_colliding_pairs :
    (model.rowsOf (model.GetMappingRows 1 collidingStore "" true "")).map
        (fun r => (r.GroupName, r.Model, r.ChannelId))
      = [("a", "b||c", 1), ("a||b", "c", 2)] ∧
    (controller.GetMappings sampleUnmarshal [] 1 collidingStore "" "" "").toOption.map
        (fun resp => resp.Items.map (fun item =>
          (item.Group, item.Model, item.Channels.map (fun e => e.ChannelId))))
      = some [("a", "b||c", [1, 2])] := by
  decide

/-- C29, the code at the failing input: with the abilities of `collidingStore` the rows
come in the order (group `a`, model `b||c`, priority 1), (group `a||b`, model `c`,
priority 10), and `GetMappings` answers two groups and a single item whose channels have
the priorities 1 and then 10: within the item the priorities ascend. -/
theorem GetMappings_collision_breaks_order :
    (model.rowsOf (model.GetMappingRows 1 collidingStore "" true "")).map
        (fun r => (r.GroupName, r.Model, r.Priority))
      = [("a", "b||c", some 1), ("a||b", "c", some 10)] ∧
    (controller.GetMappings sampleUnmarshal [] 1 collidingStore "" "" "").toOption.map
        (fun resp => (resp.Groups, resp.Items.map (fun item =>
          (item.Group, item.Model, item.Channels.map (fun e => e.Priority)))))
      = some (["a", "a||b"], [("a", "b||c", [1, 10])]) := by
  decide

/-! ## The guards of the test proxy -/

/-- C21: `proxyModelTest` builds or sends a request only if the body was decoded,
`token_id` is not 0, the payload is not empty, the token lookup succeeds and the status of
the token is `TokenStatusEnabled`; the request it sends without a header setter is a POST
to the loopback address, on the local port and the target path. For every token whose
status is not enabled, no request at all is built or sent, and once `token_id` is not 0
and the payload is not empty the answer is the error `token is not enabled`. -/
theorem proxyModelTest_guards (env : controller.ProxyEnv) (targetPath : String)
    (headerSetter : Option (http.Request → Token → http.Request))
    (body : Except String controller.ModelTestProxyRequest) :
    ((controller.proxyModelTest env targetPath headerSetter body).built ≠ [] ∨
        (controller.proxyModelTest env targetPath headerSetter body).sent ≠ [] →
      ∃ req token, body = .ok req ∧ req.TokenId ≠ 0 ∧ req.Payload.length ≠ 0 ∧
        env.GetTokenById req.TokenId = .ok token ∧ token.Status = env.TokenStatusEnabled) ∧
    (∀ r ∈ (controller.proxyModelTest env targetPath none body).sent,
      r.Method = "POST" ∧
      r.URL = "http://127.0.0.1:" ++ controller.getLocalPort env ++ targetPath) ∧
    (∀ req token, body = .ok req → env.GetTokenById req.TokenId = .ok token →
      token.Status ≠ env.TokenStatusEnabled →
      (controller.proxyModelTest env targetPath headerSetter body).built = [] ∧
      (controller.proxyModelTest env targetPath headerSetter body).sent = [] ∧
      (req.TokenId ≠ 0 → req.Payload.length ≠ 0 →
        (controller.proxyModelTest env targetPath headerSetter body).reply
          = controller.ProxyReply.ApiError "token is not enabled")) := by
  refine ⟨?_, ?_, ?_⟩
  · intro h
    unfold controller.proxyModelTest at h
    cases body with
    | error e => simp at h
    | ok req =>
      by_cases hp : req.TokenId = 0 ∨ req.Payload.length = 0
      · simp [hp] at h
      · cases ht : env.GetTokenById req.TokenId with
        | error e => simp [hp, ht] at h
        | ok token =>
          by_cases hs : token.Status = env.TokenStatusEnabled
          · refine ⟨req, token, rfl, fun h0 => hp (Or.inl h0), fun h0 => hp (Or.inr h0), ht, hs⟩
          · simp [hp, ht, hs] at h
  · intro r hr
    unfold controller.proxyModelTest at hr
    cases body with
    | error e => simp at hr
    | ok req =>
      by_cases hp : req.TokenId = 0 ∨ req.Payload.length = 0
      · simp [hp] at hr
      · cases ht : env.GetTokenById req.TokenId with
        | error e => simp [hp, ht] at hr
        | ok token =>
          by_cases hs : token.Status = env.TokenStatusEnabled
          · simp only [hp, ht, hs, if_false, ne_eq, not_true_eq_false] at hr
            cases hn : env.NewRequestError "POST"
                ("http://127.0.0.1:" ++ controller.getLocalPort env ++ targetPath) with
            | some e => simp [hn] at hr
            | none =>
              simp only [hn] at hr
              split at hr <;>
                · simp only [List.mem_singleton] at hr
                  subst hr
                  exact ⟨rfl, rfl⟩
          · simp [hp, ht, hs] at hr
  · intro req token hb ht hs
    subst hb
    unfold controller.proxyModelTest
    by_cases hp : req.TokenId = 0 ∨ req.Payload.length = 0
    · refine ⟨by simp [hp], by simp [hp], fun h1 h2 => ?_⟩
      rcases hp with hp | hp
      · exact absurd hp h1
      · exact absurd hp h2
    · simp [hp, ht, hs]

/-- Witness of C21: the request through the disabled token 4 is answered
`token is not enabled` and nothing is built or sent; the request through the enabled
token 3 is sent to the loopback address. -/
theorem proxyModelTest_guards_witness :
    ((controller.proxyModelTest sampleProxyEnv "/v1/responses" none
        (.ok disabledTokenRequest)).built = [] ∧
      (controller.proxyModelTest sampleProxyEnv "/v1/responses" none
        (.ok disabledTokenRequest)).sent = [] ∧
      (controller.proxyModelTest sampleProxyEnv "/v1/responses" none
        (.ok disabledTokenRequest)).reply
        = controller.ProxyReply.ApiError "token is not enabled") ∧
    (controller.proxyModelTest sampleProxyEnv "/v1/responses" none
        (.ok enabledTokenRequest)).sent.map (fun r => r.URL)
      = ["http://127.0.0.1:3000/v1/responses"] := by
  have h := (proxyModelTest_guards sampleProxyEnv "/v1/responses" none
    (.ok disabledTokenRequest)).2.2 disabledTokenRequest
    { RemainQuota := 1000, UnlimitedQuota := false, Key := "xyz", Status := 2 } rfl rfl
    (by decide)
  exact ⟨⟨h.1, h.2.1, h.2.2 (by decide) (by decide)⟩, by decide⟩

/-! ## The header names of the test proxy -/

namespace http

/-- The case adjustment of one character in `canonicalLoop`. -/
theorem canonicalLoop_cons (upper : Bool) (c : Char) (cs : List Char) :
    canonicalLoop upper (c :: cs)
      = (if upper ∧ lowerLetters.contains c then toUpperASCII c
          else if !upper ∧ upperLetters.contains c then toLowerASCII c else c)
        :: canonicalLoop (decide ((if upper ∧ lowerLetters.contains c then toUpperASCII c
          else if !upper ∧ upperLetters.contains c then toLowerASCII c else c) = '-')) cs := rfl

theorem lookup_char_none (c : Char) :
    ∀ table : List (Char × Char), c ∉ table.map Prod.fst → table.lookup c = none := by
  intro table
  induction table with
  | nil => intro _; rfl
  | cons entry rest ih =>
    intro h
    obtain ⟨k, v⟩ := entry
    simp only [List.map_cons, List.mem_cons, not_or] at h
    have hb : (c == k) = false := by simpa using h.1
    simp only [List.lookup, hb]
    exact ih h.2

/-- A character is an upper-case letter, a lower-case letter, or one that the case
maps leave alone. -/
theorem letter_cases (c : Char) :
    c ∈ upperLetters ∨ c ∈ lowerLetters ∨
      (toLowerASCII c = c ∧ toUpperASCII c = c ∧ upperLetters.contains c = false ∧
        lowerLetters.contains c = false) := by
  by_cases hu : c ∈ upperLetters
  · exact Or.inl hu
  · by_cases hl : c ∈ lowerLetters
    · exact Or.inr (Or.inl hl)
    · refine Or.inr (Or.inr ⟨?_, ?_, by simpa using hu, by simpa using hl⟩)
      · have : (upperLetters.zip lowerLetters).lookup c = none :=
          lookup_char_none c _ (by
            have hz : (upperLetters.zip lowerLetters).map Prod.fst = upperLetters := by decide
            rw [hz]; exact hu)
        simp [toLowerASCII, this]
      · have : (lowerLetters.zip upperLetters).lookup c = none :=
          lookup_char_none c _ (by
            have hz : (lowerLetters.zip upperLetters).map Prod.fst = lowerLetters := by decide
            rw [hz]; exact hl)
        simp [toUpperASCII, this]

end http

namespace http

theorem adjust_lower (u : Bool) (c : Char) :
    toLowerASCII (if u ∧ lowerLetters.contains c then toUpperASCII c
      else if !u ∧ upperLetters.contains c then toLowerASCII c else c) = toLowerASCII c := by
  have hU : ∀ c ∈ upperLetters, ∀ u : Bool,
      toLowerASCII (if u ∧ lowerLetters.contains c then toUpperASCII c
        else if !u ∧ upperLetters.contains c then toLowerASCII c else c) = toLowerASCII c := by
    decide
  have hL : ∀ c ∈ lowerLetters, ∀ u : Bool,
      toLowerASCII (if u ∧ lowerLetters.contains c then toUpperASCII c
        else if !u ∧ upperLetters.contains c then toLowerASCII c else c) = toLowerASCII c := by
    decide
  rcases letter_cases c with h | h | ⟨h1, h2, h3, h4⟩
  · exact hU c h u
  · exact hL c h u
  · simp only [h3, h4, Bool.false_eq_true, and_false, if_false]

theorem valid_lower (c : Char) :
    validHeaderFieldByte (toLowerASCII c) = validHeaderFieldByte c := by
  have hU : ∀ c ∈ upperLetters,
      validHeaderFieldByte (toLowerASCII c) = validHeaderFieldByte c := by decide
  have hL : ∀ c ∈ lowerLetters,
      validHeaderFieldByte (toLowerASCII c) = validHeaderFieldByte c := by decide
  rcases letter_cases c with h | h | ⟨h1, h2, h3, h4⟩
  · exact hU c h
  · exact hL c h
  · rw [h1]

theorem adjust_of_lower (u : Bool) (c : Char) :
    (if u ∧ lowerLetters.contains (toLowerASCII c) then toUpperASCII (toLowerASCII c)
      else if !u ∧ upperLetters.contains (toLowerASCII c) then toLowerASCII (toLowerASCII c)
      else toLowerASCII c)
    = (if u ∧ lowerLetters.contains c then toUpperASCII c
      else if !u ∧ upperLetters.contains c then toLowerASCII c else c) := by
  have hU : ∀ c ∈ upperLetters, ∀ u : Bool,
      (if u ∧ lowerLetters.contains (toLowerASCII c) then toUpperASCII (toLowerASCII c)
        else if !u ∧ upperLetters.contains (toLowerASCII c) then toLowerASCII (toLowerASCII c)
        else toLowerASCII c)
      = (if u ∧ lowerLetters.contains c then toUpperASCII c
        else if !u ∧ upperLetters.contains c then toLowerASCII c else c) := by
    decide
  have hL : ∀ c ∈ lowerLetters, ∀ u : Bool,
      (if u ∧ lowerLetters.contains (toLowerASCII c) then toUpperASCII (toLowerASCII c)
        else if !u ∧ upperLetters.contains (toLowerASCII c) then toLowerASCII (toLowerASCII c)
        else toLowerASCII c)
      = (if u ∧ lowerLetters.contains c then toUpperASCII c
        else if !u ∧ upperLetters.contains c then toLowerASCII c else c) := by
    decide
  rcases letter_cases c with h | h | ⟨h1, h2, h3, h4⟩
  · exact hU c h u
  · exact hL c h u
  · simp only [h1, h3, h4, Bool.false_eq_true, and_false, if_false]

/-- The canonical form of a name has the letters of the name, up to case. -/
theorem canonicalLoop_lower (cs : List Char) :
    ∀ u : Bool, (canonicalLoop u cs).map toLowerASCII = cs.map toLowerASCII := by
  induction cs with
  | nil => intro u; rfl
  | cons c cs ih =>
    intro u
    rw [canonicalLoop_cons, List.map_cons, List.map_cons, ih, adjust_lower]

/-- The canonical form of a name depends on its letters only up to case. -/
theorem canonicalLoop_of_lower (cs : List Char) :
    ∀ u : Bool, canonicalLoop u (cs.map toLowerASCII) = canonicalLoop u cs := by
  induction cs with
  | nil => intro u; rfl
  | cons c cs ih =>
    intro u
    rw [List.map_cons, canonicalLoop_cons, canonicalLoop_cons, adjust_of_lower, ih]

theorem all_valid_lower (cs : List Char) :
    (cs.map toLowerASCII).all validHeaderFieldByte = cs.all validHeaderFieldByte := by
  induction cs with
  | nil => rfl
  | cons c cs ih => simp only [List.map_cons, List.all_cons, ih, valid_lower]

/-- The case-insensitive form of a header name: its characters with the ASCII letters
in lower case. -/
theorem CanonicalHeaderKey_eq_iff (key name : String)
    (hv : name.toList.all validHeaderFieldByte = true)
    (hc : canonicalLoop true name.toList = name.toList) :
    CanonicalHeaderKey key = name ↔
      key.toList.map toLowerASCII = name.toList.map toLowerASCII := by
  constructor
  · intro h
    unfold CanonicalHeaderKey at h
    split_ifs at h with hk
    · rw [← h]
      show _ = (canonicalLoop true key.toList).map toLowerASCII
      rw [canonicalLoop_lower]
    · rw [h]
  · intro h
    have hk : key.toList.all validHeaderFieldByte = true := by
      rw [← all_valid_lower, h, all_valid_lower]
      exact hv
    unfold CanonicalHeaderKey
    rw [if_pos hk, ← canonicalLoop_of_lower, h, canonicalLoop_of_lower, hc]
    rfl

end http

namespace http

theorem lookup_update (K k : String) (g : List String → List String) :
    ∀ h : Header,
      List.lookup K (h.map (fun entry => if entry.1 = k then (entry.1, g entry.2) else entry))
        = (List.lookup K h).map (fun vs => if K = k then g vs else vs) := by
  intro h
  induction h with
  | nil => rfl
  | cons entry rest ih =>
    obtain ⟨k1, vs⟩ := entry
    by_cases h2 : k1 = k
    · simp only [List.map_cons, h2, if_true]
      by_cases h1 : K = k
      · subst h1
        simp [List.lookup]
      · have hb : (K == k) = false := by simpa using h1
        simp only [List.lookup, hb]
        exact ih
    · simp only [List.map_cons, h2, if_false]
      by_cases h1 : K = k1
      · have hne : ¬ K = k := fun h => h2 (h1 ▸ h)
        subst h1
        simp [List.lookup, hne]
      · have hb : (K == k1) = false := by simpa using h1
        simp only [List.lookup, hb]
        exact ih

theorem lookup_snoc (K k : String) (vs : List String) :
    ∀ h : Header, List.lookup K (h ++ [(k, vs)])
      = match List.lookup K h with
        | some ws => some ws
        | none => if K = k then some vs else none := by
  intro h
  induction h with
  | nil =>
    by_cases h1 : K = k
    · subst h1; simp [List.lookup]
    · have hb : (K == k) = false := by simpa using h1
      simp [List.lookup, hb, h1]
  | cons entry rest ih =>
    obtain ⟨k1, ws⟩ := entry
    by_cases h1 : K = k1
    · subst h1; simp [List.lookup]
    · have hb : (K == k1) = false := by simpa using h1
      simp only [List.cons_append, List.lookup, hb]
      exact ih

/-- What `Header.Add` leaves under each key. -/
theorem index_Add (h : Header) (key value K : String) :
    Header.index (Header.Add h key value) K
      = if K = CanonicalHeaderKey key then Header.index h K ++ [value]
        else Header.index h K := by
  simp only [Header.Add, Header.index]
  cases hl : List.lookup (CanonicalHeaderKey key) h with
  | some vs =>
    simp only [lookup_update K (CanonicalHeaderKey key) (fun ws => ws ++ [value]) h]
    by_cases hK : K = CanonicalHeaderKey key
    · subst hK
      simp [hl]
    · cases hl2 : List.lookup K h <;> simp [hK]
  | none =>
    simp only [lookup_snoc]
    by_cases hK : K = CanonicalHeaderKey key
    · subst hK
      simp [hl]
    · cases hl2 : List.lookup K h <;> simp [hK]

/-- What `Header.Set` leaves under each key. -/
theorem index_Set (h : Header) (key value K : String) :
    Header.index (Header.Set h key value) K
      = if K = CanonicalHeaderKey key then [value] else Header.index h K := by
  simp only [Header.Set, Header.index]
  cases hl : List.lookup (CanonicalHeaderKey key) h with
  | some vs =>
    simp only [lookup_update K (CanonicalHeaderKey key) (fun _ => [value]) h]
    by_cases hK : K = CanonicalHeaderKey key
    · subst hK
      simp [hl]
    · cases hl2 : List.lookup K h <;> simp [hK]
  | none =>
    simp only [lookup_snoc]
    by_cases hK : K = CanonicalHeaderKey key
    · subst hK
      simp [hl]
    · cases hl2 : List.lookup K h <;> simp [hK]

/-- What the inner loop of `copyResponseHeaders` leaves under each key. -/
theorem index_addAll (key K : String) (values : List String) :
    ∀ h : Header,
      Header.index (values.foldl (fun h1 value => Header.Add h1 key value) h) K
        = if K = CanonicalHeaderKey key then Header.index h K ++ values
          else Header.index h K := by
  induction values with
  | nil => intro h; simp
  | cons v vs ih =>
    intro h
    rw [List.foldl_cons, ih, index_Add]
    by_cases hK : K = CanonicalHeaderKey key <;> simp [hK]

/-- The canonical form of a name is the name up to the case of its ASCII letters. -/
theorem CanonicalHeaderKey_fold (key : String) :
    (CanonicalHeaderKey key).toList.map toLowerASCII = key.toList.map toLowerASCII := by
  unfold CanonicalHeaderKey
  split_ifs
  · show (canonicalLoop true key.toList).map toLowerASCII = _
    rw [canonicalLoop_lower]
  · rfl

end http

namespace controller

/-- What `copyResponseHeaders` leaves under each key: the values the writer had, then
the values of the upstream entries that are not hop-by-hop and whose canonical name is
the key, in the order of the visit. -/
theorem index_copyResponseHeaders (K : String) (upstream : http.Header) :
    ∀ client : http.Header,
      http.Header.index (copyResponseHeaders client upstream) K
        = http.Header.index client K
          ++ (upstream.filter (fun entry =>
                !isHopByHopHeader entry.1 && decide (http.CanonicalHeaderKey entry.1 = K))).flatMap
              Prod.snd := by
  induction upstream with
  | nil => intro client; simp [copyResponseHeaders]
  | cons entry rest ih =>
    intro client
    have hstep : copyResponseHeaders client (entry :: rest)
        = copyResponseHeaders (if isHopByHopHeader entry.1 then client
            else entry.2.foldl (fun h1 value => http.Header.Add h1 entry.1 value) client)
            rest := rfl
    rw [hstep, ih]
    by_cases hh : isHopByHopHeader entry.1 = true
    · simp [hh, List.filter_cons]
    · have hf : isHopByHopHeader entry.1 = false := by simpa using hh
      by_cases hK : K = http.CanonicalHeaderKey entry.1
      · subst hK
        simp [hf, List.filter_cons, http.index_addAll, List.flatMap_cons, List.append_assoc]
      · have hK2 : ¬ http.CanonicalHeaderKey entry.1 = K := fun h => hK h.symm
        simp [hf, List.filter_cons, http.index_addAll, hK, hK2]

end controller

namespace controller

/-- Function `isHopByHopHeader` answers true exactly on the names that are, up to the case of
their ASCII letters, among the listed hop-by-hop names. -/
theorem isHopByHopHeader_iff (key : String) :
    isHopByHopHeader key = true ↔
      ∃ name ∈ hopByHopNames, http.asciiFold key = http.asciiFold name := by
  have hcanon : isHopByHopHeader key = true ↔
      http.CanonicalHeaderKey key ∈ ["Connection", "Keep-Alive", "Proxy-Authenticate",
        "Proxy-Authorization", "Te", "Trailer", "Transfer-Encoding", "Upgrade",
        "Content-Length"] := by
    unfold isHopByHopHeader
    split <;> simp_all
  have hnames : ∀ name ∈ ["Connection", "Keep-Alive", "Proxy-Authenticate",
        "Proxy-Authorization", "Te", "Trailer", "Transfer-Encoding", "Upgrade",
        "Content-Length"],
      name.toList.all http.validHeaderFieldByte = true ∧
      http.canonicalLoop true name.toList = name.toList := by decide
  rw [hcanon]
  constructor
  · intro h
    have hk := (http.CanonicalHeaderKey_eq_iff key _ (hnames _ h).1 (hnames _ h).2).mp rfl
    simp only [List.mem_cons, List.mem_singleton, List.not_mem_nil, or_false] at h
    rcases h with h | h | h | h | h | h | h | h | h
    · exact ⟨"Connection", by decide, by rw [http.asciiFold, hk, h]; rfl⟩
    · exact ⟨"Keep-Alive", by decide, by rw [http.asciiFold, hk, h]; rfl⟩
    · exact ⟨"Proxy-Authenticate", by decide, by rw [http.asciiFold, hk, h]; rfl⟩
    · exact ⟨"Proxy-Authorization", by decide, by rw [http.asciiFold, hk, h]; rfl⟩
    · exact ⟨"TE", by decide, by rw [http.asciiFold, hk, h]; decide⟩
    · exact ⟨"Trailer", by decide, by rw [http.asciiFold, hk, h]; rfl⟩
    · exact ⟨"Transfer-Encoding", by decide, by rw [http.asciiFold, hk, h]; rfl⟩
    · exact ⟨"Upgrade", by decide, by rw [http.asciiFold, hk, h]; rfl⟩
    · exact ⟨"Content-Length", by decide, by rw [http.asciiFold, hk, h]; rfl⟩
  · rintro ⟨name, hn, hf⟩
    have hcn : ∀ name ∈ hopByHopNames, ∃ canon ∈ ["Connection", "Keep-Alive",
        "Proxy-Authenticate", "Proxy-Authorization", "Te", "Trailer", "Transfer-Encoding",
        "Upgrade", "Content-Length"], http.asciiFold name = http.asciiFold canon := by
      decide
    obtain ⟨canon, hc, hfc⟩ := hcn name hn
    have : http.CanonicalHeaderKey key = canon :=
      (http.CanonicalHeaderKey_eq_iff key canon (hnames _ hc).1 (hnames _ hc).2).mpr
        (by
          have := hf.trans hfc
          exact this)
    rw [this]
    exact hc

end controller

/-- The header of a streamed answer of `proxyModelTest` is `streamHeader` of the header of
the response writer at entry and of the header of the upstream response. -/
theorem proxyModelTest_stream_header (env : controller.ProxyEnv) (targetPath : String)
    (headerSetter : Option (http.Request → Token → http.Request))
    (body : Except String controller.ModelTestProxyRequest) (status : Int)
    (header : http.Header) (chunks : List String)
    (h : (controller.proxyModelTest env targetPath headerSetter body).reply
      = controller.ProxyReply.Stream status header chunks) :
    ∃ request resp, env.Do request = .ok resp ∧
      request ∈ (controller.proxyModelTest env targetPath headerSetter body).sent ∧
      header = controller.streamHeader env.clientHeader resp.Header := by
  unfold controller.proxyModelTest at h ⊢
  cases body with
  | error e => simp at h
  | ok req =>
    by_cases hp : req.TokenId = 0 ∨ req.Payload.length = 0
    · simp [hp] at h
    · cases ht : env.GetTokenById req.TokenId with
      | error e => simp [hp, ht] at h
      | ok token =>
        by_cases hs : token.Status = env.TokenStatusEnabled
        · simp only [hp, ht, hs, if_false, ne_eq, not_true_eq_false] at h ⊢
          cases hn : env.NewRequestError "POST"
              ("http://127.0.0.1:" ++ controller.getLocalPort env ++ targetPath) with
          | some e => simp [hn] at h
          | none =>
            simp only [hn] at h ⊢
            split at h
            · simp at h
            · rename_i resp hdo
              simp only [controller.ProxyReply.Stream.injEq] at h
              exact ⟨_, resp, hdo, by simp [hdo], h.2.1.symm⟩
        · simp [hp, ht, hs] at h

namespace controller

/-- In a map, the entries that a predicate on the key selects, when one key `k` is the
only one selected, are the one entry of that key. -/
theorem filter_single (p : String → Bool) (entry : String × List String) :
    ∀ h : http.Header, (h.map Prod.fst).Nodup → entry ∈ h → p entry.1 = true →
      (∀ other ∈ h, p other.1 = true → other.1 = entry.1) →
      h.filter (fun e => p e.1) = [entry] := by
  intro h
  induction h with
  | nil => intro _ hm; simp at hm
  | cons first rest ih =>
    intro hnd hm hp huniq
    simp only [List.map_cons, List.nodup_cons] at hnd
    rcases List.mem_cons.mp hm with heq | hrest
    · subst heq
      have hnone : rest.filter (fun e => p e.1) = [] := by
        rw [List.filter_eq_nil_iff]
        intro other ho hpo
        have := huniq other (List.mem_cons_of_mem _ ho) hpo
        exact hnd.1 (List.mem_map.mpr ⟨other, ho, this⟩)
      simp [List.filter_cons, hp, hnone]
    · have hne : first.1 ≠ entry.1 := by
        intro h1
        exact hnd.1 (h1 ▸ List.mem_map.mpr ⟨entry, hrest, rfl⟩)
      have hpf : p first.1 = false := by
        by_contra hc
        have : p first.1 = true := by simpa using hc
        exact hne (huniq first (List.mem_cons_self _ _) this)
      simp only [List.filter_cons, hpf, Bool.false_eq_true, if_false]
      exact ih hnd.2 hrest hp (fun other ho => huniq other (List.mem_cons_of_mem _ ho))

end controller

/-- C22: the header with which the test proxy starts to stream, for every header of the
response writer at entry and every upstream header, visited in any order. (1) A name is
skipped by the copy exactly when it is, up to the case of its ASCII letters, one of
Connection, Keep-Alive, Proxy-Authenticate, Proxy-Authorization, TE, Trailer,
Transfer-Encoding, Upgrade, Content-Length. (2) `X-Accel-Buffering` holds the single value
`no`. (3) Under every other key the header holds what the writer had, followed by the
values of the upstream fields that are not skipped and have that canonical name, in
their order. (4) Under a key that is one of the hop-by-hop names up to case, nothing of the
upstream is added. (5) An upstream field that is not hop-by-hop and not
`X-Accel-Buffering`, in an upstream map in which no other name has its canonical form,
has all its values under its canonical name, in their original order, after what the
writer had. -/
theorem streamHeader_spec (client upstream : http.Header) :
    (∀ key, controller.isHopByHopHeader key = true ↔
      ∃ name ∈ controller.hopByHopNames, http.asciiFold key = http.asciiFold name) ∧
    http.Header.index (controller.streamHeader client upstream) "X-Accel-Buffering" = ["no"] ∧
    (∀ K, K ≠ "X-Accel-Buffering" →
      http.Header.index (controller.streamHeader client upstream) K
        = http.Header.index client K
          ++ (upstream.filter (fun entry =>
                !controller.isHopByHopHeader entry.1 && decide (http.CanonicalHeaderKey entry.1 = K))).flatMap
              Prod.snd) ∧
    (∀ K, (∃ name ∈ controller.hopByHopNames, http.asciiFold K = http.asciiFold name) →
      http.Header.index (controller.streamHeader client upstream) K = http.Header.index client K) ∧
    (∀ entry ∈ upstream, (upstream.map Prod.fst).Nodup →
      (∀ other ∈ upstream, http.CanonicalHeaderKey other.1 = http.CanonicalHeaderKey entry.1 →
        other.1 = entry.1) →
      (¬ ∃ name ∈ controller.hopByHopNames, http.asciiFold entry.1 = http.asciiFold name) →
      http.CanonicalHeaderKey entry.1 ≠ "X-Accel-Buffering" →
      http.Header.index (controller.streamHeader client upstream) (http.CanonicalHeaderKey entry.1)
        = http.Header.index client (http.CanonicalHeaderKey entry.1) ++ entry.2) := by
  have hx : http.CanonicalHeaderKey "X-Accel-Buffering" = "X-Accel-Buffering" := by decide
  have hother : ∀ K, K ≠ "X-Accel-Buffering" →
      http.Header.index (controller.streamHeader client upstream) K
        = http.Header.index client K
          ++ (upstream.filter (fun entry =>
                !controller.isHopByHopHeader entry.1 && decide (http.CanonicalHeaderKey entry.1 = K))).flatMap
              Prod.snd := by
    intro K hK
    unfold controller.streamHeader
    rw [http.index_Set, hx, if_neg hK, controller.index_copyResponseHeaders]
  refine ⟨controller.isHopByHopHeader_iff, ?_, hother, ?_, ?_⟩
  · unfold controller.streamHeader
    rw [http.index_Set, hx, if_pos rfl]
  · rintro K ⟨name, hn, hf⟩
    have hK : K ≠ "X-Accel-Buffering" := by
      rintro rfl
      have hno : ∀ name ∈ controller.hopByHopNames,
          http.asciiFold "X-Accel-Buffering" ≠ http.asciiFold name := by decide
      exact hno name hn hf
    rw [hother K hK]
    have hnone : upstream.filter (fun entry =>
        !controller.isHopByHopHeader entry.1 && decide (http.CanonicalHeaderKey entry.1 = K)) = [] := by
      rw [List.filter_eq_nil_iff]
      intro entry _ hp
      simp only [Bool.and_eq_true, Bool.not_eq_true', decide_eq_true_eq] at hp
      obtain ⟨hnot, hcan⟩ := hp
      have hhop : controller.isHopByHopHeader entry.1 = true := by
        rw [controller.isHopByHopHeader_iff]
        refine ⟨name, hn, ?_⟩
        rw [← hf, ← hcan]
        exact (http.CanonicalHeaderKey_fold entry.1).symm
      rw [hhop] at hnot
      exact absurd hnot (by decide)
    rw [hnone]
    simp
  · intro entry hm hnd huniq hnot hK
    rw [hother _ hK]
    have hf : controller.isHopByHopHeader entry.1 = false := by
      cases hh : controller.isHopByHopHeader entry.1 with
      | false => rfl
      | true => exact absurd ((controller.isHopByHopHeader_iff entry.1).mp hh) hnot
    have hsingle := controller.filter_single
      (fun key => !controller.isHopByHopHeader key
        && decide (http.CanonicalHeaderKey key = http.CanonicalHeaderKey entry.1))
      entry upstream hnd hm (by simp [hf])
      (fun other ho hp => by
        simp only [Bool.and_eq_true, Bool.not_eq_true', decide_eq_true_eq] at hp
        exact huniq other ho hp.2)
    rw [hsingle]
    simp

/-- Witness of C22: the upstream header `sampleUpstreamHeader` streamed through a writer
with an empty header: both cookies arrive in their order, `X-Accel-Buffering` is `no`,
and nothing stands under `Connection`. -/
theorem streamHeader_spec_witness :
    http.Header.index (controller.streamHeader [] sampleUpstreamHeader) (http.CanonicalHeaderKey "Set-Cookie")
      = http.Header.index [] (http.CanonicalHeaderKey "Set-Cookie") ++ ["a=1", "b=2"] ∧
    http.Header.index (controller.streamHeader [] sampleUpstreamHeader) "Connection"
      = http.Header.index [] "Connection" ∧
    controller.streamHeader [] sampleUpstreamHeader
      = [("Content-Type", ["text/event-stream"]), ("Set-Cookie", ["a=1", "b=2"]),
         ("X-Accel-Buffering", ["no"])] :=
  ⟨(streamHeader_spec [] sampleUpstreamHeader).2.2.2.2 ("Set-Cookie", ["a=1", "b=2"])
      (by decide) (by decide) (by decide) (by decide) (by decide),
    (streamHeader_spec [] sampleUpstreamHeader).2.2.2.1 "Connection"
      ⟨"Connection", by decide, rfl⟩,
    by decide⟩

/-! ## The deletion of a user -/

/-- C30, the code at the failing input: an admin of role 10 deletes user 5 of role 1.
When the hard delete succeeds `DeleteUser` writes no body at all; when the hard delete
fails it writes `success = true` with an empty message. -/
theorem DeleteUser_success_on_failure :
    sampleUserEnv.HardDeleteUserById 5 = none ∧
    controller.DeleteUser sampleUserEnv "no_permission" (.ok 5) 10
      = { reply := none, deletes := [5] } ∧
    failingUserEnv.HardDeleteUserById 5 = some "database is locked" ∧
    controller.DeleteUser failingUserEnv "no_permission" (.ok 5) 10
      = { reply := some (controller.UserReply.JSON true ""), deletes := [5] } := by
  decide

/-! ## The arithmetic of the machine -/

/-- The binary logarithm of a positive rational between two consecutive powers of 2. -/
theorem log2_eq (x : ℚ) (k : Int) (hx : 0 < x) (h1 : (2 : ℚ) ^ k ≤ x)
    (h2 : x < (2 : ℚ) ^ (k + 1)) : Int.log 2 x = k := by
  apply le_antisymm
  · have := (Int.lt_zpow_iff_log_lt (b := 2) (by norm_num) hx).mp h2
    omega
  · exact (Int.zpow_le_iff_le_log (b := 2) (by norm_num) hx).mp h1

/-- The `float64` nearest to a positive rational whose binary exponent is `k`. -/
theorem nearest_pos (x : ℚ) (k : Int) (hx : 0 < x) (h1 : (2 : ℚ) ^ k ≤ x)
    (h2 : x < (2 : ℚ) ^ (k + 1)) :
    Float64.nearest x
      = if (2 : ℚ) ^ (1024 : Int)
            ≤ (Float64.roundHalfEven (x / (2 : ℚ) ^ (max (k - 52) (-1074))) : ℚ)
              * (2 : ℚ) ^ (max (k - 52) (-1074))
        then .inf false
        else .finite ((Float64.roundHalfEven (x / (2 : ℚ) ^ (max (k - 52) (-1074))) : ℚ)
              * (2 : ℚ) ^ (max (k - 52) (-1074))) := by
  have hl := log2_eq x k hx h1 h2
  have hne : x ≠ 0 := ne_of_gt hx
  have hnn : ¬ x < 0 := not_lt.mpr (le_of_lt hx)
  simp [Float64.nearest, hne, hnn, hl]

/-- The product of the quota formula, from the results of its four roundings. -/
theorem product_eval (fl : ℚ → Float64) (cfg : Settings) (tokens : Int) (price a b c d : ℚ)
    (h0 : fl (tokens : ℚ) = .finite a) (h1 : fl (a * price) = .finite b)
    (h2 : fl (b / 1000000) = .finite c) (h3 : fl (c * cfg.QuotaPerUnit) = .finite d) :
    machine.product fl cfg tokens price = .finite d := by
  have hm : ((1000000 : ℚ) = 0) = False := by norm_num
  simp only [machine.product, h0, Float64.mul, h1, Float64.div, hm, if_false, h2, h3]

/-- The truncation of a rational that is an integer. -/
theorem intOfFloat_intCast (z : Int) : intOfFloat (z : ℚ) = z := by
  unfold intOfFloat
  split_ifs with h
  · exact Int.floor_intCast z
  · have : Int.floor (-(z : ℚ)) = -z := by
      rw [← Int.cast_neg]
      exact Int.floor_intCast (-z)
    rw [this]
    ring

/-- The conversion to `int` of an integer that fits in 64 bits. -/
theorem toInt_intCast (z : Int) (hlo : -9223372036854775808 ≤ z)
    (hhi : z < 9223372036854775808) : Float64.toInt (.finite (z : ℚ)) = z := by
  simp [Float64.toInt, intOfFloat_intCast, hlo, hhi]

/-- The quota of positive tokens at a positive price, from the finite value handed to
`math.Round`, when the rounded value fits in 64 bits. -/
theorem machine_calc_of_product (fl : ℚ → Float64) (cfg : Settings) (tokens : Int)
    (price v : ℚ) (ht : 0 < tokens) (hp : 0 < price)
    (hv : machine.product fl cfg tokens price = .finite v)
    (hlo : -9223372036854775808 ≤ mathRound v) (hhi : mathRound v < 9223372036854775808) :
    machine.calcQuotaFromTokens fl cfg tokens price = mathRound v := by
  have hn : ¬ (tokens ≤ 0 ∨ price ≤ 0) := by
    rintro (h | h)
    · omega
    · exact absurd hp (not_lt.mpr h)
  simp only [machine.calcQuotaFromTokens, if_neg hn, hv, Float64.roundToInteger]
  exact toInt_intCast _ hlo hhi

/-- In exact arithmetic the value handed to `math.Round` is the exact product. -/
theorem product_exact (cfg : Settings) (tokens : Int) (price : ℚ) :
    machine.product Float64.exact cfg tokens price
      = .finite ((tokens : ℚ) * price / 1000000 * cfg.QuotaPerUnit) := by
  have hm : ((1000000 : ℚ) = 0) = False := by norm_num
  simp only [machine.product, Float64.exact, Float64.mul, Float64.div, hm, if_false]

/-- In exact arithmetic, a quota that fits in 64 bits is the quota of the formula over
the unbounded integers. -/
theorem machine_calc_exact (cfg : Settings) (tokens : Int) (price : ℚ)
    (hlo : -9223372036854775808 ≤ service.calcQuotaFromTokens cfg tokens price)
    (hhi : service.calcQuotaFromTokens cfg tokens price < 9223372036854775808) :
    machine.calcQuotaFromTokens Float64.exact cfg tokens price
      = service.calcQuotaFromTokens cfg tokens price := by
  by_cases hn : tokens ≤ 0 ∨ price ≤ 0
  · simp [machine.calcQuotaFromTokens, service.calcQuotaFromTokens, hn]
  · have ht : 0 < tokens := by
      by_contra h
      exact hn (Or.inl (by omega))
    have hp : 0 < price := by
      by_contra h
      exact hn (Or.inr (not_lt.mp h))
    simp only [service.calcQuotaFromTokens, if_neg hn] at hlo hhi ⊢
    exact machine_calc_of_product Float64.exact cfg tokens price _ ht hp
      (product_exact cfg tokens price) hlo hhi

/-- The quota of positive tokens at a positive price when the rounded value does not
fit in 64 bits: the most negative integer. -/
theorem machine_calc_out_of_range (fl : ℚ → Float64) (cfg : Settings) (tokens : Int)
    (price v : ℚ) (ht : 0 < tokens) (hp : 0 < price)
    (hv : machine.product fl cfg tokens price = .finite v)
    (h : ¬ (-9223372036854775808 ≤ mathRound v ∧ mathRound v < 9223372036854775808)) :
    machine.calcQuotaFromTokens fl cfg tokens price = -9223372036854775808 := by
  have hn : ¬ (tokens ≤ 0 ∨ price ≤ 0) := by
    rintro (h | h)
    · omega
    · exact absurd hp (not_lt.mpr h)
  simp only [machine.calcQuotaFromTokens, if_neg hn, hv, Float64.roundToInteger,
    Float64.toInt, intOfFloat_intCast, if_neg h]

/-! ## The roundings of the sample quotas -/

/-- The `float64` of 1 token at price 1. -/
theorem nearest_one_tokens :
    Float64.nearest (((1 : ℤ) : ℚ))
      = .finite (1) := by
  rw [nearest_pos _ (0) (by norm_num [sampleSettings]) (by norm_num [sampleSettings])
    (by norm_num [sampleSettings])]
  norm_num [Float64.roundHalfEven, sampleSettings]

/-- The first rounding of the product for 1 token at price 1. -/
theorem nearest_one_priced :
    Float64.nearest (1 * 1)
      = .finite (1) := by
  rw [nearest_pos _ (0) (by norm_num [sampleSettings]) (by norm_num [sampleSettings])
    (by norm_num [sampleSettings])]
  norm_num [Float64.roundHalfEven, sampleSettings]

/-- The rounding of the quotient for 1 token at price 1. -/
theorem nearest_one_scaled :
    Float64.nearest (1 / 1000000)
      = .finite (4722366482869645 / 4722366482869645213696) := by
  rw [nearest_pos _ (-20) (by norm_num [sampleSettings]) (by norm_num [sampleSettings])
    (by norm_num [sampleSettings])]
  norm_num [Float64.roundHalfEven, sampleSettings]

/-- The last rounding of the product for 1 token at price 1. -/
theorem nearest_one_product :
    Float64.nearest (4722366482869645 / 4722366482869645213696 * sampleSettings.QuotaPerUnit)
      = .finite (1 / 2) := by
  rw [nearest_pos _ (-2) (by norm_num [sampleSettings]) (by norm_num [sampleSettings])
    (by norm_num [sampleSettings])]
  norm_num [Float64.roundHalfEven, sampleSettings]

/-- The `float64` value handed to `math.Round` for 1 token at price 1. -/
theorem product_one :
    machine.product Float64.nearest sampleSettings 1 1 = .finite (1 / 2) :=
  product_eval Float64.nearest sampleSettings 1 1 (1) (1)
    (4722366482869645 / 4722366482869645213696) (1 / 2)
    nearest_one_tokens nearest_one_priced nearest_one_scaled nearest_one_product

/-- The `float64` of 3 tokens at price 1. -/
theorem nearest_three_tokens :
    Float64.nearest (((3 : ℤ) : ℚ))
      = .finite (3) := by
  rw [nearest_pos _ (1) (by norm_num [sampleSettings]) (by norm_num [sampleSettings])
    (by norm_num [sampleSettings])]
  norm_num [Float64.roundHalfEven, sampleSettings]

/-- The first rounding of the product for 3 tokens at price 1. -/
theorem nearest_three_priced :
    Float64.nearest (3 * 1)
      = .finite (3) := by
  rw [nearest_pos _ (1) (by norm_num [sampleSettings]) (by norm_num [sampleSettings])
    (by norm_num [sampleSettings])]
  norm_num [Float64.roundHalfEven, sampleSettings]

/-- The rounding of the quotient for 3 tokens at price 1. -/
theorem nearest_three_scaled :
    Float64.nearest (3 / 1000000)
      = .finite (1770887431076117 / 590295810358705651712) := by
  rw [nearest_pos _ (-19) (by norm_num [sampleSettings]) (by norm_num [sampleSettings])
    (by norm_num [sampleSettings])]
  norm_num [Float64.roundHalfEven, sampleSettings]

/-- The last rounding of the product for 3 tokens at price 1. -/
theorem nearest_three_product :
    Float64.nearest (1770887431076117 / 590295810358705651712 * sampleSettings.QuotaPerUnit)
      = .finite (3 / 2) := by
  rw [nearest_pos _ (0) (by norm_num [sampleSettings]) (by norm_num [sampleSettings])
    (by norm_num [sampleSettings])]
  norm_num [Float64.roundHalfEven, sampleSettings]

/-- The `float64` value handed to `math.Round` for 3 tokens at price 1. -/
theorem product_three :
    machine.product Float64.nearest sampleSettings 3 1 = .finite (3 / 2) :=
  product_eval Float64.nearest sampleSettings 3 1 (3) (3)
    (1770887431076117 / 590295810358705651712) (3 / 2)
    nearest_three_tokens nearest_three_priced nearest_three_scaled nearest_three_product

/-- The `float64` of 249 tokens at price 1. -/
theorem nearest_tie_tokens :
    Float64.nearest (((249 : ℤ) : ℚ))
      = .finite (249) := by
  rw [nearest_pos _ (7) (by norm_num [sampleSettings]) (by norm_num [sampleSettings])
    (by norm_num [sampleSettings])]
  norm_num [Float64.roundHalfEven, sampleSettings]

/-- The first rounding of the product for 249 tokens at price 1. -/
theorem nearest_tie_priced :
    Float64.nearest (249 * 1)
      = .finite (249) := by
  rw [nearest_pos _ (7) (by norm_num [sampleSettings]) (by norm_num [sampleSettings])
    (by norm_num [sampleSettings])]
  norm_num [Float64.roundHalfEven, sampleSettings]

/-- The rounding of the quotient for 249 tokens at price 1. -/
theorem nearest_tie_scaled :
    Float64.nearest (249 / 1000000)
      = .finite (2296619637176839 / 9223372036854775808) := by
  rw [nearest_pos _ (-12) (by norm_num [sampleSettings]) (by norm_num [sampleSettings])
    (by norm_num [sampleSettings])]
  norm_num [Float64.roundHalfEven, sampleSettings]

/-- The last rounding of the product for 249 tokens at price 1. -/
theorem nearest_tie_product :
    Float64.nearest (2296619637176839 / 9223372036854775808 * sampleSettings.QuotaPerUnit)
      = .finite (8760908650119167 / 70368744177664) := by
  rw [nearest_pos _ (6) (by norm_num [sampleSettings]) (by norm_num [sampleSettings])
    (by norm_num [sampleSettings])]
  norm_num [Float64.roundHalfEven, sampleSettings]

/-- The `float64` value handed to `math.Round` for 249 tokens at price 1. -/
theorem product_tie :
    machine.product Float64.nearest sampleSettings 249 1
      = .finite (8760908650119167 / 70368744177664) :=
  product_eval Float64.nearest sampleSettings 249 1 (249) (249)
    (2296619637176839 / 9223372036854775808) (8760908650119167 / 70368744177664)
    nearest_tie_tokens nearest_tie_priced nearest_tie_scaled nearest_tie_product

/-- The `float64` of 1 token at price 40. -/
theorem nearest_forty_tokens :
    Float64.nearest (((1 : ℤ) : ℚ))
      = .finite (1) := by
  rw [nearest_pos _ (0) (by norm_num [sampleSettings]) (by norm_num [sampleSettings])
    (by norm_num [sampleSettings])]
  norm_num [Float64.roundHalfEven, sampleSettings]

/-- The first rounding of the product for 1 token at price 40. -/
theorem nearest_forty_priced :
    Float64.nearest (1 * 40)
      = .finite (40) := by
  rw [nearest_pos _ (5) (by norm_num [sampleSettings]) (by norm_num [sampleSettings])
    (by norm_num [sampleSettings])]
  norm_num [Float64.roundHalfEven, sampleSettings]

/-- The rounding of the quotient for 1 token at price 40. -/
theorem nearest_forty_scaled :
    Float64.nearest (40 / 1000000)
      = .finite (5902958103587057 / 147573952589676412928) := by
  rw [nearest_pos _ (-15) (by norm_num [sampleSettings]) (by norm_num [sampleSettings])
    (by norm_num [sampleSettings])]
  norm_num [Float64.roundHalfEven, sampleSettings]

/-- The last rounding of the product for 1 token at price 40. -/
theorem nearest_forty_product :
    Float64.nearest (5902958103587057 / 147573952589676412928 * sampleSettings.QuotaPerUnit)
      = .finite (20) := by
  rw [nearest_pos _ (4) (by norm_num [sampleSettings]) (by norm_num [sampleSettings])
    (by norm_num [sampleSettings])]
  norm_num [Float64.roundHalfEven, sampleSettings]

/-- The `float64` value handed to `math.Round` for 1 token at price 40. -/
theorem product_forty :
    machine.product Float64.nearest sampleSettings 1 40 = .finite (20) :=
  product_eval Float64.nearest sampleSettings 1 40 (1) (40)
    (5902958103587057 / 147573952589676412928) (20)
    nearest_forty_tokens nearest_forty_priced nearest_forty_scaled nearest_forty_product

/-- The `float64` of the largest token count at price 40. -/
theorem nearest_largest_tokens :
    Float64.nearest (((9223372036854775807 : ℤ) : ℚ))
      = .finite (9223372036854775808) := by
  rw [nearest_pos _ (62) (by norm_num [sampleSettings]) (by norm_num [sampleSettings])
    (by norm_num [sampleSettings])]
  norm_num [Float64.roundHalfEven, sampleSettings]

/-- The first rounding of the product for the largest token count at price 40. -/
theorem nearest_largest_priced :
    Float64.nearest (9223372036854775808 * 40)
      = .finite (368934881474191032320) := by
  rw [nearest_pos _ (68) (by norm_num [sampleSettings]) (by norm_num [sampleSettings])
    (by norm_num [sampleSettings])]
  norm_num [Float64.roundHalfEven, sampleSettings]

/-- The rounding of the quotient for the largest token count at price 40. -/
theorem nearest_largest_scaled :
    Float64.nearest (368934881474191032320 / 1000000)
      = .finite (5902958103587057 / 16) := by
  rw [nearest_pos _ (48) (by norm_num [sampleSettings]) (by norm_num [sampleSettings])
    (by norm_num [sampleSettings])]
  norm_num [Float64.roundHalfEven, sampleSettings]

/-- The last rounding of the product for the largest token count at price 40. -/
theorem nearest_largest_product :
    Float64.nearest (5902958103587057 / 16 * sampleSettings.QuotaPerUnit)
      = .finite (184467440737095516160) := by
  rw [nearest_pos _ (67) (by norm_num [sampleSettings]) (by norm_num [sampleSettings])
    (by norm_num [sampleSettings])]
  norm_num [Float64.roundHalfEven, sampleSettings]

/-- The `float64` value handed to `math.Round` for the largest token count at price 40. -/
theorem product_largest :
    machine.product Float64.nearest sampleSettings 9223372036854775807 40
      = .finite (184467440737095516160) :=
  product_eval Float64.nearest sampleSettings 9223372036854775807 40 (9223372036854775808)
    (368934881474191032320)
    (5902958103587057 / 16) (184467440737095516160)
    nearest_largest_tokens nearest_largest_priced nearest_largest_scaled nearest_largest_product

/-! ## Ties and the range of the quota -/

/-- C4, refuted as stated: one token at price 1 with 500000 units per currency unit
has the exact value 1/2, halfway between 0 and 1, and both copies of
`calcQuotaFromTokens` return 1, the odd neighbour, over exact rationals and in `float64`
arithmetic alike. -/
theorem calcQuotaFromTokens_tie_odd :
    ((1 : ℤ) : ℚ) * 1 / 1000000 * sampleSettings.QuotaPerUnit = ((0 : ℤ) : ℚ) + 1 / 2 ∧
    service.calcQuotaFromTokens sampleSettings 1 1 = 1 ∧
    helper.calcQuotaFromTokens sampleSettings 1 1 = 1 ∧
    ¬ Even (service.calcQuotaFromTokens sampleSettings 1 1) ∧
    machine.calcQuotaFromTokens Float64.nearest sampleSettings 1 1 = 1 := by
  have h1 : service.calcQuotaFromTokens sampleSettings 1 1 = 1 := by
    norm_num [service.calcQuotaFromTokens, sampleSettings, mathRound]
  have h2 : helper.calcQuotaFromTokens sampleSettings 1 1 = 1 := by
    norm_num [helper.calcQuotaFromTokens, sampleSettings, mathRound]
  have hm : mathRound (1 / 2 : ℚ) = 1 := by norm_num [mathRound]
  refine ⟨by norm_num [sampleSettings], h1, h2, ?_, ?_⟩
  · rw [h1]
    decide
  · rw [machine_calc_of_product Float64.nearest sampleSettings 1 1 _ (by decide)
      (by norm_num) product_one (by rw [hm]; decide) (by rw [hm]; decide), hm]

/-- C4, amended: `calcQuotaFromTokens` resolves a tie as Go `math.Round` does, half away
from zero, and on the `float64` value of `float64(tokens) * price / 1e6 * QuotaPerUnit`,
not on the exact one. When that `float64` value is exactly `n + 1/2` (`tokens > 0`,
`price > 0`, `n` and `n + 1` within the 64-bit `int`), the quota is `n + 1` for a value
that is not negative and `n` for a negative one, whether or not that integer is even.
An exact tie whose `float64` value is not a tie is rounded as the `float64` value is:
249 tokens at price 1 with 500000 units per currency unit have the exact value
`124 + 1/2` and the `float64` value 124.49999999999999, and are charged 124. -/
theorem calcQuotaFromTokens_float_tie (cfg : Settings) (tokens : Int) (price : ℚ) (n : ℤ)
    (ht : 0 < tokens) (hp : 0 < price)
    (hv : machine.product Float64.nearest cfg tokens price = .finite ((n : ℚ) + 1 / 2))
    (hlo : -9223372036854775808 ≤ n) (hhi : n + 1 < 9223372036854775808) :
    machine.calcQuotaFromTokens Float64.nearest cfg tokens price
      = (if 0 ≤ (n : ℚ) + 1 / 2 then n + 1 else n) ∧
    (((249 : ℤ) : ℚ) * 1 / 1000000 * sampleSettings.QuotaPerUnit = ((124 : ℤ) : ℚ) + 1 / 2 ∧
      machine.product Float64.nearest sampleSettings 249 1
        = .finite (8760908650119167 / 70368744177664) ∧
      machine.calcQuotaFromTokens Float64.nearest sampleSettings 249 1 = 124) := by
  have hr := mathRound_half n ((n : ℚ) + 1 / 2) rfl
  have hlo2 : -9223372036854775808 ≤ mathRound ((n : ℚ) + 1 / 2) := by
    rw [hr]
    split_ifs <;> omega
  have hhi2 : mathRound ((n : ℚ) + 1 / 2) < 9223372036854775808 := by
    rw [hr]
    split_ifs <;> omega
  refine ⟨?_, by norm_num [sampleSettings], product_tie, ?_⟩
  · rw [machine_calc_of_product Float64.nearest cfg tokens price _ ht hp hv hlo2 hhi2, hr]
  · have hm : mathRound (8760908650119167 / 70368744177664 : ℚ) = 124 := by
      norm_num [mathRound]
    rw [machine_calc_of_product Float64.nearest sampleSettings 249 1 _ (by decide)
      (by norm_num) product_tie (by rw [hm]; decide) (by rw [hm]; decide), hm]

/-- Witness of the amended C4: 3 tokens at price 1 have the `float64` value 3/2 and are
charged 2; 1 token has the `float64` value 1/2 and is charged 1. -/
theorem calcQuotaFromTokens_float_tie_witness :
    machine.product Float64.nearest sampleSettings 3 1 = .finite (((1 : ℤ) : ℚ) + 1 / 2) ∧
    machine.calcQuotaFromTokens Float64.nearest sampleSettings 3 1 = 2 ∧
    machine.calcQuotaFromTokens Float64.nearest sampleSettings 1 1 = 1 := by
  have h3 : machine.product Float64.nearest sampleSettings 3 1
      = .finite (((1 : ℤ) : ℚ) + 1 / 2) := by
    rw [product_three]
    norm_num
  have h1 : machine.product Float64.nearest sampleSettings 1 1
      = .finite (((0 : ℤ) : ℚ) + 1 / 2) := by
    rw [product_one]
    norm_num
  have a := (calcQuotaFromTokens_float_tie sampleSettings 3 1 1 (by decide) (by norm_num) h3
    (by decide) (by decide)).1
  have b := (calcQuotaFromTokens_float_tie sampleSettings 1 1 0 (by decide) (by norm_num) h1
    (by decide) (by decide)).1
  have ha : (0 : ℚ) ≤ ((1 : ℤ) : ℚ) + 1 / 2 := by norm_num
  have hb : (0 : ℚ) ≤ ((0 : ℤ) : ℚ) + 1 / 2 := by norm_num
  rw [if_pos ha] at a
  rw [if_pos hb] at b
  exact ⟨h3, a, b⟩

/-- C27, refuted as stated: with 500000 units per currency unit and price 40, the
largest token count has a rounded value beyond the 64-bit `int`, and the conversion
returns the most negative integer, in exact arithmetic and in `float64` arithmetic
alike: the quota is negative and below the quota 20 of one token. And with a negative
scale factor the quota of 150 tokens at price 1 is -75. -/
theorem calcQuotaFromTokens_overflow :
    machine.calcQuotaFromTokens Float64.exact sampleSettings 9223372036854775807 40
      = -9223372036854775808 ∧
    machine.calcQuotaFromTokens Float64.nearest sampleSettings 9223372036854775807 40
      = -9223372036854775808 ∧
    machine.calcQuotaFromTokens Float64.exact sampleSettings 1 40 = 20 ∧
    machine.calcQuotaFromTokens Float64.nearest sampleSettings 1 40 = 20 ∧
    ¬ (0 ≤ machine.calcQuotaFromTokens Float64.exact sampleSettings 9223372036854775807 40) ∧
    ¬ (machine.calcQuotaFromTokens Float64.exact sampleSettings 1 40
        ≤ machine.calcQuotaFromTokens Float64.exact sampleSettings 9223372036854775807 40) ∧
    machine.calcQuotaFromTokens Float64.exact negativeScaleSettings 150 1 = -75 := by
  have m1 : mathRound (((9223372036854775807 : ℤ) : ℚ) * 40 / 1000000
      * sampleSettings.QuotaPerUnit) = 184467440737095516140 := by
    norm_num [sampleSettings, mathRound]
  have m2 : mathRound (184467440737095516160 : ℚ) = 184467440737095516160 := by
    norm_num [mathRound]
  have m3 : mathRound (((1 : ℤ) : ℚ) * 40 / 1000000 * sampleSettings.QuotaPerUnit) = 20 := by
    norm_num [sampleSettings, mathRound]
  have m4 : mathRound (20 : ℚ) = 20 := by norm_num [mathRound]
  have m5 : mathRound (((150 : ℤ) : ℚ) * 1 / 1000000 * negativeScaleSettings.QuotaPerUnit)
      = -75 := by
    norm_num [negativeScaleSettings, sampleSettings, mathRound]
  have e1 : machine.calcQuotaFromTokens Float64.exact sampleSettings 9223372036854775807 40
      = -9223372036854775808 :=
    machine_calc_out_of_range Float64.exact sampleSettings 9223372036854775807 40 _
      (by decide) (by norm_num) (product_exact _ _ _) (by rw [m1]; decide)
  have e2 : machine.calcQuotaFromTokens Float64.nearest sampleSettings 9223372036854775807 40
      = -9223372036854775808 :=
    machine_calc_out_of_range Float64.nearest sampleSettings 9223372036854775807 40 _
      (by decide) (by norm_num) product_largest (by rw [m2]; decide)
  have e3 : machine.calcQuotaFromTokens Float64.exact sampleSettings 1 40 = 20 := by
    rw [machine_calc_of_product Float64.exact sampleSettings 1 40 _ (by decide) (by norm_num)
      (product_exact _ _ _) (by rw [m3]; decide) (by rw [m3]; decide), m3]
  have e4 : machine.calcQuotaFromTokens Float64.nearest sampleSettings 1 40 = 20 := by
    rw [machine_calc_of_product Float64.nearest sampleSettings 1 40 _ (by decide)
      (by norm_num) product_forty (by rw [m4]; decide) (by rw [m4]; decide), m4]
  have e5 : machine.calcQuotaFromTokens Float64.exact negativeScaleSettings 150 1 = -75 := by
    rw [machine_calc_of_product Float64.exact negativeScaleSettings 150 1 _ (by decide)
      (by norm_num) (product_exact _ _ _) (by rw [m5]; decide) (by rw [m5]; decide), m5]
  refine ⟨e1, e2, e3, e4, ?_, ?_, e5⟩
  · rw [e1]
    decide
  · rw [e1, e3]
    decide

/-- C27, amended: over exact rationals and with a scale factor `QuotaPerUnit` that is
not negative, as long as the rounded value `round(tokens * price / 1e6 * QuotaPerUnit)`
is below `2 ^ 63` the quota is that rounded value, it is not negative, and it is
monotone: for `tokens1 ≤ tokens2` with the rounded value at `tokens2` below `2 ^ 63` the
quota at `tokens1` is at most the quota at `tokens2`, for every price, and for
`price1 ≤ price2` with the rounded value at `price2` below `2 ^ 63` the quota at `price1`
is at most the quota at `price2`, for every token count. -/
theorem calcQuotaFromTokens_monotone_in_range (cfg : Settings) (hQ : 0 ≤ cfg.QuotaPerUnit) :
    (∀ (tokens : Int) (price : ℚ),
      service.calcQuotaFromTokens cfg tokens price < 9223372036854775808 →
      machine.calcQuotaFromTokens Float64.exact cfg tokens price
        = service.calcQuotaFromTokens cfg tokens price ∧
      0 ≤ machine.calcQuotaFromTokens Float64.exact cfg tokens price) ∧
    (∀ (tokens1 tokens2 : Int) (price : ℚ), tokens1 ≤ tokens2 →
      service.calcQuotaFromTokens cfg tokens2 price < 9223372036854775808 →
      machine.calcQuotaFromTokens Float64.exact cfg tokens1 price
        ≤ machine.calcQuotaFromTokens Float64.exact cfg tokens2 price) ∧
    (∀ (tokens : Int) (price1 price2 : ℚ), price1 ≤ price2 →
      service.calcQuotaFromTokens cfg tokens price2 < 9223372036854775808 →
      machine.calcQuotaFromTokens Float64.exact cfg tokens price1
        ≤ machine.calcQuotaFromTokens Float64.exact cfg tokens price2) := by
  have heq : ∀ (tokens : Int) (price : ℚ),
      service.calcQuotaFromTokens cfg tokens price < 9223372036854775808 →
      machine.calcQuotaFromTokens Float64.exact cfg tokens price
        = service.calcQuotaFromTokens cfg tokens price := by
    intro tokens price h
    have h0 := service_calcQuotaFromTokens_nonneg cfg tokens price hQ
    exact machine_calc_exact cfg tokens price (by omega) h
  refine ⟨fun tokens price h => ?_, fun t1 t2 price ht h => ?_, fun tokens p1 p2 hp h => ?_⟩
  · rw [heq tokens price h]
    exact ⟨rfl, service_calcQuotaFromTokens_nonneg cfg tokens price hQ⟩
  · have hm := service_calcQuotaFromTokens_mono cfg t1 t2 price price hQ ht le_rfl
    rw [heq t1 price (by omega), heq t2 price h]
    exact hm
  · have hm := service_calcQuotaFromTokens_mono cfg tokens tokens p1 p2 hQ le_rfl hp
    rw [heq tokens p1 (by omega), heq tokens p2 h]
    exact hm

/-- Witness of the amended C27: with 500000 units per currency unit, 100 tokens cost at
most what 150 tokens cost at price 1, and 150 tokens cost at most at price 1 what they
cost at price 2. -/
theorem calcQuotaFromTokens_monotone_in_range_witness :
    (0 : ℚ) ≤ sampleSettings.QuotaPerUnit ∧
    service.calcQuotaFromTokens sampleSettings 150 1 < 9223372036854775808 ∧
    0 ≤ machine.calcQuotaFromTokens Float64.exact sampleSettings 150 1 ∧
    machine.calcQuotaFromTokens Float64.exact sampleSettings 100 1
      ≤ machine.calcQuotaFromTokens Float64.exact sampleSettings 150 1 ∧
    machine.calcQuotaFromTokens Float64.exact sampleSettings 150 1
      ≤ machine.calcQuotaFromTokens Float64.exact sampleSettings 150 2 := by
  have hQ : (0 : ℚ) ≤ sampleSettings.QuotaPerUnit := by norm_num [sampleSettings]
  have h1 : service.calcQuotaFromTokens sampleSettings 150 1 < 9223372036854775808 := by
    norm_num [service.calcQuotaFromTokens, sampleSettings, mathRound]
  have h2 : service.calcQuotaFromTokens sampleSettings 150 2 < 9223372036854775808 := by
    norm_num [service.calcQuotaFromTokens, sampleSettings, mathRound]
  exact ⟨hQ, h1, ((calcQuotaFromTokens_monotone_in_range sampleSettings hQ).1 150 1 h1).2,
    (calcQuotaFromTokens_monotone_in_range sampleSettings hQ).2.1 100 150 1 (by decide) h1,
    (calcQuotaFromTokens_monotone_in_range sampleSettings hQ).2.2 150 1 2 (by norm_num) h2⟩
